import Mathlib

/-!
STM8L interrupt-driven I2C driver (`18_STM8L_HelloI2C/i2c.c`).

A shallow embedding of the driver's transaction context, of its arming API
(`I2C_Slave_Configure`, `I2C_Transaction`, `I2C_Read`, `I2C_Write`) and of the
interrupt handler `I2C_IRQ`, followed by theorems about them.

Modelling conventions.

* `BYTE` values are natural numbers; the places where the C code can leave the
  8-bit range are reduced explicitly (`buffer_index++` is `(i + 1) % 256`, the
  address byte stored into the 8-bit data register is reduced `% 256`), and the
  comparison against `masterTransactionLength - 1` is done in `Int`, as C
  promotes both operands to `int`.
* `BYTE*` values are addresses into one byte memory `mem : Nat → Nat`, so the
  master and the slave buffer may overlap.
* The peripheral's status and data registers are owned by the hardware: one
  invocation of the handler sees one reading `Hw` of `SR1`, `SR2`, `SR3` and
  `DR`.  Bit-field writes to `SR2` inside the handler act on the handler's view
  of that register.  `CR2` is kept in the state.
* The device header `iostm8l151f3.h` is not part of the sources, therefore the
  positions of the register bit-fields are a parameter `Layout`.
* Everything the handler does to the outside world is recorded, in program
  order, as a list of `Event`s: whole-register reads and writes, bit-field
  writes, accesses through the buffer pointers, and the calls of the user
  callbacks and of the diagnostic sink.  Bit-field tests in conditions read the
  current reading and are not recorded.  The callbacks are external: they are
  recorded and assumed not to touch the transaction context or the buffers.
-/

namespace STM8

/-! ## Registers and bit-fields -/

/-- Positions of the bit-fields that `i2c.c` uses, as declared by the device
header `iostm8l151f3.h` (absent from the sources, hence a parameter). -/
structure Layout where
  /-- Bit-field `I2C1_CR2_START` -/
  START : Nat
  /-- Bit-field `I2C1_CR2_STOP` -/
  STOP : Nat
  /-- Bit-field `I2C1_CR2_ACK` -/
  ACK : Nat
  /-- Bit-field `I2C1_SR1_SB` -/
  SB : Nat
  /-- Bit-field `I2C1_SR1_ADDR` -/
  ADDR : Nat
  /-- Bit-field `I2C1_SR1_STOPF` -/
  STOPF : Nat
  /-- Bit-field `I2C1_SR1_RXNE` -/
  RXNE : Nat
  /-- Bit-field `I2C1_SR1_TXE` -/
  TXE : Nat
  /-- Bit-field `I2C1_SR2_BERR` -/
  BERR : Nat
  /-- Bit-field `I2C1_SR2_ARLO` -/
  ARLO : Nat
  /-- Bit-field `I2C1_SR2_AF` -/
  AF : Nat
  /-- Bit-field `I2C1_SR2_OVR` -/
  OVR : Nat
  /-- Bit-field `I2C1_SR3_MSL` -/
  MSL : Nat
  /-- Bit-field `I2C1_SR3_BUSY` -/
  BUSY : Nat
  /-- Bit-field `I2C1_SR3_TRA` -/
  TRA : Nat
  /-- Width in bits of the field `I2C1_OARL_ADD` -/
  ADD_width : Nat

/-- The layout of the STM8L15x I2C1 block (reference manual RM0031):
`CR2` = `.. ACK STOP START`, `SR1` = `TXE RXNE . STOPF ADD10 BTF ADDR SB`,
`SR2` = `.. WUFH . OVR AF ARLO BERR`, `SR3` = `.. TRA BUSY MSL`,
`OARL` = `ADD[7:1] ADD0`. -/
def stm8l15x : Layout :=
  { START := 0, STOP := 1, ACK := 2,
    SB := 0, ADDR := 1, STOPF := 4, RXNE := 6, TXE := 7,
    BERR := 0, ARLO := 1, AF := 2, OVR := 3,
    MSL := 0, BUSY := 1, TRA := 2,
    ADD_width := 7 }

/-- The four error flags of `SR2` are exactly the four bits kept by the mask
`0x0F` that the handler applies to `SR2`. -/
def Layout.errorNibble (L : Layout) : Prop :=
  L.BERR < 4 ∧ L.ARLO < 4 ∧ L.AF < 4 ∧ L.OVR < 4 ∧
  L.BERR ≠ L.ARLO ∧ L.BERR ≠ L.AF ∧ L.BERR ≠ L.OVR ∧
  L.ARLO ≠ L.AF ∧ L.ARLO ≠ L.OVR ∧ L.AF ≠ L.OVR

instance (L : Layout) : Decidable L.errorNibble := by
  unfold Layout.errorNibble; infer_instance

/-- Value of the one-bit field at position `pos` of the register value `reg`,
as tested by `if (I2C1_SR1_SB)` and the like. -/
def flag (pos reg : Nat) : Bool := reg.testBit pos

/-- Register value after the bit-field write `FIELD = 1`. -/
def setBit (reg pos : Nat) : Nat := reg ||| (1 <<< pos)

/-- Register value after the bit-field write `FIELD = 0`: the bit is flipped
when it is set. -/
def clearBit (reg pos : Nat) : Nat := if reg.testBit pos then reg ^^^ (1 <<< pos) else reg

/-- The peripheral registers that the driver reads or writes as a whole. -/
inductive Reg where
  | CR2 | SR1 | SR2 | SR3 | DR
  deriving DecidableEq, Repr

/-- The bit-fields that the driver writes. -/
inductive Field where
  | START | STOP | ACK | AF | OVR | ARLO | BERR | OARL_ADD
  deriving DecidableEq, Repr

/-- One externally visible action of the driver. -/
inductive Event where
  /-- read of a whole register -/
  | rd (r : Reg)
  /-- write of a whole register -/
  | wr (r : Reg) (v : Nat)
  /-- write of a bit-field -/
  | setf (f : Field) (v : Nat)
  /-- read of the byte at an address, through a buffer pointer -/
  | load (addr : Nat)
  /-- write of a byte at an address, through a buffer pointer -/
  | store (addr : Nat) (v : Nat)
  /-- Call of `i2c_user_Tx_Callback(buffer, length)` -/
  | Tx_Callback (buffer length : Nat)
  /-- Call of `i2c_user_Rx_Callback(buffer, length)` -/
  | Rx_Callback (buffer length : Nat)
  /-- Call of `i2c_user_Slave_Rx_Callback(buffer, length)` -/
  | Slave_Rx_Callback (buffer length : Nat)
  /-- Call of `i2c_user_Slave_Tx_Callback(buffer, length)` -/
  | Slave_Tx_Callback (buffer length : Nat)
  /-- Call of `i2c_user_Error_Callback(error_status)` -/
  | Error_Callback (error_status : Nat)
  /-- Call of `I2C_IRQ_Printf(message)` -/
  | Printf (message : String)
  deriving DecidableEq, Repr

/-! ## Transaction context and machine state -/

/-- The C structure `struct i2c_s`. -/
structure i2c_s where
  SlaveAddress : Nat
  masterBuffer : Nat
  masterTransactionLength : Nat
  buffer_index : Nat
  reg : Nat
  masterMode : Nat
  readwrite : Nat
  slaveBuffer : Nat
  slaveTransactionLength : Nat
  deriving DecidableEq, Repr

/-- What the driver owns or writes: the global `i2c`, the byte memory reached
through its two buffer pointers, the control register `CR2` and the own-address
field `I2C1_OARL_ADD`. -/
structure State where
  i2c : i2c_s
  mem : Nat → Nat
  CR2 : Nat
  OARL_ADD : Nat

/-- One reading of the hardware-owned registers, as seen by one invocation of
the interrupt handler. -/
structure Hw where
  SR1 : Nat
  SR2 : Nat
  SR3 : Nat
  DR : Nat
  deriving DecidableEq, Repr

/-! ## Configuration and arming API -/

/-- The C function `I2C_Slave_Configure(ownSlaveAddress, buffer, size)`. -/
def I2C_Slave_Configure (L : Layout) (ownSlaveAddress buffer size : Nat) (s : State) :
    State × List Event :=
  ({ s with
      OARL_ADD := ownSlaveAddress % 2 ^ L.ADD_width
      i2c := { s.i2c with slaveBuffer := buffer, slaveTransactionLength := size, masterMode := 0 }
      CR2 := setBit s.CR2 L.ACK },
   [Event.setf Field.OARL_ADD (ownSlaveAddress % 2 ^ L.ADD_width), Event.setf Field.ACK 1])

/-- The loop `while(I2C1_SR3_BUSY);` run against the successive readings of
`SR3`: the readings left after the first one with `BUSY` clear, or `none` when
every reading is busy (the loop is still spinning). -/
def waitBusFree (L : Layout) : List Nat → Option (List Nat)
  | [] => none
  | sr3 :: rest => if flag L.BUSY sr3 then waitBusFree L rest else some rest

/-- The C function `I2C_Transaction(read, slaveAddress, buffer, count)`, run
against the successive readings `sr3` of `SR3` made by its busy-wait loop. -/
def I2C_Transaction (L : Layout) (read slaveAddress buffer count : Nat) (sr3 : List Nat)
    (s : State) : Option (State × List Event) :=
  let s1 : State :=
    { s with i2c := { s.i2c with
        readwrite := read, SlaveAddress := slaveAddress, buffer_index := 0,
        masterBuffer := buffer, masterTransactionLength := count, masterMode := 1 } }
  match waitBusFree L sr3 with
  | none => none
  | some _ =>
    some ({ s1 with CR2 := setBit (setBit s1.CR2 L.ACK) L.START },
          [Event.setf Field.ACK 1, Event.setf Field.START 1])

/-- The C function `I2C_Read(slaveAddress, buffer, count)`. -/
def I2C_Read (L : Layout) (slaveAddress buffer count : Nat) (sr3 : List Nat) (s : State) :
    Option (State × List Event) :=
  I2C_Transaction L 0x01 slaveAddress buffer count sr3 s

/-- The C function `I2C_Write(slaveAddress, buffer, count)`. -/
def I2C_Write (L : Layout) (slaveAddress buffer count : Nat) (sr3 : List Nat) (s : State) :
    Option (State × List Event) :=
  I2C_Transaction L 0x00 slaveAddress buffer count sr3 s

/-! ## The interrupt handler -/

/-- The value `(i2c.SlaveAddress << 1) | i2c.readwrite` as stored into the
8-bit data register. -/
def addressByte (slaveAddress readwrite : Nat) : Nat :=
  ((slaveAddress <<< 1) ||| readwrite) % 256

/-- Master branch, `TRA` set: lines 175-188 of `i2c.c`. -/
def masterTransmit (L : Layout) (hw : Hw) (s : State) : State × List Event :=
  if flag L.TXE hw.SR1 then
    let addr := s.i2c.masterBuffer + s.i2c.buffer_index
    let s1 : State := { s with i2c := { s.i2c with buffer_index := (s.i2c.buffer_index + 1) % 256 } }
    if s1.i2c.buffer_index = s1.i2c.masterTransactionLength then
      ({ s1 with CR2 := setBit s1.CR2 L.STOP },
       [Event.load addr, Event.wr Reg.DR (s.mem addr), Event.setf Field.STOP 1,
        Event.Tx_Callback s1.i2c.masterBuffer s1.i2c.masterTransactionLength])
    else
      (s1, [Event.load addr, Event.wr Reg.DR (s.mem addr)])
  else if !flag L.STOPF hw.SR1 then
    (s, [Event.Printf "TRA, no TXE and not Stop !\n\r"])
  else
    (s, [])

/-- Master branch, `TRA` clear: lines 192-217 of `i2c.c`. -/
def masterReceive (L : Layout) (hw : Hw) (s : State) : State × List Event :=
  if flag L.RXNE hw.SR1 then
    let data := hw.DR
    let addr := s.i2c.masterBuffer + s.i2c.buffer_index
    let r1 : State × List Event :=
      if s.i2c.buffer_index < s.i2c.masterTransactionLength then
        ({ s with mem := Function.update s.mem addr data },
         [Event.rd Reg.DR, Event.store addr data])
      else
        (s, [Event.rd Reg.DR])
    let r2 : State × List Event :=
      if (r1.1.i2c.buffer_index : Int) = (r1.1.i2c.masterTransactionLength : Int) - 1 then
        ({ r1.1 with CR2 := setBit (clearBit r1.1.CR2 L.ACK) L.STOP },
         r1.2 ++ [Event.setf Field.ACK 0, Event.setf Field.STOP 1,
                  Event.Rx_Callback r1.1.i2c.masterBuffer r1.1.i2c.masterTransactionLength])
      else if r1.1.i2c.buffer_index ≥ r1.1.i2c.masterTransactionLength then
        ({ r1.1 with i2c := { r1.1.i2c with masterMode := 0 }, CR2 := setBit r1.1.CR2 L.ACK },
         r1.2 ++ [Event.setf Field.ACK 1])
      else
        r1
    ({ r2.1 with i2c := { r2.1.i2c with buffer_index := (r2.1.i2c.buffer_index + 1) % 256 } }, r2.2)
  else if !flag L.STOPF hw.SR1 then
    (s, [Event.Printf "Not TRA, no RXNE and not StopF !\n\r"])
  else
    (s, [])

/-- The branch `if(i2c.masterMode) { ... }`: lines 160-219 of `i2c.c`. -/
def masterBranch (L : Layout) (hw : Hw) (s : State) : State × List Event :=
  if flag L.SB hw.SR1 then
    ({ s with i2c := { s.i2c with reg := hw.SR1 } },
     [Event.rd Reg.SR1, Event.wr Reg.DR (addressByte s.i2c.SlaveAddress s.i2c.readwrite)])
  else if flag L.ADDR hw.SR1 then
    ({ s with i2c := { s.i2c with reg := hw.SR3, buffer_index := 0 } },
     [Event.rd Reg.SR1, Event.rd Reg.SR3])
  else if flag L.TRA hw.SR3 then
    masterTransmit L hw s
  else
    masterReceive L hw s

/-- The branch `else { ... }` (slave mode): lines 223-265 of `i2c.c`. -/
def slaveBranch (L : Layout) (hw : Hw) (s : State) : State × List Event :=
  if flag L.ADDR hw.SR1 then
    ({ s with i2c := { s.i2c with reg := hw.SR3, buffer_index := 0 }, CR2 := setBit s.CR2 L.ACK },
     [Event.rd Reg.SR1, Event.rd Reg.SR3, Event.setf Field.ACK 1])
  else if flag L.RXNE hw.SR1 then
    if s.i2c.buffer_index < s.i2c.slaveTransactionLength then
      let addr := s.i2c.slaveBuffer + s.i2c.buffer_index
      let s1 : State :=
        { s with mem := Function.update s.mem addr hw.DR
                 i2c := { s.i2c with buffer_index := (s.i2c.buffer_index + 1) % 256 }
                 CR2 := setBit s.CR2 L.ACK }
      if s1.i2c.buffer_index = s1.i2c.slaveTransactionLength then
        (s1, [Event.rd Reg.DR, Event.store addr hw.DR, Event.setf Field.ACK 1,
              Event.Slave_Rx_Callback s1.i2c.slaveBuffer s1.i2c.slaveTransactionLength])
      else
        (s1, [Event.rd Reg.DR, Event.store addr hw.DR, Event.setf Field.ACK 1])
    else
      ({ s with i2c := { s.i2c with reg := hw.DR }, CR2 := setBit s.CR2 L.ACK },
       [Event.rd Reg.DR, Event.setf Field.ACK 1])
  else if flag L.TXE hw.SR1 then
    if s.i2c.buffer_index < s.i2c.slaveTransactionLength then
      let addr := s.i2c.slaveBuffer + s.i2c.buffer_index
      let s1 : State := { s with i2c := { s.i2c with buffer_index := (s.i2c.buffer_index + 1) % 256 } }
      if s1.i2c.buffer_index = s1.i2c.slaveTransactionLength then
        (s1, [Event.load addr, Event.wr Reg.DR (s.mem addr),
              Event.Slave_Tx_Callback s1.i2c.slaveBuffer s1.i2c.slaveTransactionLength])
      else
        (s1, [Event.load addr, Event.wr Reg.DR (s.mem addr)])
    else
      (s, [Event.wr Reg.DR 0])
  else
    (s, [])

/-- One statement `if(I2C1_SR2_X) { I2C1_SR2_X = 0; }` acting on the handler's
view of `SR2` and on the events recorded so far. -/
def clearIfSet (pos : Nat) (f : Field) (p : Nat × List Event) : Nat × List Event :=
  if flag pos p.1 then (clearBit p.1 pos, p.2 ++ [Event.setf f 0]) else p

/-- The error part of the epilogue: lines 271-295 of `i2c.c`. -/
def errorHandling (L : Layout) (hw : Hw) (s : State) : State × List Event :=
  let error_status := hw.SR2 &&& 0x0F
  if error_status ≠ 0 then
    let c := clearIfSet L.BERR Field.BERR (clearIfSet L.ARLO Field.ARLO
              (clearIfSet L.OVR Field.OVR (clearIfSet L.AF Field.AF (hw.SR2, [Event.rd Reg.SR2]))))
    if flag L.MSL hw.SR3 then
      ({ s with CR2 := setBit s.CR2 L.STOP },
       c.2 ++ [Event.setf Field.STOP 1, Event.Error_Callback error_status])
    else
      (s, c.2 ++ [Event.Error_Callback error_status])
  else
    (s, [Event.rd Reg.SR2])

/-- The stop part of the epilogue: lines 296-301 of `i2c.c`. -/
def stopHandling (L : Layout) (hw : Hw) (s : State) : State × List Event :=
  if flag L.STOPF hw.SR1 then
    ({ s with i2c := { s.i2c with reg := hw.SR1 }, CR2 := 0x00 },
     [Event.rd Reg.SR1, Event.wr Reg.CR2 0x00])
  else
    (s, [])

/-- The role-specific branch of the handler: lines 158-266 of `i2c.c`. -/
def roleBranch (L : Layout) (hw : Hw) (s : State) : State × List Event :=
  if s.i2c.masterMode ≠ 0 then masterBranch L hw s else slaveBranch L hw s

/-- The shared epilogue of the handler: lines 271-301 of `i2c.c`. -/
def epilogue (L : Layout) (hw : Hw) (s : State) : State × List Event :=
  let e := errorHandling L hw s
  let f := stopHandling L hw e.1
  (f.1, e.2 ++ f.2)

/-- The interrupt handler `I2C_IRQ`, run on the reading `hw`. -/
def I2C_IRQ (L : Layout) (hw : Hw) (s : State) : State × List Event :=
  let b := roleBranch L hw s
  let e := epilogue L hw b.1
  (e.1, b.2 ++ e.2)

/-- Successive invocations of `I2C_IRQ`, one per reading: the final state and
the events of each invocation.  Between two invocations only the readings
change; the context, the memory and `CR2` are carried over. -/
def I2C_IRQ_seq (L : Layout) : State → List Hw → State × List (List Event)
  | s, [] => (s, [])
  | s, hw :: rest =>
    let r := I2C_IRQ L hw s
    let q := I2C_IRQ_seq L r.1 rest
    (q.1, r.2 :: q.2)

/-! ## Bus events, as readings of the status registers -/

/-- No error flag of `SR2` and no stop flag of `SR1` is set in the reading. -/
def Quiet (L : Layout) (hw : Hw) : Prop :=
  flag L.AF hw.SR2 = false ∧ flag L.OVR hw.SR2 = false ∧ flag L.ARLO hw.SR2 = false ∧
  flag L.BERR hw.SR2 = false ∧ flag L.STOPF hw.SR1 = false

/-- Start-Sent event: `SB` set. -/
def StartSent (L : Layout) (hw : Hw) : Prop :=
  flag L.SB hw.SR1 = true ∧ Quiet L hw

/-- Address-Sent event (master): `ADDR` set, `SB` clear. -/
def AddressSent (L : Layout) (hw : Hw) : Prop :=
  flag L.SB hw.SR1 = false ∧ flag L.ADDR hw.SR1 = true ∧ Quiet L hw

/-- Transmitting event (master): `TRA` and `TXE` set, `SB` and `ADDR` clear. -/
def Transmitting (L : Layout) (hw : Hw) : Prop :=
  flag L.SB hw.SR1 = false ∧ flag L.ADDR hw.SR1 = false ∧ flag L.TRA hw.SR3 = true ∧
  flag L.TXE hw.SR1 = true ∧ Quiet L hw

/-- Receiving event (master): `RXNE` set, `SB`, `ADDR` and `TRA` clear. -/
def Receiving (L : Layout) (hw : Hw) : Prop :=
  flag L.SB hw.SR1 = false ∧ flag L.ADDR hw.SR1 = false ∧ flag L.TRA hw.SR3 = false ∧
  flag L.RXNE hw.SR1 = true ∧ Quiet L hw

/-- Address-Matched event (slave): `ADDR` set. -/
def AddressMatched (L : Layout) (hw : Hw) : Prop :=
  flag L.ADDR hw.SR1 = true ∧ Quiet L hw

/-- Slave receive event: `RXNE` set, `ADDR` clear. -/
def SlaveReceiving (L : Layout) (hw : Hw) : Prop :=
  flag L.ADDR hw.SR1 = false ∧ flag L.RXNE hw.SR1 = true ∧ Quiet L hw

/-- Slave transmit event: `TXE` set, `ADDR` and `RXNE` clear. -/
def SlaveTransmitting (L : Layout) (hw : Hw) : Prop :=
  flag L.ADDR hw.SR1 = false ∧ flag L.RXNE hw.SR1 = false ∧ flag L.TXE hw.SR1 = true ∧
  Quiet L hw

instance (L : Layout) (hw : Hw) : Decidable (Quiet L hw) := by
  unfold Quiet; infer_instance

instance (L : Layout) (hw : Hw) : Decidable (StartSent L hw) := by
  unfold StartSent; infer_instance

instance (L : Layout) (hw : Hw) : Decidable (AddressSent L hw) := by
  unfold AddressSent; infer_instance

instance (L : Layout) (hw : Hw) : Decidable (Transmitting L hw) := by
  unfold Transmitting; infer_instance

instance (L : Layout) (hw : Hw) : Decidable (Receiving L hw) := by
  unfold Receiving; infer_instance

instance (L : Layout) (hw : Hw) : Decidable (AddressMatched L hw) := by
  unfold AddressMatched; infer_instance

instance (L : Layout) (hw : Hw) : Decidable (SlaveReceiving L hw) := by
  unfold SlaveReceiving; infer_instance

instance (L : Layout) (hw : Hw) : Decidable (SlaveTransmitting L hw) := by
  unfold SlaveTransmitting; infer_instance

/-! ## Observations on a list of events -/

/-- The values written to the data register, in order. -/
def drWrites : List Event → List Nat
  | [] => []
  | Event.wr Reg.DR v :: es => v :: drWrites es
  | _ :: es => drWrites es

/-- The event is a Stop request, `I2C1_CR2_STOP = 1`. -/
def isStop (e : Event) : Bool := e = Event.setf Field.STOP 1

/-- The event is a write of the acknowledge bit with value 0. -/
def isAckDisable (e : Event) : Bool := e = Event.setf Field.ACK 0

/-- The event is a call of one of the four completion callbacks or of the
error callback. -/
def isCallback : Event → Bool
  | Event.Tx_Callback _ _ => true
  | Event.Rx_Callback _ _ => true
  | Event.Slave_Rx_Callback _ _ => true
  | Event.Slave_Tx_Callback _ _ => true
  | Event.Error_Callback _ => true
  | _ => false

/-- The event is a call of `i2c_user_Error_Callback`. -/
def isErrorCallback : Event → Bool
  | Event.Error_Callback _ => true
  | _ => false

/-- The event is a write into memory through a buffer pointer. -/
def isStore : Event → Bool
  | Event.store _ _ => true
  | _ => false

/-- The event is a call of one of the four completion callbacks. -/
def isCompletionCallback : Event → Bool
  | Event.Tx_Callback _ _ => true
  | Event.Rx_Callback _ _ => true
  | Event.Slave_Rx_Callback _ _ => true
  | Event.Slave_Tx_Callback _ _ => true
  | _ => false

/-- The event is a read or a write of the data register. -/
def isDataRegisterAccess : Event → Bool
  | Event.rd Reg.DR => true
  | Event.wr Reg.DR _ => true
  | _ => false

/-- The event is a read or a write of memory through a buffer pointer. -/
def isBufferAccess : Event → Bool
  | Event.load _ => true
  | Event.store _ _ => true
  | _ => false

/-- The event is a write of `CR2` or of one of its Start, Stop and acknowledge
bits. -/
def isControlWrite : Event → Bool
  | Event.wr Reg.CR2 _ => true
  | Event.setf Field.START _ => true
  | Event.setf Field.STOP _ => true
  | Event.setf Field.ACK _ => true
  | _ => false

/-- The state `s` with the four master-side fields of the context replaced:
a state that agrees with `s` on everything else. -/
def setMasterFields (a r p n : Nat) (s : State) : State :=
  { s with i2c := { s.i2c with
      SlaveAddress := a, readwrite := r, masterBuffer := p, masterTransactionLength := n } }

/-- The state `s` with the two slave-side fields of the context replaced: a
state that agrees with `s` on everything else. -/
def setSlaveFields (b c : Nat) (s : State) : State :=
  { s with i2c := { s.i2c with slaveBuffer := b, slaveTransactionLength := c } }

/-! ## Concrete readings and states used to instantiate the theorems -/

/-- A memory holding `0x10, 0x20, 0x30` at addresses `100, 101, 102`, `0xAA`
at address `103`, and zero elsewhere. -/
def exampleMem : Nat → Nat := fun x =>
  if x = 100 then 0x10 else if x = 101 then 0x20 else if x = 102 then 0x30
  else if x = 103 then 0xAA else 0

/-- The state after reset: zeroed context, zeroed registers. -/
def exampleState : State :=
  { i2c := { SlaveAddress := 0, masterBuffer := 0, masterTransactionLength := 0,
             buffer_index := 0, reg := 0, masterMode := 0, readwrite := 0,
             slaveBuffer := 0, slaveTransactionLength := 0 },
    mem := exampleMem, CR2 := 0, OARL_ADD := 0 }

/-- Reading at a Start-Sent event: `SR1 = SB`, `SR3 = BUSY | MSL`. -/
def exStart : Hw := { SR1 := 0x01, SR2 := 0, SR3 := 0x03, DR := 0 }

/-- Reading at a master Address-Sent event for a write: `SR1 = TXE | ADDR`,
`SR3 = TRA | BUSY | MSL`. -/
def exAddrTx : Hw := { SR1 := 0x82, SR2 := 0, SR3 := 0x07, DR := 0 }

/-- Reading at a master Address-Sent event for a read: `SR1 = ADDR`,
`SR3 = BUSY | MSL`. -/
def exAddrRx : Hw := { SR1 := 0x02, SR2 := 0, SR3 := 0x03, DR := 0 }

/-- Reading at a master Transmitting event: `SR1 = TXE`,
`SR3 = TRA | BUSY | MSL`. -/
def exTx : Hw := { SR1 := 0x80, SR2 := 0, SR3 := 0x07, DR := 0 }

/-- Reading at a master Receiving event delivering the byte `d`: `SR1 = RXNE`,
`SR3 = BUSY | MSL`. -/
def exRx (d : Nat) : Hw := { SR1 := 0x40, SR2 := 0, SR3 := 0x03, DR := d }

/-- The memory `mem` after the bytes `ds` have been written at the consecutive
addresses `addr, addr + 1, ...`. -/
def writeBytes (mem : Nat → Nat) (addr : Nat) : List Nat → Nat → Nat
  | [] => mem
  | d :: ds => writeBytes (Function.update mem addr d) (addr + 1) ds

/-- The context as armed by `I2C_Read(0x50, 100, 2)` on `exampleState`. -/
def exampleArmedRead : State :=
  { exampleState with
      i2c := { exampleState.i2c with
        readwrite := 1, SlaveAddress := 0x50, buffer_index := 0, masterBuffer := 100,
        masterTransactionLength := 2, masterMode := 1 }
      CR2 := 0x05 }

/-- A slave context whose 4-byte buffer at address 100 is full:
`buffer_index = slaveTransactionLength = 4`. -/
def exampleSlaveFull : State :=
  { exampleState with
      i2c := { exampleState.i2c with
        slaveBuffer := 100, slaveTransactionLength := 4, buffer_index := 4, masterMode := 0 }
      CR2 := 0x04 }

/-- Reading at a slave receive event delivering the byte `d`: `SR1 = RXNE`,
`SR3 = BUSY`. -/
def exSlaveRx (d : Nat) : Hw := { SR1 := 0x40, SR2 := 0, SR3 := 0x02, DR := d }

/-- Reading at a slave Address-Matched event: `SR1 = ADDR`, `SR3 = BUSY`. -/
def exSlaveAddr : Hw := { SR1 := 0x02, SR2 := 0, SR3 := 0x02, DR := 0 }

/-- Reading at a slave transmit event: `SR1 = TXE`, `SR3 = TRA | BUSY`. -/
def exSlaveTx : Hw := { SR1 := 0x80, SR2 := 0, SR3 := 0x06, DR := 0 }

/-- A slave context with the 3-byte buffer `0x10, 0x20, 0x30` at address 100,
configured by `I2C_Slave_Configure(0x20, 100, 3)`. -/
def exampleSlave3 : State := (I2C_Slave_Configure stm8l15x 0x20 100 3 exampleState).1

/-- Reading with only the acknowledge-failure flag set: `SR2 = AF`,
`SR1 = TXE`, `SR3 = TRA | BUSY`. -/
def exAckFailure : Hw := { SR1 := 0x80, SR2 := 0x04, SR3 := 0x06, DR := 0 }

/-- Reading with the arbitration-lost flag set while `MSL` is still set:
`SR2 = ARLO`, `SR3 = BUSY | MSL`, `SR1 = 0`. -/
def exArbitrationLost : Hw := { SR1 := 0x00, SR2 := 0x02, SR3 := 0x03, DR := 0 }

/-- A master read of 255 bytes into the buffer at address 100 whose 255 bytes
have all been received: `buffer_index = masterTransactionLength = 255`. -/
def exampleRead255Done : State :=
  { exampleState with
      i2c := { exampleState.i2c with
        readwrite := 1, SlaveAddress := 0x50, buffer_index := 255, masterBuffer := 100,
        masterTransactionLength := 255, masterMode := 1 }
      CR2 := 0x02 }

/-- The context as armed by `I2C_Write(0x50, 100, 3)` on `exampleState`. -/
def exampleArmedWrite : State :=
  { exampleState with
      i2c := { exampleState.i2c with
        readwrite := 0, SlaveAddress := 0x50, buffer_index := 0, masterBuffer := 100,
        masterTransactionLength := 3, masterMode := 1 }
      CR2 := 0x05 }

/-- Reading at an acknowledge failure during a master write: `SR2 = AF`,
`SR1 = 0`, `SR3 = TRA | BUSY | MSL`. -/
def exNackTx : Hw := { SR1 := 0x00, SR2 := 0x04, SR3 := 0x07, DR := 0 }

/-- Reading with `TRA` set and no other flag: `SR1 = 0`, `SR2 = 0`,
`SR3 = TRA | BUSY | MSL`. -/
def exTraOnly : Hw := { SR1 := 0x00, SR2 := 0x00, SR3 := 0x07, DR := 0 }

/-- A master read context with `masterTransactionLength = 0` and
`buffer_index = 255`, where an 8-bit `length - 1` would equal the cursor. -/
def exampleReadZero255 : State :=
  { exampleState with
      i2c := { exampleState.i2c with
        readwrite := 1, SlaveAddress := 0x50, buffer_index := 255, masterBuffer := 100,
        masterTransactionLength := 0, masterMode := 1 }
      CR2 := 0x04 }

/-- Reading at a slave receive event with Stop detected as well:
`SR1 = RXNE | STOPF`, `SR3 = BUSY`, data byte 7. -/
def exSlaveRxStop : Hw := { SR1 := 0x50, SR2 := 0, SR3 := 0x02, DR := 7 }

/-- The invocation on the reading `hw` in state `s` is a master data
transmission taken with the cursor already at the length: master role, `SB` and
`ADDR` clear, `TRA` and `TXE` set, `buffer_index = masterTransactionLength`. -/
def TransmitsAtLength (L : Layout) (hw : Hw) (s : State) : Prop :=
  s.i2c.masterMode ≠ 0 ∧ flag L.SB hw.SR1 = false ∧ flag L.ADDR hw.SR1 = false ∧
  flag L.TRA hw.SR3 = true ∧ flag L.TXE hw.SR1 = true ∧
  s.i2c.buffer_index = s.i2c.masterTransactionLength

instance (L : Layout) (hw : Hw) (s : State) : Decidable (TransmitsAtLength L hw s) := by
  unfold TransmitsAtLength; infer_instance

/-- No invocation of the run of `I2C_IRQ` from `s` over the readings is a master
data transmission taken with the cursor at the length. -/
def NoTransmitAtLength (L : Layout) : State → List Hw → Prop
  | _, [] => True
  | s, hw :: rest =>
    ¬ TransmitsAtLength L hw s ∧ NoTransmitAtLength L (I2C_IRQ L hw s).1 rest

/-- Decision procedure for `NoTransmitAtLength`, by running the handler. -/
def decNoTransmitAtLength (L : Layout) :
    (s : State) → (hws : List Hw) → Decidable (NoTransmitAtLength L s hws)
  | _, [] => isTrue trivial
  | s, hw :: rest =>
    match decNoTransmitAtLength L (I2C_IRQ L hw s).1 rest with
    | isTrue h =>
      if h0 : TransmitsAtLength L hw s then isFalse (fun h1 => h1.1 h0)
      else isTrue ⟨h0, h⟩
    | isFalse h => isFalse (fun h1 => h h1.2)

instance (L : Layout) (s : State) (hws : List Hw) : Decidable (NoTransmitAtLength L s hws) :=
  decNoTransmitAtLength L s hws

/-! ## Auxiliary facts: bit masks -/

theorem and_0x0F_eq_mod (x : Nat) : x &&& 0x0F = x % 16 := by
  have h := Nat.and_pow_two_sub_one_eq_mod x 4
  simpa using h

theorem errorNibble_cover (L : Layout) (hL : L.errorNibble) (i : Nat) (hi : i < 4) :
    i = L.AF ∨ i = L.OVR ∨ i = L.ARLO ∨ i = L.BERR := by
  unfold Layout.errorNibble at hL
  omega

theorem error_status_eq_zero (L : Layout) (hL : L.errorNibble) (x : Nat)
    (hAF : flag L.AF x = false) (hOVR : flag L.OVR x = false)
    (hARLO : flag L.ARLO x = false) (hBERR : flag L.BERR x = false) :
    x &&& 0x0F = 0 := by
  rw [and_0x0F_eq_mod]
  apply Nat.eq_of_testBit_eq
  intro i
  have h16 : (16 : Nat) = 2 ^ 4 := by norm_num
  rw [h16, Nat.testBit_mod_two_pow]
  simp only [Nat.zero_testBit]
  by_cases hi : i < 4
  · rcases errorNibble_cover L hL i hi with h | h | h | h <;> subst h <;>
      simp_all [flag]
  · simp [hi]

theorem error_status_ne_zero (L : Layout) (hL : L.errorNibble) (x : Nat)
    (h : flag L.AF x = true ∨ flag L.OVR x = true ∨ flag L.ARLO x = true ∨
      flag L.BERR x = true) :
    x &&& 0x0F ≠ 0 := by
  rw [and_0x0F_eq_mod]
  intro h0
  have h16 : (16 : Nat) = 2 ^ 4 := by norm_num
  have key : ∀ i, i < 4 → x.testBit i = false := by
    intro i hi
    have := Nat.testBit_mod_two_pow x 4 i
    rw [← h16, h0] at this
    simpa [hi] using this.symm
  unfold Layout.errorNibble at hL
  unfold flag at h
  rcases h with h | h | h | h
  · rw [key _ hL.2.2.1] at h; exact Bool.noConfusion h
  · rw [key _ hL.2.2.2.1] at h; exact Bool.noConfusion h
  · rw [key _ hL.2.1] at h; exact Bool.noConfusion h
  · rw [key _ hL.1] at h; exact Bool.noConfusion h

theorem Quiet.error_status (L : Layout) (hL : L.errorNibble) (hw : Hw) (h : Quiet L hw) :
    hw.SR2 &&& 0x0F = 0 :=
  error_status_eq_zero L hL hw.SR2 h.1 h.2.1 h.2.2.1 h.2.2.2.1

/-! ## Single invocations on a quiet reading -/

theorem epilogue_quiet (L : Layout) (hL : L.errorNibble) (hw : Hw) (s : State)
    (h : Quiet L hw) : epilogue L hw s = (s, [Event.rd Reg.SR2]) := by
  have h0 := Quiet.error_status L hL hw h
  have hs : flag L.STOPF hw.SR1 = false := h.2.2.2.2
  simp [epilogue, errorHandling, stopHandling, h0, hs]

theorem irq_startSent (L : Layout) (hL : L.errorNibble) (hw : Hw) (s : State)
    (hm : s.i2c.masterMode ≠ 0) (h : StartSent L hw) :
    I2C_IRQ L hw s =
      ({ s with i2c := { s.i2c with reg := hw.SR1 } },
       [Event.rd Reg.SR1, Event.wr Reg.DR (addressByte s.i2c.SlaveAddress s.i2c.readwrite),
        Event.rd Reg.SR2]) := by
  simp [I2C_IRQ, roleBranch, masterBranch, hm, h.1, epilogue_quiet L hL hw _ h.2]

theorem irq_addressSent (L : Layout) (hL : L.errorNibble) (hw : Hw) (s : State)
    (hm : s.i2c.masterMode ≠ 0) (h : AddressSent L hw) :
    I2C_IRQ L hw s =
      ({ s with i2c := { s.i2c with reg := hw.SR3, buffer_index := 0 } },
       [Event.rd Reg.SR1, Event.rd Reg.SR3, Event.rd Reg.SR2]) := by
  simp [I2C_IRQ, roleBranch, masterBranch, hm, h.1, h.2.1, epilogue_quiet L hL hw _ h.2.2]

theorem irq_transmitting (L : Layout) (hL : L.errorNibble) (hw : Hw) (s : State)
    (hm : s.i2c.masterMode ≠ 0) (h : Transmitting L hw) :
    I2C_IRQ L hw s =
      if (s.i2c.buffer_index + 1) % 256 = s.i2c.masterTransactionLength then
        ({ s with i2c := { s.i2c with buffer_index := (s.i2c.buffer_index + 1) % 256 },
                  CR2 := setBit s.CR2 L.STOP },
         [Event.load (s.i2c.masterBuffer + s.i2c.buffer_index),
          Event.wr Reg.DR (s.mem (s.i2c.masterBuffer + s.i2c.buffer_index)),
          Event.setf Field.STOP 1,
          Event.Tx_Callback s.i2c.masterBuffer s.i2c.masterTransactionLength,
          Event.rd Reg.SR2])
      else
        ({ s with i2c := { s.i2c with buffer_index := (s.i2c.buffer_index + 1) % 256 } },
         [Event.load (s.i2c.masterBuffer + s.i2c.buffer_index),
          Event.wr Reg.DR (s.mem (s.i2c.masterBuffer + s.i2c.buffer_index)),
          Event.rd Reg.SR2]) := by
  obtain ⟨h1, h2, h3, h4, hq⟩ := h
  simp only [I2C_IRQ, roleBranch, masterBranch, masterTransmit, hm, h1, h2, h3, h4]
  split_ifs <;> simp_all [epilogue_quiet L hL hw _ hq]


/-! ## Arming and sequences of invocations -/

theorem waitBusFree_isSome (L : Layout) (sr3 : List Nat)
    (h : ∃ r ∈ sr3, flag L.BUSY r = false) : ∃ rest, waitBusFree L sr3 = some rest := by
  induction sr3 with
  | nil => simp at h
  | cons r rest ih =>
    unfold waitBusFree
    by_cases hb : flag L.BUSY r = true
    · simp only [hb, if_true]
      apply ih
      rcases h with ⟨x, hx, hx2⟩
      rcases List.mem_cons.mp hx with rfl | hx
      · rw [hb] at hx2; exact Bool.noConfusion hx2
      · exact ⟨x, hx, hx2⟩
    · exact ⟨rest, by simp [hb]⟩

theorem I2C_Transaction_eq (L : Layout) (read a b n : Nat) (sr3 : List Nat) (s : State)
    (h : ∃ r ∈ sr3, flag L.BUSY r = false) :
    I2C_Transaction L read a b n sr3 s =
      some ({ s with
                i2c := { s.i2c with
                  readwrite := read, SlaveAddress := a, buffer_index := 0,
                  masterBuffer := b, masterTransactionLength := n, masterMode := 1 }
                CR2 := setBit (setBit s.CR2 L.ACK) L.START },
            [Event.setf Field.ACK 1, Event.setf Field.START 1]) := by
  obtain ⟨rest, hr⟩ := waitBusFree_isSome L sr3 h
  simp [I2C_Transaction, hr]

theorem I2C_IRQ_seq_append (L : Layout) (xs ys : List Hw) (s : State) :
    I2C_IRQ_seq L s (xs ++ ys) =
      ((I2C_IRQ_seq L (I2C_IRQ_seq L s xs).1 ys).1,
       (I2C_IRQ_seq L s xs).2 ++ (I2C_IRQ_seq L (I2C_IRQ_seq L s xs).1 ys).2) := by
  induction xs generalizing s with
  | nil => simp [I2C_IRQ_seq]
  | cons x xs ih => simp [I2C_IRQ_seq, ih]

theorem seq_transmitting (L : Layout) (hL : L.errorNibble) :
    ∀ (tx : List Hw) (s : State),
      s.i2c.masterMode ≠ 0 → s.i2c.masterTransactionLength ≤ 255 →
      s.i2c.buffer_index + tx.length < s.i2c.masterTransactionLength →
      (∀ h ∈ tx, Transmitting L h) →
      I2C_IRQ_seq L s tx =
        ({ s with i2c := { s.i2c with buffer_index := s.i2c.buffer_index + tx.length } },
         (List.range' s.i2c.buffer_index tx.length).map (fun i =>
            [Event.load (s.i2c.masterBuffer + i),
             Event.wr Reg.DR (s.mem (s.i2c.masterBuffer + i)), Event.rd Reg.SR2])) := by
  intro tx
  induction tx with
  | nil => intro s _ _ _ _; simp [I2C_IRQ_seq]
  | cons hw rest ih =>
    intro s hm hlen hidx htx
    simp only [List.length_cons] at hidx
    have hstep := irq_transmitting L hL hw s hm (htx hw (List.mem_cons_self _ _))
    have hmod : (s.i2c.buffer_index + 1) % 256 = s.i2c.buffer_index + 1 :=
      Nat.mod_eq_of_lt (by omega)
    rw [hmod, if_neg (by omega)] at hstep
    have hrest := ih ({ s with i2c := { s.i2c with buffer_index := s.i2c.buffer_index + 1 } })
      hm hlen (by simp only; omega) (fun h hh => htx h (List.mem_cons_of_mem _ hh))
    simp only [I2C_IRQ_seq, hstep, hrest, List.length_cons, List.range'_succ, List.map_cons]
    simp [Nat.add_assoc, Nat.add_comm 1]

theorem drWrites_append (xs ys : List Event) : drWrites (xs ++ ys) = drWrites xs ++ drWrites ys := by
  induction xs with
  | nil => rfl
  | cons e es ih =>
    cases e with
    | wr r v => cases r <;> simp [drWrites, ih]
    | _ => simp [drWrites, ih]

theorem addressByte_eq (a d : Nat) (ha : a < 128) (hd : d < 2) : addressByte a d = 2 * a + d := by
  unfold addressByte
  interval_cases d <;> interval_cases a <;> rfl

example : addressByte 0x50 0 = 0xA0 := by decide

theorem master_write_seq (L : Layout) (hL : L.errorNibble) (s1 : State)
    (hmode : s1.i2c.masterMode ≠ 0) (hm : s1.i2c.masterTransactionLength ≤ 255)
    (sb ad last : Hw) (init : List Hw)
    (hlen : init.length + 1 = s1.i2c.masterTransactionLength)
    (hsb : StartSent L sb) (had : AddressSent L ad)
    (hinit : ∀ h ∈ init, Transmitting L h) (hlast : Transmitting L last) :
    I2C_IRQ_seq L s1 (sb :: ad :: (init ++ [last])) =
      ({ s1 with i2c := { s1.i2c with reg := ad.SR3, buffer_index := init.length + 1 },
                 CR2 := setBit s1.CR2 L.STOP },
       [Event.rd Reg.SR1, Event.wr Reg.DR (addressByte s1.i2c.SlaveAddress s1.i2c.readwrite),
        Event.rd Reg.SR2] ::
       [Event.rd Reg.SR1, Event.rd Reg.SR3, Event.rd Reg.SR2] ::
       ((List.range init.length).map (fun i =>
          [Event.load (s1.i2c.masterBuffer + i),
           Event.wr Reg.DR (s1.mem (s1.i2c.masterBuffer + i)), Event.rd Reg.SR2]) ++
        [[Event.load (s1.i2c.masterBuffer + init.length),
          Event.wr Reg.DR (s1.mem (s1.i2c.masterBuffer + init.length)),
          Event.setf Field.STOP 1,
          Event.Tx_Callback s1.i2c.masterBuffer s1.i2c.masterTransactionLength,
          Event.rd Reg.SR2]])) := by
  have h1 := irq_startSent L hL sb s1 hmode hsb
  have h2 := irq_addressSent L hL ad ({ s1 with i2c := { s1.i2c with reg := sb.SR1 } })
    hmode had
  have h3 := seq_transmitting L hL init
    ({ s1 with i2c := { s1.i2c with reg := ad.SR3, buffer_index := 0 } })
    hmode hm (by simp only; omega) hinit
  have h4 := irq_transmitting L hL last
    ({ s1 with i2c := { s1.i2c with reg := ad.SR3, buffer_index := init.length } }) hmode hlast
  have hmod : (init.length + 1) % 256 = init.length + 1 := Nat.mod_eq_of_lt (by omega)
  dsimp only at h1 h2 h3 h4
  rw [hmod, if_pos hlen] at h4
  simp only [Nat.zero_add] at h3
  simp only [I2C_IRQ_seq, h1, h2, I2C_IRQ_seq_append, h3, h4, List.range_eq_range']

theorem drWrites_flatten_data (g f : Nat → Nat) (l : List Nat) :
    drWrites ((l.map (fun i =>
      [Event.load (g i), Event.wr Reg.DR (f i), Event.rd Reg.SR2])).flatten) = l.map f := by
  induction l with
  | nil => rfl
  | cons x xs ih => simp [drWrites, ih]

theorem countP_flatten_data (p : Event → Bool) (hrd : p (Event.rd Reg.SR2) = false)
    (hload : ∀ a, p (Event.load a) = false) (hwr : ∀ v, p (Event.wr Reg.DR v) = false)
    (g f : Nat → Nat) (l : List Nat) :
    ((l.map (fun i =>
      [Event.load (g i), Event.wr Reg.DR (f i), Event.rd Reg.SR2])).flatten).countP p = 0 := by
  induction l with
  | nil => rfl
  | cons x xs ih => simp [List.countP_cons, ih, hrd, hload, hwr]

/-- C1: master write of `n` bytes (`1 ≤ n ≤ 255`) to the 7-bit address `a` from
the buffer at `b`.  `I2C_Write` returns once the bus is seen idle, and the
Start-Sent, Address-Sent and `n` Transmitting invocations that follow do
exactly this: the first writes the address byte `2 * a` to the data register,
the second only clears the address status, the next `n - 1` each write one
buffer byte, and the `n`-th writes `b[n-1]`, then requests Stop, then calls
`i2c_user_Tx_Callback(b, n)`.  Hence the data register receives `2 * a`
followed by `b[0], ..., b[n-1]`, with one Stop request and one callback. -/
theorem master_write_transfer (L : Layout) (hL : L.errorNibble) (s0 : State)
    (sr3 : List Nat) (a b n : Nat) (ha : a < 128) (hn1 : 1 ≤ n) (hn2 : n ≤ 255)
    (hfree : ∃ r ∈ sr3, flag L.BUSY r = false)
    (sb ad : Hw) (tx : List Hw) (hsb : StartSent L sb) (had : AddressSent L ad)
    (htx : ∀ h ∈ tx, Transmitting L h) (hlen : tx.length = n) :
    ∃ s1 ev, I2C_Write L a b n sr3 s0 = some (s1, ev) ∧
      (I2C_IRQ_seq L s1 (sb :: ad :: tx)).2 =
        [Event.rd Reg.SR1, Event.wr Reg.DR (2 * a), Event.rd Reg.SR2] ::
        [Event.rd Reg.SR1, Event.rd Reg.SR3, Event.rd Reg.SR2] ::
        ((List.range (n - 1)).map (fun i =>
            [Event.load (b + i), Event.wr Reg.DR (s0.mem (b + i)), Event.rd Reg.SR2]) ++
         [[Event.load (b + (n - 1)), Event.wr Reg.DR (s0.mem (b + (n - 1))),
           Event.setf Field.STOP 1, Event.Tx_Callback b n, Event.rd Reg.SR2]]) ∧
      drWrites (I2C_IRQ_seq L s1 (sb :: ad :: tx)).2.flatten =
        2 * a :: (List.range n).map (fun i => s0.mem (b + i)) ∧
      (I2C_IRQ_seq L s1 (sb :: ad :: tx)).2.flatten.countP isStop = 1 ∧
      (I2C_IRQ_seq L s1 (sb :: ad :: tx)).2.flatten.countP isCallback = 1 := by
  rcases List.eq_nil_or_concat tx with rfl | ⟨init, last, hc⟩
  · simp at hlen; omega
  rw [List.concat_eq_append] at hc
  subst hc
  have hl : init.length + 1 = n := by simpa using hlen
  subst hl
  refine ⟨_, _, I2C_Transaction_eq L 0 a b (init.length + 1) sr3 s0 hfree, ?_⟩
  have hseq := master_write_seq L hL
    ({ s0 with
        i2c := { s0.i2c with
          readwrite := 0, SlaveAddress := a, buffer_index := 0,
          masterBuffer := b, masterTransactionLength := init.length + 1, masterMode := 1 }
        CR2 := setBit (setBit s0.CR2 L.ACK) L.START })
    (by simp) hn2 sb ad last init rfl hsb had
    (fun h hh => htx h (List.mem_append_left _ hh))
    (htx last (List.mem_append_right _ (List.mem_singleton_self _)))
  dsimp only at hseq
  rw [hseq, addressByte_eq a 0 ha (by norm_num)]
  refine ⟨by simp, ?_, ?_, ?_⟩
  · simp [drWrites, drWrites_append, drWrites_flatten_data, List.range_succ]
  · have h0 := countP_flatten_data isStop rfl (fun _ => rfl) (fun _ => rfl)
      (fun i => b + i) (fun i => s0.mem (b + i)) (List.range init.length)
    simp only [List.flatten_cons, List.flatten_append, List.countP_append, h0]
    simp [List.countP_cons, isStop]
  · have h0 := countP_flatten_data isCallback rfl (fun _ => rfl) (fun _ => rfl)
      (fun i => b + i) (fun i => s0.mem (b + i)) (List.range init.length)
    simp only [List.flatten_cons, List.flatten_append, List.countP_append, h0]
    simp [List.countP_cons, isCallback]

/-- C1, instance: writing `[0x10, 0x20, 0x30]` to address `0x50` puts
`0xA0, 0x10, 0x20, 0x30` into the data register. -/
theorem master_write_transfer_witness :
    stm8l15x.errorNibble ∧ (0x50 < 128 ∧ 1 ≤ 3 ∧ 3 ≤ 255) ∧
    (∃ r ∈ [0x02, 0x00], flag stm8l15x.BUSY r = false) ∧
    StartSent stm8l15x exStart ∧ AddressSent stm8l15x exAddrTx ∧
    (∀ h ∈ [exTx, exTx, exTx], Transmitting stm8l15x h) ∧
    ∃ s1 ev, I2C_Write stm8l15x 0x50 100 3 [0x02, 0x00] exampleState = some (s1, ev) ∧
      drWrites (I2C_IRQ_seq stm8l15x s1 [exStart, exAddrTx, exTx, exTx, exTx]).2.flatten =
        [0xA0, 0x10, 0x20, 0x30] ∧
      (I2C_IRQ_seq stm8l15x s1 [exStart, exAddrTx, exTx, exTx, exTx]).2.flatten.countP isStop = 1 :=
  ⟨by decide, by decide, by decide, by decide, by decide, by decide,
    (master_write_transfer stm8l15x (by decide) exampleState [0x02, 0x00] 0x50 100 3
      (by decide) (by decide) (by decide) (by decide) exStart exAddrTx [exTx, exTx, exTx]
      (by decide) (by decide) (by decide) rfl).imp
      (fun _ h => h.imp (fun _ h => ⟨h.1, h.2.2.1, h.2.2.2.1⟩))⟩

/-- C2, the code at the failing input: after `I2C_Write(0x50, b, 0)`, a
Start-Sent and an Address-Sent event, the first Transmitting invocation writes
the byte found at `b[0]` to the data register and requests no Stop and calls no
callback; so do the two invocations after it. -/
theorem master_write_zero_length_sends_data :
    (I2C_Write stm8l15x 0x50 100 0 [0x00] exampleState).map
      (fun r => (I2C_IRQ_seq stm8l15x r.1 [exStart, exAddrTx, exTx, exTx, exTx]).2) =
    some [[Event.rd Reg.SR1, Event.wr Reg.DR 0xA0, Event.rd Reg.SR2],
          [Event.rd Reg.SR1, Event.rd Reg.SR3, Event.rd Reg.SR2],
          [Event.load 100, Event.wr Reg.DR 0x10, Event.rd Reg.SR2],
          [Event.load 101, Event.wr Reg.DR 0x20, Event.rd Reg.SR2],
          [Event.load 102, Event.wr Reg.DR 0x30, Event.rd Reg.SR2]] := by
  decide

/-! ## Master read -/

theorem writeBytes_below (ds : List Nat) (mem : Nat → Nat) (addr x : Nat) (h : x < addr) :
    writeBytes mem addr ds x = mem x := by
  induction ds generalizing mem addr with
  | nil => rfl
  | cons d ds ih =>
    simp only [writeBytes]
    rw [ih _ _ (by omega), Function.update_noteq (by omega)]

theorem writeBytes_above (ds : List Nat) (mem : Nat → Nat) (addr x : Nat)
    (h : addr + ds.length ≤ x) : writeBytes mem addr ds x = mem x := by
  induction ds generalizing mem addr with
  | nil => rfl
  | cons d ds ih =>
    simp only [List.length_cons] at h
    simp only [writeBytes]
    rw [ih _ _ (by omega), Function.update_noteq (by omega)]

theorem writeBytes_at (ds : List Nat) (mem : Nat → Nat) (addr i d : Nat)
    (h : ds[i]? = some d) : writeBytes mem addr ds (addr + i) = d := by
  induction ds generalizing mem addr i with
  | nil => simp at h
  | cons d0 ds ih =>
    simp only [writeBytes]
    cases i with
    | zero =>
      simp only [List.getElem?_cons_zero, Option.some.injEq] at h
      rw [writeBytes_below _ _ _ _ (by omega)]
      simp [h]
    | succ i =>
      simp only [List.getElem?_cons_succ] at h
      have := ih (Function.update mem addr d0) (addr + 1) i h
      rw [← this]; congr 1; omega

theorem irq_receiving_data (L : Layout) (hL : L.errorNibble) (hw : Hw) (s : State)
    (hm : s.i2c.masterMode ≠ 0) (h : Receiving L hw)
    (hidx : s.i2c.buffer_index + 1 < s.i2c.masterTransactionLength) :
    I2C_IRQ L hw s =
      ({ s with mem := Function.update s.mem (s.i2c.masterBuffer + s.i2c.buffer_index) hw.DR
                i2c := { s.i2c with buffer_index := (s.i2c.buffer_index + 1) % 256 } },
       [Event.rd Reg.DR, Event.store (s.i2c.masterBuffer + s.i2c.buffer_index) hw.DR,
        Event.rd Reg.SR2]) := by
  obtain ⟨h1, h2, h3, h4, hq⟩ := h
  have c1 : s.i2c.buffer_index < s.i2c.masterTransactionLength := by omega
  have c2 : ¬ ((s.i2c.buffer_index : Int) = (s.i2c.masterTransactionLength : Int) - 1) := by
    omega
  have c3 : ¬ (s.i2c.buffer_index ≥ s.i2c.masterTransactionLength) := by omega
  simp [I2C_IRQ, roleBranch, masterBranch, masterReceive, hm, h1, h2, h3, h4, c1, c2,
    Nat.not_le.mpr c1, epilogue_quiet L hL hw _ hq]

theorem irq_receiving_last (L : Layout) (hL : L.errorNibble) (hw : Hw) (s : State)
    (hm : s.i2c.masterMode ≠ 0) (h : Receiving L hw)
    (hidx : s.i2c.buffer_index + 1 = s.i2c.masterTransactionLength) :
    I2C_IRQ L hw s =
      ({ s with mem := Function.update s.mem (s.i2c.masterBuffer + s.i2c.buffer_index) hw.DR
                i2c := { s.i2c with buffer_index := (s.i2c.buffer_index + 1) % 256 }
                CR2 := setBit (clearBit s.CR2 L.ACK) L.STOP },
       [Event.rd Reg.DR, Event.store (s.i2c.masterBuffer + s.i2c.buffer_index) hw.DR,
        Event.setf Field.ACK 0, Event.setf Field.STOP 1,
        Event.Rx_Callback s.i2c.masterBuffer s.i2c.masterTransactionLength,
        Event.rd Reg.SR2]) := by
  obtain ⟨h1, h2, h3, h4, hq⟩ := h
  have c1 : s.i2c.buffer_index < s.i2c.masterTransactionLength := by omega
  have c2 : (s.i2c.buffer_index : Int) = (s.i2c.masterTransactionLength : Int) - 1 := by
    omega
  simp [I2C_IRQ, roleBranch, masterBranch, masterReceive, hm, h1, h2, h3, h4, c1, c2,
    epilogue_quiet L hL hw _ hq]

theorem irq_receiving_exit (L : Layout) (hL : L.errorNibble) (hw : Hw) (s : State)
    (hm : s.i2c.masterMode ≠ 0) (h : Receiving L hw)
    (hidx : s.i2c.masterTransactionLength ≤ s.i2c.buffer_index) :
    I2C_IRQ L hw s =
      ({ s with i2c := { s.i2c with masterMode := 0,
                                    buffer_index := (s.i2c.buffer_index + 1) % 256 }
                CR2 := setBit s.CR2 L.ACK },
       [Event.rd Reg.DR, Event.setf Field.ACK 1, Event.rd Reg.SR2]) := by
  obtain ⟨h1, h2, h3, h4, hq⟩ := h
  have c1 : ¬ (s.i2c.buffer_index < s.i2c.masterTransactionLength) := by omega
  have c2 : ¬ ((s.i2c.buffer_index : Int) = (s.i2c.masterTransactionLength : Int) - 1) := by
    omega
  simp [I2C_IRQ, roleBranch, masterBranch, masterReceive, hm, h1, h2, h3, h4, c1, c2, hidx,
    epilogue_quiet L hL hw _ hq]

theorem writeBytes_append (xs ys : List Nat) (mem : Nat → Nat) (addr : Nat) :
    writeBytes mem addr (xs ++ ys) =
      writeBytes (writeBytes mem addr xs) (addr + xs.length) ys := by
  induction xs generalizing mem addr with
  | nil => rfl
  | cons x xs ih =>
    have e : addr + 1 + xs.length = addr + (xs.length + 1) := by omega
    show writeBytes (Function.update mem addr x) (addr + 1) (xs ++ ys) =
      writeBytes (writeBytes (Function.update mem addr x) (addr + 1) xs)
        (addr + (xs.length + 1)) ys
    rw [ih, e]

theorem seq_receiving (L : Layout) (hL : L.errorNibble) :
    ∀ (rx : List Hw) (s : State),
      s.i2c.masterMode ≠ 0 → s.i2c.masterTransactionLength ≤ 255 →
      s.i2c.buffer_index + rx.length < s.i2c.masterTransactionLength →
      (∀ h ∈ rx, Receiving L h) →
      I2C_IRQ_seq L s rx =
        ({ s with mem := writeBytes s.mem (s.i2c.masterBuffer + s.i2c.buffer_index)
                          (rx.map Hw.DR)
                  i2c := { s.i2c with buffer_index := s.i2c.buffer_index + rx.length } },
         List.zipWith (fun i h =>
            [Event.rd Reg.DR, Event.store (s.i2c.masterBuffer + i) h.DR, Event.rd Reg.SR2])
            (List.range' s.i2c.buffer_index rx.length) rx) := by
  intro rx
  induction rx with
  | nil => intro s _ _ _ _; simp [I2C_IRQ_seq, writeBytes]
  | cons hw rest ih =>
    intro s hm hlen hidx hrx
    simp only [List.length_cons] at hidx
    have hstep := irq_receiving_data L hL hw s hm (hrx hw (List.mem_cons_self _ _))
      (by omega)
    have hmod : (s.i2c.buffer_index + 1) % 256 = s.i2c.buffer_index + 1 :=
      Nat.mod_eq_of_lt (by omega)
    rw [hmod] at hstep
    have hrest := ih
      ({ s with mem := Function.update s.mem (s.i2c.masterBuffer + s.i2c.buffer_index) hw.DR
                i2c := { s.i2c with buffer_index := s.i2c.buffer_index + 1 } })
      hm hlen (by simp only; omega) (fun h hh => hrx h (List.mem_cons_of_mem _ hh))
    simp only [I2C_IRQ_seq, hstep, hrest, List.length_cons, List.range'_succ, List.map_cons,
      List.zipWith_cons_cons, writeBytes]
    simp [Nat.add_assoc, Nat.add_comm 1]

theorem master_read_seq (L : Layout) (hL : L.errorNibble) (s1 : State)
    (hmode : s1.i2c.masterMode ≠ 0) (hm : s1.i2c.masterTransactionLength ≤ 255)
    (sb ad last : Hw) (init : List Hw)
    (hlen : init.length + 1 = s1.i2c.masterTransactionLength)
    (hsb : StartSent L sb) (had : AddressSent L ad)
    (hinit : ∀ h ∈ init, Receiving L h) (hlast : Receiving L last) :
    I2C_IRQ_seq L s1 (sb :: ad :: (init ++ [last])) =
      ({ s1 with mem := writeBytes s1.mem s1.i2c.masterBuffer ((init ++ [last]).map Hw.DR)
                 i2c := { s1.i2c with reg := ad.SR3, buffer_index := init.length + 1 }
                 CR2 := setBit (clearBit s1.CR2 L.ACK) L.STOP },
       [Event.rd Reg.SR1, Event.wr Reg.DR (addressByte s1.i2c.SlaveAddress s1.i2c.readwrite),
        Event.rd Reg.SR2] ::
       [Event.rd Reg.SR1, Event.rd Reg.SR3, Event.rd Reg.SR2] ::
       (List.zipWith (fun i h =>
          [Event.rd Reg.DR, Event.store (s1.i2c.masterBuffer + i) h.DR, Event.rd Reg.SR2])
          (List.range init.length) init ++
        [[Event.rd Reg.DR, Event.store (s1.i2c.masterBuffer + init.length) last.DR,
          Event.setf Field.ACK 0, Event.setf Field.STOP 1,
          Event.Rx_Callback s1.i2c.masterBuffer s1.i2c.masterTransactionLength,
          Event.rd Reg.SR2]])) := by
  have h1 := irq_startSent L hL sb s1 hmode hsb
  have h2 := irq_addressSent L hL ad ({ s1 with i2c := { s1.i2c with reg := sb.SR1 } })
    hmode had
  have h3 := seq_receiving L hL init
    ({ s1 with i2c := { s1.i2c with reg := ad.SR3, buffer_index := 0 } })
    hmode hm (by simp only; omega) hinit
  have h4 := irq_receiving_last L hL last
    ({ s1 with mem := writeBytes s1.mem s1.i2c.masterBuffer (init.map Hw.DR)
               i2c := { s1.i2c with reg := ad.SR3, buffer_index := init.length } })
    hmode hlast hlen
  have hmod : (init.length + 1) % 256 = init.length + 1 := Nat.mod_eq_of_lt (by omega)
  have hwb : Function.update (writeBytes s1.mem s1.i2c.masterBuffer (init.map Hw.DR))
      (s1.i2c.masterBuffer + init.length) last.DR =
      writeBytes s1.mem s1.i2c.masterBuffer ((init ++ [last]).map Hw.DR) := by
    rw [List.map_append, writeBytes_append]
    simp [writeBytes]
  dsimp only at h1 h2 h3 h4
  rw [hmod, hwb] at h4
  simp only [Nat.zero_add, Nat.add_zero] at h3
  simp only [I2C_IRQ_seq, h1, h2, I2C_IRQ_seq_append, h3, h4, List.range_eq_range']

theorem countP_flatten_zipWith_zero (p : Event → Bool) (f : Nat → Hw → List Event)
    (hf : ∀ i h, ∀ e ∈ f i h, p e = false) (is : List Nat) (hs : List Hw) :
    (List.zipWith f is hs).flatten.countP p = 0 := by
  induction is generalizing hs with
  | nil => simp
  | cons i is ih =>
    cases hs with
    | nil => simp
    | cons h hs =>
      simp only [List.zipWith_cons_cons, List.flatten_cons, List.countP_append, ih, Nat.add_zero]
      rw [List.countP_eq_zero]
      intro e he
      simp [hf i h e he]

/-- C3: master read of `n` bytes (`1 ≤ n ≤ 255`) from the address `a` into the
buffer at `b`.  `I2C_Read` returns once the bus is seen idle; the Start-Sent
invocation writes the address byte, the Address-Sent invocation only clears the
address status, each of the first `n - 1` Receiving invocations reads the data
register and stores the byte at its index, and the `n`-th one stores the byte
at index `n - 1`, then writes `ACK = 0`, then requests Stop, then calls
`i2c_user_Rx_Callback(b, n)`.  Afterwards `b[i]` is the `i`-th received byte
for every `i < n`, memory outside the buffer is untouched, and acknowledge was
disabled once, Stop requested once and the callback called once. -/
theorem master_read_transfer (L : Layout) (hL : L.errorNibble) (s0 : State)
    (sr3 : List Nat) (a b n : Nat) (hn : n ≤ 255)
    (hfree : ∃ r ∈ sr3, flag L.BUSY r = false)
    (sb ad last : Hw) (init : List Hw) (hlen : init.length + 1 = n)
    (hsb : StartSent L sb) (had : AddressSent L ad)
    (hinit : ∀ h ∈ init, Receiving L h) (hlast : Receiving L last) :
    ∃ s1 ev, I2C_Read L a b n sr3 s0 = some (s1, ev) ∧
      (I2C_IRQ_seq L s1 (sb :: ad :: (init ++ [last]))).2 =
        [Event.rd Reg.SR1, Event.wr Reg.DR (addressByte a 1), Event.rd Reg.SR2] ::
        [Event.rd Reg.SR1, Event.rd Reg.SR3, Event.rd Reg.SR2] ::
        (List.zipWith (fun i h =>
            [Event.rd Reg.DR, Event.store (b + i) h.DR, Event.rd Reg.SR2])
            (List.range (n - 1)) init ++
         [[Event.rd Reg.DR, Event.store (b + (n - 1)) last.DR,
           Event.setf Field.ACK 0, Event.setf Field.STOP 1, Event.Rx_Callback b n,
           Event.rd Reg.SR2]]) ∧
      (∀ i h, (init ++ [last])[i]? = some h →
        (I2C_IRQ_seq L s1 (sb :: ad :: (init ++ [last]))).1.mem (b + i) = h.DR) ∧
      (∀ x, (x < b ∨ b + n ≤ x) →
        (I2C_IRQ_seq L s1 (sb :: ad :: (init ++ [last]))).1.mem x = s0.mem x) ∧
      (I2C_IRQ_seq L s1 (sb :: ad :: (init ++ [last]))).2.flatten.countP isAckDisable = 1 ∧
      (I2C_IRQ_seq L s1 (sb :: ad :: (init ++ [last]))).2.flatten.countP isStop = 1 ∧
      (I2C_IRQ_seq L s1 (sb :: ad :: (init ++ [last]))).2.flatten.countP isCallback = 1 := by
  subst hlen
  refine ⟨_, _, I2C_Transaction_eq L 1 a b (init.length + 1) sr3 s0 hfree, ?_⟩
  have hseq := master_read_seq L hL
    ({ s0 with
        i2c := { s0.i2c with
          readwrite := 1, SlaveAddress := a, buffer_index := 0,
          masterBuffer := b, masterTransactionLength := init.length + 1, masterMode := 1 }
        CR2 := setBit (setBit s0.CR2 L.ACK) L.START })
    (by simp) hn sb ad last init rfl hsb had hinit hlast
  dsimp only at hseq
  rw [hseq]
  have hz : ∀ (p : Event → Bool), p (Event.rd Reg.DR) = false →
      p (Event.rd Reg.SR2) = false → (∀ x v, p (Event.store x v) = false) →
      (List.zipWith (fun i (h : Hw) =>
        [Event.rd Reg.DR, Event.store (b + i) h.DR, Event.rd Reg.SR2])
        (List.range init.length) init).flatten.countP p = 0 := by
    intro p h1 h2 h3
    apply countP_flatten_zipWith_zero
    intro i h e he
    simp only [List.mem_cons, List.mem_singleton, List.not_mem_nil, or_false] at he
    rcases he with rfl | rfl | rfl
    · exact h1
    · exact h3 _ _
    · exact h2
  refine ⟨by simp, ?_, ?_, ?_, ?_, ?_⟩
  · intro i h hi
    exact writeBytes_at _ _ _ _ _ (by rw [List.getElem?_map, hi]; rfl)
  · intro x hx
    rcases hx with hx | hx
    · exact writeBytes_below _ _ _ _ hx
    · exact writeBytes_above _ _ _ _ (by simp; omega)
  · simp only [List.flatten_cons, List.flatten_append, List.countP_append,
      hz isAckDisable rfl rfl (fun _ _ => rfl)]
    simp [List.countP_cons, isAckDisable]
  · simp only [List.flatten_cons, List.flatten_append, List.countP_append,
      hz isStop rfl rfl (fun _ _ => rfl)]
    simp [List.countP_cons, isStop]
  · simp only [List.flatten_cons, List.flatten_append, List.countP_append,
      hz isCallback rfl rfl (fun _ _ => rfl)]
    simp [List.countP_cons, isCallback]

/-- C3, instance: reading 2 bytes from address `0x50` sends the address byte
`0xA1`, stores both bytes, and disables acknowledge and requests Stop on the
second byte. -/
theorem master_read_transfer_witness :
    stm8l15x.errorNibble ∧ 2 ≤ 255 ∧ (∃ r ∈ [0x00], flag stm8l15x.BUSY r = false) ∧
    [exRx 7].length + 1 = 2 ∧
    StartSent stm8l15x exStart ∧ AddressSent stm8l15x exAddrRx ∧
    (∀ h ∈ [exRx 7], Receiving stm8l15x h) ∧ Receiving stm8l15x (exRx 9) ∧
    ∃ s1 ev, I2C_Read stm8l15x 0x50 100 2 [0x00] exampleState = some (s1, ev) ∧
      (I2C_IRQ_seq stm8l15x s1 [exStart, exAddrRx, exRx 7, exRx 9]).2 =
        [[Event.rd Reg.SR1, Event.wr Reg.DR 0xA1, Event.rd Reg.SR2],
         [Event.rd Reg.SR1, Event.rd Reg.SR3, Event.rd Reg.SR2],
         [Event.rd Reg.DR, Event.store 100 7, Event.rd Reg.SR2],
         [Event.rd Reg.DR, Event.store 101 9, Event.setf Field.ACK 0,
          Event.setf Field.STOP 1, Event.Rx_Callback 100 2, Event.rd Reg.SR2]] ∧
      (I2C_IRQ_seq stm8l15x s1 [exStart, exAddrRx, exRx 7, exRx 9]).1.mem 100 = 7 ∧
      (I2C_IRQ_seq stm8l15x s1 [exStart, exAddrRx, exRx 7, exRx 9]).1.mem 101 = 9 :=
  ⟨by decide, by decide, by decide, by decide, by decide, by decide, by decide, by decide,
    (master_read_transfer stm8l15x (by decide) exampleState [0x00] 0x50 100 2
      (by decide) (by decide) exStart exAddrRx (exRx 9) [exRx 7] (by decide)
      (by decide) (by decide) (by decide) (by decide)).imp
      (fun _ h => h.imp (fun _ h =>
        ⟨h.1, h.2.1, h.2.2.1 0 (exRx 7) rfl, h.2.2.1 1 (exRx 9) rfl⟩))⟩

/-! ## Address byte -/

theorem drWrites_clearIfSet (pos : Nat) (f : Field) (p : Nat × List Event) :
    drWrites (clearIfSet pos f p).2 = drWrites p.2 := by
  unfold clearIfSet
  split_ifs <;> simp [drWrites_append, drWrites]

theorem drWrites_epilogue (L : Layout) (hw : Hw) (s : State) :
    drWrites (epilogue L hw s).2 = [] := by
  simp only [epilogue, errorHandling, stopHandling]
  split_ifs <;> simp [drWrites_append, drWrites, drWrites_clearIfSet]

theorem I2C_Transaction_fields (L : Layout) (read a b n : Nat) (sr3 : List Nat) (s s1 : State)
    (ev : List Event) (h : I2C_Transaction L read a b n sr3 s = some (s1, ev)) :
    s1.i2c.readwrite = read ∧ s1.i2c.SlaveAddress = a ∧ s1.i2c.masterBuffer = b ∧
    s1.i2c.masterTransactionLength = n ∧ s1.i2c.buffer_index = 0 ∧ s1.i2c.masterMode = 1 := by
  unfold I2C_Transaction at h
  cases hw : waitBusFree L sr3 with
  | none => simp [hw] at h
  | some rest =>
    simp only [hw, Option.some.injEq, Prod.mk.injEq] at h
    obtain ⟨h1, _⟩ := h
    subst h1
    simp

/-- C4: in master role, an invocation of `I2C_IRQ` with `SB` set writes to the
data register exactly the value `(SlaveAddress << 1) | readwrite` reduced to 8
bits.  For a 7-bit address `a` and a direction bit `d` that value is
`2 * a + d`: its bit 0 is `d` and shifting it right by one gives back `a`.
`I2C_Write` arms the direction 0 and `I2C_Read` the direction 1, so that the
address `0x50` gives `0xA0` for a write and `0xA1` for a read. -/
theorem address_byte_encoding (L : Layout) (hw : Hw) (s : State)
    (hm : s.i2c.masterMode ≠ 0) (hsb : flag L.SB hw.SR1 = true) :
    drWrites (I2C_IRQ L hw s).2 = [((s.i2c.SlaveAddress <<< 1) ||| s.i2c.readwrite) % 256] ∧
    (∀ a d, a < 128 → d < 2 →
      addressByte a d = 2 * a + d ∧ addressByte a d % 2 = d ∧ addressByte a d >>> 1 = a) ∧
    (∀ a b n sr3 s0 s1 ev, I2C_Write L a b n sr3 s0 = some (s1, ev) →
      s1.i2c.SlaveAddress = a ∧ s1.i2c.readwrite = 0) ∧
    (∀ a b n sr3 s0 s1 ev, I2C_Read L a b n sr3 s0 = some (s1, ev) →
      s1.i2c.SlaveAddress = a ∧ s1.i2c.readwrite = 1) ∧
    addressByte 0x50 0 = 0xA0 ∧ addressByte 0x50 1 = 0xA1 := by
  refine ⟨?_, ?_, ?_, ?_, by decide, by decide⟩
  · simp [I2C_IRQ, roleBranch, masterBranch, hm, hsb, drWrites_append, drWrites_epilogue,
      drWrites, addressByte]
  · intro a d ha hd
    rw [addressByte_eq a d ha hd]
    refine ⟨rfl, by omega, ?_⟩
    rw [Nat.shiftRight_eq_div_pow]
    omega
  · intro a b n sr3 s0 s1 ev h
    obtain ⟨h1, h2, _⟩ := I2C_Transaction_fields L 0 a b n sr3 s0 s1 ev h
    exact ⟨h2, h1⟩
  · intro a b n sr3 s0 s1 ev h
    obtain ⟨h1, h2, _⟩ := I2C_Transaction_fields L 1 a b n sr3 s0 s1 ev h
    exact ⟨h2, h1⟩

/-- C4, instance: the context armed by `I2C_Read(0x50, ..)` sends `0xA1` on
the Start-Sent event. -/
theorem address_byte_encoding_witness :
    exampleArmedRead.i2c.masterMode ≠ 0 ∧ flag stm8l15x.SB exStart.SR1 = true ∧
    drWrites (I2C_IRQ stm8l15x exStart exampleArmedRead).2 = [0xA1] :=
  ⟨by decide, by decide,
    (address_byte_encoding stm8l15x exStart exampleArmedRead (by decide) (by decide)).1⟩

/-! ## Bit-field writes and the epilogue in general -/

theorem flag_setBit_self (reg pos : Nat) : flag pos (setBit reg pos) = true := by
  simp [flag, setBit, Nat.testBit_or, Nat.one_shiftLeft, Nat.testBit_two_pow_self]

theorem flag_clearBit_self (reg pos : Nat) : flag pos (clearBit reg pos) = false := by
  unfold flag clearBit
  by_cases h : reg.testBit pos = true
  · simp [h, Nat.testBit_xor, Nat.one_shiftLeft, Nat.testBit_two_pow_self]
  · simp [h]

theorem flag_clearBit_of_ne (reg pos q : Nat) (h : q ≠ pos) :
    flag q (clearBit reg pos) = flag q reg := by
  unfold flag clearBit
  by_cases hb : reg.testBit pos = true
  · simp [hb, Nat.testBit_xor, Nat.one_shiftLeft, Nat.testBit_two_pow, h.symm]
  · simp [hb]

theorem mem_clearIfSet (pos : Nat) (f : Field) (p : Nat × List Event) (e : Event)
    (h : e ∈ (clearIfSet pos f p).2) : e ∈ p.2 ∨ e = Event.setf f 0 := by
  unfold clearIfSet at h
  split_ifs at h
  · simpa using h
  · exact Or.inl h

theorem errorHandling_events (L : Layout) (hw : Hw) (s : State) (e : Event)
    (h : e ∈ (errorHandling L hw s).2) :
    e = Event.rd Reg.SR2 ∨ e = Event.setf Field.AF 0 ∨ e = Event.setf Field.OVR 0 ∨
    e = Event.setf Field.ARLO 0 ∨ e = Event.setf Field.BERR 0 ∨ e = Event.setf Field.STOP 1 ∨
    e = Event.Error_Callback (hw.SR2 &&& 0x0F) := by
  have hc : ∀ e, e ∈ (clearIfSet L.BERR Field.BERR (clearIfSet L.ARLO Field.ARLO
      (clearIfSet L.OVR Field.OVR (clearIfSet L.AF Field.AF
        (hw.SR2, [Event.rd Reg.SR2]))))).2 →
      e = Event.rd Reg.SR2 ∨ e = Event.setf Field.AF 0 ∨ e = Event.setf Field.OVR 0 ∨
      e = Event.setf Field.ARLO 0 ∨ e = Event.setf Field.BERR 0 ∨
      e = Event.setf Field.STOP 1 ∨ e = Event.Error_Callback (hw.SR2 &&& 0x0F) := by
    intro e he
    rcases mem_clearIfSet _ _ _ _ he with he | he
    · rcases mem_clearIfSet _ _ _ _ he with he | he
      · rcases mem_clearIfSet _ _ _ _ he with he | he
        · rcases mem_clearIfSet _ _ _ _ he with he | he
          · simp at he; exact Or.inl he
          · exact Or.inr (Or.inl he)
        · exact Or.inr (Or.inr (Or.inl he))
      · exact Or.inr (Or.inr (Or.inr (Or.inl he)))
    · exact Or.inr (Or.inr (Or.inr (Or.inr (Or.inl he))))
  unfold errorHandling at h
  by_cases h0 : hw.SR2 &&& 0x0F ≠ 0
  · by_cases hm : flag L.MSL hw.SR3 = true
    · rw [if_pos h0, if_pos hm] at h
      rcases List.mem_append.mp h with h | h
      · exact hc e h
      · simp only [List.mem_cons, List.mem_singleton, List.not_mem_nil, or_false] at h
        rcases h with h | h <;> simp [h]
    · rw [if_pos h0, if_neg hm] at h
      rcases List.mem_append.mp h with h | h
      · exact hc e h
      · simp only [List.mem_singleton] at h
        simp [h]
  · rw [if_neg h0] at h
    simp only [List.mem_singleton] at h
    exact Or.inl h

theorem stopHandling_events (L : Layout) (hw : Hw) (s : State) (e : Event)
    (h : e ∈ (stopHandling L hw s).2) : e = Event.rd Reg.SR1 ∨ e = Event.wr Reg.CR2 0x00 := by
  unfold stopHandling at h
  split_ifs at h
  · simpa using h
  · simp at h

theorem epilogue_events (L : Layout) (hw : Hw) (s : State) (e : Event)
    (h : e ∈ (epilogue L hw s).2) :
    e = Event.rd Reg.SR2 ∨ e = Event.setf Field.AF 0 ∨ e = Event.setf Field.OVR 0 ∨
    e = Event.setf Field.ARLO 0 ∨ e = Event.setf Field.BERR 0 ∨ e = Event.setf Field.STOP 1 ∨
    e = Event.Error_Callback (hw.SR2 &&& 0x0F) ∨ e = Event.rd Reg.SR1 ∨
    e = Event.wr Reg.CR2 0x00 := by
  simp only [epilogue, List.mem_append] at h
  rcases h with h | h
  · rcases errorHandling_events L hw s e h with h | h | h | h | h | h | h <;> simp [h]
  · rcases stopHandling_events L hw _ e h with h | h <;> simp [h]

theorem errorHandling_state (L : Layout) (hw : Hw) (s : State) :
    ∃ c, (errorHandling L hw s).1 = { s with CR2 := c } := by
  unfold errorHandling
  by_cases h0 : hw.SR2 &&& 0x0F ≠ 0
  · by_cases hm : flag L.MSL hw.SR3 = true
    · exact ⟨setBit s.CR2 L.STOP, by simp [h0, hm]⟩
    · exact ⟨s.CR2, by simp [h0, hm]⟩
  · exact ⟨s.CR2, by simp [h0]⟩

theorem epilogue_state (L : Layout) (hw : Hw) (s : State) :
    ∃ r c, (epilogue L hw s).1 = { s with i2c := { s.i2c with reg := r }, CR2 := c } := by
  obtain ⟨c, hc⟩ := errorHandling_state L hw s
  simp only [epilogue, stopHandling, hc]
  split_ifs
  · exact ⟨_, _, rfl⟩
  · exact ⟨s.i2c.reg, c, rfl⟩

/-! ## Slave branch -/

theorem slaveBranch_addr (L : Layout) (hw : Hw) (s : State)
    (hA : flag L.ADDR hw.SR1 = true) :
    slaveBranch L hw s =
      ({ s with i2c := { s.i2c with reg := hw.SR3, buffer_index := 0 },
                CR2 := setBit s.CR2 L.ACK },
       [Event.rd Reg.SR1, Event.rd Reg.SR3, Event.setf Field.ACK 1]) := by
  simp [slaveBranch, hA]

theorem slaveBranch_rx_store (L : Layout) (hw : Hw) (s : State)
    (hA : flag L.ADDR hw.SR1 = false) (hR : flag L.RXNE hw.SR1 = true)
    (hidx : s.i2c.buffer_index < s.i2c.slaveTransactionLength) :
    slaveBranch L hw s =
      ({ s with mem := Function.update s.mem (s.i2c.slaveBuffer + s.i2c.buffer_index) hw.DR
                i2c := { s.i2c with buffer_index := (s.i2c.buffer_index + 1) % 256 }
                CR2 := setBit s.CR2 L.ACK },
       [Event.rd Reg.DR, Event.store (s.i2c.slaveBuffer + s.i2c.buffer_index) hw.DR,
        Event.setf Field.ACK 1] ++
       (if (s.i2c.buffer_index + 1) % 256 = s.i2c.slaveTransactionLength then
          [Event.Slave_Rx_Callback s.i2c.slaveBuffer s.i2c.slaveTransactionLength]
        else [])) := by
  simp only [slaveBranch, hA, hR, hidx, if_true, Bool.false_eq_true, if_false]
  split_ifs <;> rfl

theorem slaveBranch_tx_data (L : Layout) (hw : Hw) (s : State)
    (hA : flag L.ADDR hw.SR1 = false) (hR : flag L.RXNE hw.SR1 = false)
    (hT : flag L.TXE hw.SR1 = true)
    (hidx : s.i2c.buffer_index < s.i2c.slaveTransactionLength) :
    slaveBranch L hw s =
      ({ s with i2c := { s.i2c with buffer_index := (s.i2c.buffer_index + 1) % 256 } },
       [Event.load (s.i2c.slaveBuffer + s.i2c.buffer_index),
        Event.wr Reg.DR (s.mem (s.i2c.slaveBuffer + s.i2c.buffer_index))] ++
       (if (s.i2c.buffer_index + 1) % 256 = s.i2c.slaveTransactionLength then
          [Event.Slave_Tx_Callback s.i2c.slaveBuffer s.i2c.slaveTransactionLength]
        else [])) := by
  simp only [slaveBranch, hA, hR, hT, hidx, if_true, Bool.false_eq_true, if_false]
  split_ifs <;> rfl

theorem slaveBranch_tx_fill (L : Layout) (hw : Hw) (s : State)
    (hA : flag L.ADDR hw.SR1 = false) (hR : flag L.RXNE hw.SR1 = false)
    (hT : flag L.TXE hw.SR1 = true)
    (hidx : s.i2c.slaveTransactionLength ≤ s.i2c.buffer_index) :
    slaveBranch L hw s = (s, [Event.wr Reg.DR 0]) := by
  simp [slaveBranch, hA, hR, hT, Nat.not_lt.mpr hidx]

theorem slaveBranch_idle (L : Layout) (hw : Hw) (s : State)
    (hA : flag L.ADDR hw.SR1 = false) (hR : flag L.RXNE hw.SR1 = false)
    (hT : flag L.TXE hw.SR1 = false) :
    slaveBranch L hw s = (s, []) := by
  simp [slaveBranch, hA, hR, hT]

theorem slaveBranch_overflow (L : Layout) (hw : Hw) (s : State)
    (hA : flag L.ADDR hw.SR1 = false) (hR : flag L.RXNE hw.SR1 = true)
    (hidx : s.i2c.slaveTransactionLength ≤ s.i2c.buffer_index) :
    slaveBranch L hw s =
      ({ s with i2c := { s.i2c with reg := hw.DR }, CR2 := setBit s.CR2 L.ACK },
       [Event.rd Reg.DR, Event.setf Field.ACK 1]) := by
  simp [slaveBranch, hA, hR, Nat.not_lt.mpr hidx]

theorem slaveBranch_store (L : Layout) (hw : Hw) (s : State) (addr v : Nat)
    (h : Event.store addr v ∈ (slaveBranch L hw s).2) :
    s.i2c.buffer_index < s.i2c.slaveTransactionLength ∧
    addr = s.i2c.slaveBuffer + s.i2c.buffer_index ∧ v = hw.DR := by
  cases hA : flag L.ADDR hw.SR1
  · cases hR : flag L.RXNE hw.SR1
    · cases hT : flag L.TXE hw.SR1
      · rw [slaveBranch_idle L hw s hA hR hT] at h; simp at h
      · by_cases hidx : s.i2c.buffer_index < s.i2c.slaveTransactionLength
        · rw [slaveBranch_tx_data L hw s hA hR hT hidx] at h
          split_ifs at h <;> simp at h
        · rw [slaveBranch_tx_fill L hw s hA hR hT (Nat.not_lt.mp hidx)] at h; simp at h
    · by_cases hidx : s.i2c.buffer_index < s.i2c.slaveTransactionLength
      · rw [slaveBranch_rx_store L hw s hA hR hidx] at h
        split_ifs at h <;> simp at h <;> exact ⟨hidx, h.1, h.2⟩
      · rw [slaveBranch_overflow L hw s hA hR (Nat.not_lt.mp hidx)] at h; simp at h
  · rw [slaveBranch_addr L hw s hA] at h; simp at h

theorem slaveBranch_mem (L : Layout) (hw : Hw) (s : State) :
    (slaveBranch L hw s).1.mem = s.mem ∨
    (s.i2c.buffer_index < s.i2c.slaveTransactionLength ∧
      (slaveBranch L hw s).1.mem =
        Function.update s.mem (s.i2c.slaveBuffer + s.i2c.buffer_index) hw.DR) := by
  cases hA : flag L.ADDR hw.SR1
  · cases hR : flag L.RXNE hw.SR1
    · cases hT : flag L.TXE hw.SR1
      · rw [slaveBranch_idle L hw s hA hR hT]; exact Or.inl rfl
      · by_cases hidx : s.i2c.buffer_index < s.i2c.slaveTransactionLength
        · rw [slaveBranch_tx_data L hw s hA hR hT hidx]; exact Or.inl rfl
        · rw [slaveBranch_tx_fill L hw s hA hR hT (Nat.not_lt.mp hidx)]; exact Or.inl rfl
    · by_cases hidx : s.i2c.buffer_index < s.i2c.slaveTransactionLength
      · rw [slaveBranch_rx_store L hw s hA hR hidx]; exact Or.inr ⟨hidx, rfl⟩
      · rw [slaveBranch_overflow L hw s hA hR (Nat.not_lt.mp hidx)]; exact Or.inl rfl
  · rw [slaveBranch_addr L hw s hA]; exact Or.inl rfl

/-- C5: in slave role one invocation of `I2C_IRQ` stores into memory only at
`slaveBuffer + i` with `i < slaveTransactionLength`, and leaves every other
address unchanged.  In particular, on a slave receive event (`RXNE` set,
`ADDR` clear) with `buffer_index ≥ slaveTransactionLength` the role branch
reads the data register into the scratch field and writes `ACK = 1`, and the
whole invocation stores nothing: memory and `buffer_index` are unchanged. -/
theorem slave_receive_bounded (L : Layout) (hw : Hw) (s : State)
    (hslave : s.i2c.masterMode = 0) :
    (∀ addr v, Event.store addr v ∈ (I2C_IRQ L hw s).2 →
      ∃ i, i < s.i2c.slaveTransactionLength ∧ addr = s.i2c.slaveBuffer + i) ∧
    (∀ x, (∀ i, i < s.i2c.slaveTransactionLength → x ≠ s.i2c.slaveBuffer + i) →
      (I2C_IRQ L hw s).1.mem x = s.mem x) ∧
    (flag L.ADDR hw.SR1 = false → flag L.RXNE hw.SR1 = true →
      s.i2c.slaveTransactionLength ≤ s.i2c.buffer_index →
        roleBranch L hw s =
          ({ s with i2c := { s.i2c with reg := hw.DR }, CR2 := setBit s.CR2 L.ACK },
           [Event.rd Reg.DR, Event.setf Field.ACK 1]) ∧
        flag L.ACK (roleBranch L hw s).1.CR2 = true ∧
        Event.rd Reg.DR ∈ (I2C_IRQ L hw s).2 ∧
        (I2C_IRQ L hw s).2.countP isStore = 0 ∧
        (I2C_IRQ L hw s).1.mem = s.mem ∧
        (I2C_IRQ L hw s).1.i2c.buffer_index = s.i2c.buffer_index) := by
  have hrole : roleBranch L hw s = slaveBranch L hw s := by simp [roleBranch, hslave]
  obtain ⟨r, c, hep⟩ := epilogue_state L hw (slaveBranch L hw s).1
  have hst : (I2C_IRQ L hw s).1 =
      { (slaveBranch L hw s).1 with
          i2c := { (slaveBranch L hw s).1.i2c with reg := r }, CR2 := c } := by
    simp only [I2C_IRQ, hrole, hep]
  have htr : (I2C_IRQ L hw s).2 =
      (slaveBranch L hw s).2 ++ (epilogue L hw (slaveBranch L hw s).1).2 := by
    simp only [I2C_IRQ, hrole]
  have hnostore : ∀ addr v, Event.store addr v ∉ (epilogue L hw (slaveBranch L hw s).1).2 := by
    intro addr v hmem
    rcases epilogue_events L hw _ _ hmem with h | h | h | h | h | h | h | h | h <;>
      exact Event.noConfusion h
  refine ⟨?_, ?_, ?_⟩
  · intro addr v hmem
    rw [htr, List.mem_append] at hmem
    rcases hmem with hmem | hmem
    · obtain ⟨h1, h2, _⟩ := slaveBranch_store L hw s addr v hmem
      exact ⟨_, h1, h2⟩
    · exact absurd hmem (hnostore addr v)
  · intro x hx
    rw [hst]
    show (slaveBranch L hw s).1.mem x = s.mem x
    rcases slaveBranch_mem L hw s with h | ⟨h1, h2⟩
    · rw [h]
    · rw [h2, Function.update_noteq (hx _ h1)]
  · intro hA hR hidx
    have hov := slaveBranch_overflow L hw s hA hR hidx
    refine ⟨by rw [hrole, hov], by rw [hrole, hov]; exact flag_setBit_self _ _, ?_, ?_, ?_, ?_⟩
    · rw [htr, hov]; simp
    · rw [List.countP_eq_zero]
      intro e he
      rw [htr, hov, List.mem_append] at he
      rcases he with he | he
      · simp only [List.mem_cons, List.mem_singleton, List.not_mem_nil, or_false] at he
        rcases he with rfl | rfl <;> simp [isStore]
      · rcases epilogue_events L hw _ _ he with h | h | h | h | h | h | h | h | h <;>
          simp [h, isStore]
    · rw [hst, hov]
    · rw [hst, hov]

/-- C5, instance: with a full 4-byte slave buffer, a further received byte is
read and dropped. -/
theorem slave_receive_bounded_witness :
    exampleSlaveFull.i2c.masterMode = 0 ∧
    flag stm8l15x.ADDR (exSlaveRx 0x55).SR1 = false ∧
    flag stm8l15x.RXNE (exSlaveRx 0x55).SR1 = true ∧
    exampleSlaveFull.i2c.slaveTransactionLength ≤ exampleSlaveFull.i2c.buffer_index ∧
    (I2C_IRQ stm8l15x (exSlaveRx 0x55) exampleSlaveFull).2.countP isStore = 0 ∧
    (I2C_IRQ stm8l15x (exSlaveRx 0x55) exampleSlaveFull).1.mem = exampleSlaveFull.mem ∧
    (I2C_IRQ stm8l15x (exSlaveRx 0x55) exampleSlaveFull).1.i2c.buffer_index = 4 :=
  ⟨by decide, by decide, by decide, by decide,
    ((slave_receive_bounded stm8l15x (exSlaveRx 0x55) exampleSlaveFull (by decide)).2.2
      (by decide) (by decide) (by decide)).2.2.2⟩

theorem irq_slave_quiet (L : Layout) (hL : L.errorNibble) (hw : Hw) (s : State)
    (hslave : s.i2c.masterMode = 0) (hq : Quiet L hw) :
    I2C_IRQ L hw s = ((slaveBranch L hw s).1, (slaveBranch L hw s).2 ++ [Event.rd Reg.SR2]) := by
  simp [I2C_IRQ, roleBranch, hslave, epilogue_quiet L hL hw _ hq]

theorem seq_slaveReceiving (L : Layout) (hL : L.errorNibble) :
    ∀ (rx : List Hw) (j : Nat) (s : State),
      s.i2c.masterMode = 0 → s.i2c.slaveTransactionLength ≤ 255 →
      s.i2c.buffer_index = min j s.i2c.slaveTransactionLength →
      (∀ h ∈ rx, SlaveReceiving L h) →
      (I2C_IRQ_seq L s rx).1.i2c.masterMode = 0 ∧
      (I2C_IRQ_seq L s rx).1.i2c.slaveBuffer = s.i2c.slaveBuffer ∧
      (I2C_IRQ_seq L s rx).1.i2c.slaveTransactionLength = s.i2c.slaveTransactionLength ∧
      (I2C_IRQ_seq L s rx).1.i2c.buffer_index =
        min (j + rx.length) s.i2c.slaveTransactionLength ∧
      (I2C_IRQ_seq L s rx).1.mem =
        writeBytes s.mem (s.i2c.slaveBuffer + j)
          ((rx.map Hw.DR).take (s.i2c.slaveTransactionLength - j)) ∧
      (I2C_IRQ_seq L s rx).2 =
        List.zipWith (fun i h =>
          if i + 1 < s.i2c.slaveTransactionLength then
            [Event.rd Reg.DR, Event.store (s.i2c.slaveBuffer + i) h.DR,
             Event.setf Field.ACK 1, Event.rd Reg.SR2]
          else if i + 1 = s.i2c.slaveTransactionLength then
            [Event.rd Reg.DR, Event.store (s.i2c.slaveBuffer + i) h.DR,
             Event.setf Field.ACK 1,
             Event.Slave_Rx_Callback s.i2c.slaveBuffer s.i2c.slaveTransactionLength,
             Event.rd Reg.SR2]
          else
            [Event.rd Reg.DR, Event.setf Field.ACK 1, Event.rd Reg.SR2])
          (List.range' j rx.length) rx := by
  intro rx
  induction rx with
  | nil =>
    intro j s hs _ hidx _
    simp [I2C_IRQ_seq, writeBytes, hs, hidx]
  | cons hw rest ih =>
    intro j s hs hlen hidx hrx
    obtain ⟨hA, hR, hq⟩ := hrx hw (List.mem_cons_self _ _)
    have hrest : ∀ h ∈ rest, SlaveReceiving L h := fun h hh => hrx h (List.mem_cons_of_mem _ hh)
    have hirq := irq_slave_quiet L hL hw s hs hq
    by_cases hj : j < s.i2c.slaveTransactionLength
    · have hi : s.i2c.buffer_index = j := by rw [hidx]; exact Nat.min_eq_left (by omega)
      have hb := slaveBranch_rx_store L hw s hA hR (by omega)
      have hmod : (j + 1) % 256 = j + 1 := Nat.mod_eq_of_lt (by omega)
      rw [hi, hmod] at hb
      rw [hb] at hirq
      have := ih (j + 1)
        ({ s with mem := Function.update s.mem (s.i2c.slaveBuffer + j) hw.DR
                  i2c := { s.i2c with buffer_index := j + 1 }
                  CR2 := setBit s.CR2 L.ACK })
        hs hlen (by simp only; rw [Nat.min_eq_left (by omega)]) hrest
      dsimp only at this hirq
      obtain ⟨a1, a2, a3, a4, a5, a6⟩ := this
      simp only [I2C_IRQ_seq, hirq, List.length_cons, List.range'_succ, List.zipWith_cons_cons,
        List.map_cons]
      refine ⟨a1, a2, a3, ?_, ?_, ?_⟩
      · rw [a4]; congr 1; omega
      · rw [a5]
        have e : s.i2c.slaveTransactionLength - j = (s.i2c.slaveTransactionLength - (j + 1)) + 1 := by
          omega
        rw [e, List.take_succ_cons, writeBytes, Nat.add_assoc]
      · rw [a6]
        congr 1
        by_cases h1 : j + 1 < s.i2c.slaveTransactionLength
        · have h2 : ¬ (j + 1 = s.i2c.slaveTransactionLength) := by omega
          simp [h1, h2]
        · have h2 : j + 1 = s.i2c.slaveTransactionLength := by omega
          simp [h2]
    · have hi : s.i2c.buffer_index = s.i2c.slaveTransactionLength := by
        rw [hidx]; exact Nat.min_eq_right (by omega)
      have hb := slaveBranch_overflow L hw s hA hR (by omega)
      rw [hb] at hirq
      have := ih (j + 1)
        ({ s with i2c := { s.i2c with reg := hw.DR }, CR2 := setBit s.CR2 L.ACK })
        hs hlen (by simp only; rw [hi, Nat.min_eq_right (by omega)]) hrest
      dsimp only at this hirq
      obtain ⟨a1, a2, a3, a4, a5, a6⟩ := this
      simp only [I2C_IRQ_seq, hirq, List.length_cons, List.range'_succ, List.zipWith_cons_cons,
        List.map_cons]
      refine ⟨a1, a2, a3, ?_, ?_, ?_⟩
      · rw [a4]; congr 1; omega
      · rw [a5]
        have e1 : s.i2c.slaveTransactionLength - j = 0 := by omega
        have e2 : s.i2c.slaveTransactionLength - (j + 1) = 0 := by omega
        rw [e1, e2]; simp [writeBytes]
      · rw [a6]
        congr 1
        have h1 : ¬ (j + 1 < s.i2c.slaveTransactionLength) := by omega
        have h2 : ¬ (j + 1 = s.i2c.slaveTransactionLength) := by omega
        simp [h1, h2]

theorem irq_addressMatched (L : Layout) (hL : L.errorNibble) (hw : Hw) (s : State)
    (hslave : s.i2c.masterMode = 0) (h : AddressMatched L hw) :
    I2C_IRQ L hw s =
      ({ s with i2c := { s.i2c with reg := hw.SR3, buffer_index := 0 },
                CR2 := setBit s.CR2 L.ACK },
       [Event.rd Reg.SR1, Event.rd Reg.SR3, Event.setf Field.ACK 1, Event.rd Reg.SR2]) := by
  rw [irq_slave_quiet L hL hw s hslave h.2, slaveBranch_addr L hw s h.1]
  rfl

theorem countP_slaveRx (buf c : Nat) :
    ∀ (rx : List Hw) (j : Nat),
      (List.zipWith (fun i (h : Hw) =>
          if i + 1 < c then
            [Event.rd Reg.DR, Event.store (buf + i) h.DR, Event.setf Field.ACK 1,
             Event.rd Reg.SR2]
          else if i + 1 = c then
            [Event.rd Reg.DR, Event.store (buf + i) h.DR, Event.setf Field.ACK 1,
             Event.Slave_Rx_Callback buf c, Event.rd Reg.SR2]
          else
            [Event.rd Reg.DR, Event.setf Field.ACK 1, Event.rd Reg.SR2])
          (List.range' j rx.length) rx).flatten.countP isCallback =
        if j < c ∧ c ≤ j + rx.length then 1 else 0 := by
  intro rx
  induction rx with
  | nil =>
    intro j
    have h0 : ¬ (j < c ∧ c ≤ j + 0) := by omega
    simp only [List.length_nil, if_neg h0]
    rfl
  | cons hw rest ih =>
    intro j
    simp only [List.length_cons, List.range'_succ, List.zipWith_cons_cons, List.flatten_cons,
      List.countP_append, ih (j + 1)]
    by_cases h1 : j + 1 < c
    · have h2 : j < c := by omega
      simp only [h1, if_true, h2, true_and]
      have e : (c ≤ j + 1 + rest.length) ↔ (c ≤ j + (rest.length + 1)) := by
        omega
      simp only [e]
      simp [List.countP_cons, isCallback]
    · by_cases h2 : j + 1 = c
      · have h3 : j < c := by omega
        have h4 : c ≤ j + (rest.length + 1) := by omega
        simp [h1, h2, h3, h4, List.countP_cons, isCallback]
      · have h3 : ¬ (j < c) := by omega
        simp [h1, h2, h3, List.countP_cons, isCallback]

/-- C6: slave reception into a buffer of capacity `c` (`1 ≤ c ≤ 255`)
installed by `I2C_Slave_Configure`.  After an Address-Matched invocation, the
`i`-th slave receive invocation (counting from 0) reads the data register and,
while `i < c`, stores the byte at `slaveBuffer + i`; it calls
`i2c_user_Slave_Rx_Callback(slaveBuffer, c)` exactly when `i + 1 = c`; from
`i = c` on the byte is read and dropped.  Afterwards the buffer holds the first
`min m c` of the `m` received bytes, memory elsewhere is unchanged, and the
callback was called once if `m ≥ c` and never otherwise. -/
theorem slave_receive_completion (L : Layout) (hL : L.errorNibble) (s0 : State)
    (own buf c : Nat) (hc1 : 1 ≤ c) (hc2 : c ≤ 255) (am : Hw) (rx : List Hw)
    (ham : AddressMatched L am) (hrx : ∀ h ∈ rx, SlaveReceiving L h) :
    (I2C_IRQ_seq L (I2C_Slave_Configure L own buf c s0).1 (am :: rx)).2 =
      [Event.rd Reg.SR1, Event.rd Reg.SR3, Event.setf Field.ACK 1, Event.rd Reg.SR2] ::
      List.zipWith (fun i h =>
        if i + 1 < c then
          [Event.rd Reg.DR, Event.store (buf + i) h.DR, Event.setf Field.ACK 1,
           Event.rd Reg.SR2]
        else if i + 1 = c then
          [Event.rd Reg.DR, Event.store (buf + i) h.DR, Event.setf Field.ACK 1,
           Event.Slave_Rx_Callback buf c, Event.rd Reg.SR2]
        else
          [Event.rd Reg.DR, Event.setf Field.ACK 1, Event.rd Reg.SR2])
        (List.range rx.length) rx ∧
    (∀ i h, i < c → rx[i]? = some h →
      (I2C_IRQ_seq L (I2C_Slave_Configure L own buf c s0).1 (am :: rx)).1.mem (buf + i) = h.DR) ∧
    (∀ x, (x < buf ∨ buf + min rx.length c ≤ x) →
      (I2C_IRQ_seq L (I2C_Slave_Configure L own buf c s0).1 (am :: rx)).1.mem x = s0.mem x) ∧
    (I2C_IRQ_seq L (I2C_Slave_Configure L own buf c s0).1 (am :: rx)).2.flatten.countP
      isCallback = (if c ≤ rx.length then 1 else 0) := by
  have h1 := irq_addressMatched L hL am (I2C_Slave_Configure L own buf c s0).1 rfl ham
  have h2 := seq_slaveReceiving L hL rx 0
    ({ (I2C_Slave_Configure L own buf c s0).1 with
        i2c := { (I2C_Slave_Configure L own buf c s0).1.i2c with
                  reg := am.SR3, buffer_index := 0 }
        CR2 := setBit (I2C_Slave_Configure L own buf c s0).1.CR2 L.ACK })
    rfl hc2 (by simp) hrx
  simp only [I2C_Slave_Configure] at h1 h2
  simp only [I2C_Slave_Configure, I2C_IRQ_seq, h1]
  obtain ⟨-, -, -, -, a5, a6⟩ := h2
  simp only [Nat.add_zero, Nat.sub_zero] at a5
  rw [a5, a6, ← List.range_eq_range']
  refine ⟨rfl, ?_, ?_, ?_⟩
  · intro i h hi hget
    apply writeBytes_at
    rw [List.getElem?_take_of_lt hi, List.getElem?_map, hget]
    rfl
  · intro x hx
    rcases hx with hx | hx
    · exact writeBytes_below _ _ _ _ hx
    · apply writeBytes_above
      rw [List.length_take, List.length_map]
      rw [Nat.min_comm]; exact hx
  · have hcnt := countP_slaveRx buf c rx 0
    rw [← List.range_eq_range'] at hcnt
    simp only [List.flatten_cons, List.countP_append, hcnt]
    have : (0 < c ∧ c ≤ 0 + rx.length) ↔ c ≤ rx.length := by
      constructor
      · intro h; omega
      · intro h; omega
    simp only [this]
    simp [List.countP_cons, isCallback]

/-- C6, instance: `I2C_Slave_Configure(0x20, buf, 4)` then 5 received bytes:
the buffer holds the first 4, the callback fires once, at byte 4. -/
theorem slave_receive_completion_witness :
    stm8l15x.errorNibble ∧ (1 ≤ 4 ∧ 4 ≤ 255) ∧ AddressMatched stm8l15x exSlaveAddr ∧
    (∀ h ∈ [exSlaveRx 1, exSlaveRx 2, exSlaveRx 3, exSlaveRx 4, exSlaveRx 5],
      SlaveReceiving stm8l15x h) ∧
    (I2C_IRQ_seq stm8l15x (I2C_Slave_Configure stm8l15x 0x20 100 4 exampleState).1
      [exSlaveAddr, exSlaveRx 1, exSlaveRx 2, exSlaveRx 3, exSlaveRx 4, exSlaveRx 5]).2 =
      [[Event.rd Reg.SR1, Event.rd Reg.SR3, Event.setf Field.ACK 1, Event.rd Reg.SR2],
       [Event.rd Reg.DR, Event.store 100 1, Event.setf Field.ACK 1, Event.rd Reg.SR2],
       [Event.rd Reg.DR, Event.store 101 2, Event.setf Field.ACK 1, Event.rd Reg.SR2],
       [Event.rd Reg.DR, Event.store 102 3, Event.setf Field.ACK 1, Event.rd Reg.SR2],
       [Event.rd Reg.DR, Event.store 103 4, Event.setf Field.ACK 1,
        Event.Slave_Rx_Callback 100 4, Event.rd Reg.SR2],
       [Event.rd Reg.DR, Event.setf Field.ACK 1, Event.rd Reg.SR2]] ∧
    (I2C_IRQ_seq stm8l15x (I2C_Slave_Configure stm8l15x 0x20 100 4 exampleState).1
      [exSlaveAddr, exSlaveRx 1, exSlaveRx 2, exSlaveRx 3, exSlaveRx 4, exSlaveRx 5]).1.mem 104 =
      0 :=
  ⟨by decide, by decide, by decide, by decide,
    (slave_receive_completion stm8l15x (by decide) exampleState 0x20 100 4 (by decide)
      (by decide) exSlaveAddr [exSlaveRx 1, exSlaveRx 2, exSlaveRx 3, exSlaveRx 4, exSlaveRx 5]
      (by decide) (by decide)).1,
    (slave_receive_completion stm8l15x (by decide) exampleState 0x20 100 4 (by decide)
      (by decide) exSlaveAddr [exSlaveRx 1, exSlaveRx 2, exSlaveRx 3, exSlaveRx 4, exSlaveRx 5]
      (by decide) (by decide)).2.2.1 104 (Or.inr (by decide))⟩

theorem seq_slaveTransmitting (L : Layout) (hL : L.errorNibble) :
    ∀ (tx : List Hw) (j : Nat) (s : State),
      s.i2c.masterMode = 0 → s.i2c.slaveTransactionLength ≤ 255 →
      s.i2c.buffer_index = min j s.i2c.slaveTransactionLength →
      (∀ h ∈ tx, SlaveTransmitting L h) →
      (I2C_IRQ_seq L s tx).2 =
        (List.range' j tx.length).map (fun i =>
          if i + 1 < s.i2c.slaveTransactionLength then
            [Event.load (s.i2c.slaveBuffer + i), Event.wr Reg.DR (s.mem (s.i2c.slaveBuffer + i)),
             Event.rd Reg.SR2]
          else if i + 1 = s.i2c.slaveTransactionLength then
            [Event.load (s.i2c.slaveBuffer + i), Event.wr Reg.DR (s.mem (s.i2c.slaveBuffer + i)),
             Event.Slave_Tx_Callback s.i2c.slaveBuffer s.i2c.slaveTransactionLength,
             Event.rd Reg.SR2]
          else
            [Event.wr Reg.DR 0, Event.rd Reg.SR2]) := by
  intro tx
  induction tx with
  | nil => intro j s _ _ _ _; simp [I2C_IRQ_seq]
  | cons hw rest ih =>
    intro j s hs hlen hidx htx
    obtain ⟨hA, hR, hT, hq⟩ := htx hw (List.mem_cons_self _ _)
    have hrest : ∀ h ∈ rest, SlaveTransmitting L h :=
      fun h hh => htx h (List.mem_cons_of_mem _ hh)
    have hirq := irq_slave_quiet L hL hw s hs hq
    by_cases hj : j < s.i2c.slaveTransactionLength
    · have hi : s.i2c.buffer_index = j := by rw [hidx]; exact Nat.min_eq_left (by omega)
      have hb := slaveBranch_tx_data L hw s hA hR hT (by omega)
      have hmod : (j + 1) % 256 = j + 1 := Nat.mod_eq_of_lt (by omega)
      rw [hi, hmod] at hb
      rw [hb] at hirq
      have := ih (j + 1) ({ s with i2c := { s.i2c with buffer_index := j + 1 } })
        hs hlen (by simp only; rw [Nat.min_eq_left (by omega)]) hrest
      dsimp only at this hirq
      simp only [I2C_IRQ_seq, hirq, List.length_cons, List.range'_succ, List.map_cons, this]
      congr 1
      by_cases h1 : j + 1 < s.i2c.slaveTransactionLength
      · have h2 : ¬ (j + 1 = s.i2c.slaveTransactionLength) := by omega
        simp [h1, h2]
      · have h2 : j + 1 = s.i2c.slaveTransactionLength := by omega
        simp [h2]
    · have hb := slaveBranch_tx_fill L hw s hA hR hT (by rw [hidx]; omega)
      rw [hb] at hirq
      have := ih (j + 1) s hs hlen (by rw [hidx]; omega) hrest
      simp only [I2C_IRQ_seq, hirq, List.length_cons, List.range'_succ, List.map_cons, this]
      congr 1
      have h1 : ¬ (j + 1 < s.i2c.slaveTransactionLength) := by omega
      have h2 : ¬ (j + 1 = s.i2c.slaveTransactionLength) := by omega
      simp [h1, h2]

theorem slaveTx_trace_facts (buf c : Nat) (mem : Nat → Nat) (hc : 1 ≤ c) (k : Nat) :
    drWrites ((List.range k).map (fun i =>
        if i + 1 < c then
          [Event.load (buf + i), Event.wr Reg.DR (mem (buf + i)), Event.rd Reg.SR2]
        else if i + 1 = c then
          [Event.load (buf + i), Event.wr Reg.DR (mem (buf + i)),
           Event.Slave_Tx_Callback buf c, Event.rd Reg.SR2]
        else
          [Event.wr Reg.DR 0, Event.rd Reg.SR2])).flatten =
      (List.range (min k c)).map (fun i => mem (buf + i)) ++
        List.replicate (k - min k c) 0 ∧
    ((List.range k).map (fun i =>
        if i + 1 < c then
          [Event.load (buf + i), Event.wr Reg.DR (mem (buf + i)), Event.rd Reg.SR2]
        else if i + 1 = c then
          [Event.load (buf + i), Event.wr Reg.DR (mem (buf + i)),
           Event.Slave_Tx_Callback buf c, Event.rd Reg.SR2]
        else
          [Event.wr Reg.DR 0, Event.rd Reg.SR2])).flatten.countP isCallback =
      (if c ≤ k then 1 else 0) := by
  induction k with
  | zero =>
    have h0 : ¬ (c ≤ 0) := by omega
    simp [drWrites, h0]
  | succ k ih =>
    obtain ⟨ih1, ih2⟩ := ih
    simp only [List.range_succ, List.map_append, List.flatten_append, drWrites_append,
      List.countP_append, ih1, ih2, List.map_cons, List.map_nil, List.flatten_cons,
      List.flatten_nil, List.append_nil]
    by_cases h1 : k + 1 < c
    · have e1 : min k c = k := by omega
      have e2 : min (k + 1) c = k + 1 := by omega
      have e3 : ¬ (c ≤ k) := by omega
      have e4 : ¬ (c ≤ k + 1) := by omega
      simp [h1, e1, e2, e3, e4, drWrites, List.range_succ, isCallback]
    · by_cases h2 : k + 1 = c
      · subst h2
        have e1 : min k (k + 1) = k := by omega
        simp [e1, drWrites, List.range_succ, isCallback]
      · have e1 : min k c = c := by omega
        have e2 : min (k + 1) c = c := by omega
        have e3 : c ≤ k := by omega
        have e4 : c ≤ k + 1 := by omega
        have e5 : k + 1 - c = (k - c) + 1 := by omega
        simp [h1, h2, e1, e2, e3, e4, e5, drWrites, isCallback, List.replicate_succ']

theorem irq_buffer_index (L : Layout) (hw : Hw) (s : State) :
    (I2C_IRQ L hw s).1.i2c.buffer_index = (roleBranch L hw s).1.i2c.buffer_index := by
  obtain ⟨r, c, h⟩ := epilogue_state L hw (roleBranch L hw s).1
  simp only [I2C_IRQ, h]

theorem irq_drWrites (L : Layout) (hw : Hw) (s : State) :
    drWrites (I2C_IRQ L hw s).2 = drWrites (roleBranch L hw s).2 := by
  simp only [I2C_IRQ, drWrites_append, drWrites_epilogue, List.append_nil]

/-- C7: slave transmission.  In slave role, on an invocation with `TXE` set and
`ADDR`, `RXNE` clear: while `buffer_index < slaveTransactionLength` the data
register is written with `slaveBuffer[buffer_index]`, the index grows by one
and `i2c_user_Slave_Tx_Callback(slaveBuffer, slaveTransactionLength)` is called
exactly when the new index equals the length; otherwise the byte 0 is written,
the index is unchanged and nothing is called.  With `RXNE` set the branch is
not taken: no data-register write, no transmit callback.  Consequently `k`
transmit events after an Address-Matched event send
`slaveBuffer[0 .. min k c - 1]` followed by `k - min k c` zeros, and the
callback is called once if `k ≥ c` and never otherwise. -/
theorem slave_transmit (L : Layout) (hw : Hw) (s : State)
    (hslave : s.i2c.masterMode = 0) (hlen : s.i2c.slaveTransactionLength ≤ 255) :
    (flag L.ADDR hw.SR1 = false → flag L.RXNE hw.SR1 = false → flag L.TXE hw.SR1 = true →
      (s.i2c.buffer_index < s.i2c.slaveTransactionLength →
        roleBranch L hw s =
          ({ s with i2c := { s.i2c with buffer_index := s.i2c.buffer_index + 1 } },
           [Event.load (s.i2c.slaveBuffer + s.i2c.buffer_index),
            Event.wr Reg.DR (s.mem (s.i2c.slaveBuffer + s.i2c.buffer_index))] ++
           (if s.i2c.buffer_index + 1 = s.i2c.slaveTransactionLength then
              [Event.Slave_Tx_Callback s.i2c.slaveBuffer s.i2c.slaveTransactionLength]
            else [])) ∧
        drWrites (I2C_IRQ L hw s).2 = [s.mem (s.i2c.slaveBuffer + s.i2c.buffer_index)] ∧
        (I2C_IRQ L hw s).1.i2c.buffer_index = s.i2c.buffer_index + 1) ∧
      (s.i2c.slaveTransactionLength ≤ s.i2c.buffer_index →
        roleBranch L hw s = (s, [Event.wr Reg.DR 0]) ∧
        drWrites (I2C_IRQ L hw s).2 = [0] ∧
        (I2C_IRQ L hw s).1.i2c.buffer_index = s.i2c.buffer_index)) ∧
    (flag L.RXNE hw.SR1 = true →
      drWrites (I2C_IRQ L hw s).2 = [] ∧
      ∀ p n, Event.Slave_Tx_Callback p n ∉ (I2C_IRQ L hw s).2) ∧
    (∀ (am : Hw) (tx : List Hw), L.errorNibble → 1 ≤ s.i2c.slaveTransactionLength →
      AddressMatched L am → (∀ h ∈ tx, SlaveTransmitting L h) →
      drWrites (I2C_IRQ_seq L s (am :: tx)).2.flatten =
        (List.range (min tx.length s.i2c.slaveTransactionLength)).map
          (fun i => s.mem (s.i2c.slaveBuffer + i)) ++
        List.replicate (tx.length - min tx.length s.i2c.slaveTransactionLength) 0 ∧
      (I2C_IRQ_seq L s (am :: tx)).2.flatten.countP isCallback =
        (if s.i2c.slaveTransactionLength ≤ tx.length then 1 else 0)) := by
  have hrole : roleBranch L hw s = slaveBranch L hw s := by simp [roleBranch, hslave]
  refine ⟨?_, ?_, ?_⟩
  · intro hA hR hT
    constructor
    · intro hidx
      have hb := slaveBranch_tx_data L hw s hA hR hT hidx
      have hmod : (s.i2c.buffer_index + 1) % 256 = s.i2c.buffer_index + 1 :=
        Nat.mod_eq_of_lt (by omega)
      rw [hmod] at hb
      refine ⟨by rw [hrole, hb], ?_, ?_⟩
      · rw [irq_drWrites, hrole, hb]
        split_ifs <;> simp [drWrites]
      · rw [irq_buffer_index, hrole, hb]
    · intro hidx
      have hb := slaveBranch_tx_fill L hw s hA hR hT hidx
      refine ⟨by rw [hrole, hb], ?_, ?_⟩
      · rw [irq_drWrites, hrole, hb]; rfl
      · rw [irq_buffer_index, hrole, hb]
  · intro hR
    have hbr : drWrites (slaveBranch L hw s).2 = [] ∧
        ∀ p n, Event.Slave_Tx_Callback p n ∉ (slaveBranch L hw s).2 := by
      cases hA : flag L.ADDR hw.SR1
      · by_cases hidx : s.i2c.buffer_index < s.i2c.slaveTransactionLength
        · rw [slaveBranch_rx_store L hw s hA hR hidx]
          split_ifs <;> simp [drWrites]
        · rw [slaveBranch_overflow L hw s hA hR (Nat.not_lt.mp hidx)]
          simp [drWrites]
      · rw [slaveBranch_addr L hw s hA]
        simp [drWrites]
    refine ⟨by rw [irq_drWrites, hrole]; exact hbr.1, ?_⟩
    intro p n hmem
    simp only [I2C_IRQ, hrole, List.mem_append] at hmem
    rcases hmem with hmem | hmem
    · exact hbr.2 p n hmem
    · rcases epilogue_events L hw _ _ hmem with h | h | h | h | h | h | h | h | h <;>
        exact Event.noConfusion h
  · intro am tx hL hc ham htx
    have h1 := irq_addressMatched L hL am s hslave ham
    have h2 := seq_slaveTransmitting L hL tx 0
      ({ s with i2c := { s.i2c with reg := am.SR3, buffer_index := 0 },
                CR2 := setBit s.CR2 L.ACK })
      hslave hlen (by simp) htx
    dsimp only at h2
    rw [← List.range_eq_range'] at h2
    obtain ⟨f1, f2⟩ := slaveTx_trace_facts s.i2c.slaveBuffer s.i2c.slaveTransactionLength
      s.mem hc tx.length
    simp only [I2C_IRQ_seq, h1, h2, List.flatten_cons, drWrites_append, List.countP_append,
      f1, f2]
    constructor
    · simp [drWrites]
    · simp [List.countP_cons, isCallback]

/-- C7, instance: a 3-byte slave buffer and 5 transmit events send the 3 bytes
and then two zeros. -/
theorem slave_transmit_witness :
    exampleSlave3.i2c.masterMode = 0 ∧ exampleSlave3.i2c.slaveTransactionLength ≤ 255 ∧
    stm8l15x.errorNibble ∧ AddressMatched stm8l15x exSlaveAddr ∧
    (∀ h ∈ [exSlaveTx, exSlaveTx, exSlaveTx, exSlaveTx, exSlaveTx],
      SlaveTransmitting stm8l15x h) ∧
    drWrites (I2C_IRQ_seq stm8l15x exampleSlave3
      [exSlaveAddr, exSlaveTx, exSlaveTx, exSlaveTx, exSlaveTx, exSlaveTx]).2.flatten =
      [0x10, 0x20, 0x30, 0, 0] :=
  ⟨by decide, by decide, by decide, by decide, by decide,
    ((slave_transmit stm8l15x exSlaveTx exampleSlave3 (by decide) (by decide)).2.2
      exSlaveAddr [exSlaveTx, exSlaveTx, exSlaveTx, exSlaveTx, exSlaveTx]
      (by decide) (by decide) (by decide) (by decide)).1⟩

/-! ## Error reporting and recovery -/

theorem roleBranch_no_error_callback (L : Layout) (hw : Hw) (s : State) :
    (roleBranch L hw s).2.filter isErrorCallback = [] := by
  unfold roleBranch masterBranch slaveBranch masterTransmit masterReceive
  dsimp only
  split_ifs <;> simp [isErrorCallback]

theorem filter_clearIfSet (pos : Nat) (f : Field) (p : Nat × List Event) :
    (clearIfSet pos f p).2.filter isErrorCallback = p.2.filter isErrorCallback := by
  unfold clearIfSet
  split_ifs <;> simp [isErrorCallback]

theorem epilogue_error_callback (L : Layout) (hw : Hw) (s : State) :
    (epilogue L hw s).2.filter isErrorCallback =
      if hw.SR2 &&& 0x0F = 0 then [] else [Event.Error_Callback (hw.SR2 &&& 0x0F)] := by
  unfold epilogue errorHandling stopHandling
  dsimp only
  split_ifs <;> simp_all [filter_clearIfSet, isErrorCallback]

/-- C8: one invocation of `I2C_IRQ`, in either role and whatever the readings,
calls `i2c_user_Error_Callback` if and only if `SR2 & 0x0F` is non-zero, calls
it at most once, and passes exactly that masked value: the calls of the error
callback in the invocation are none when the mask is zero and the single call
with the mask otherwise.  When the four error flags lie in the low nibble, a
set acknowledge-failure flag alone is enough for the call. -/
theorem error_callback_report (L : Layout) (hw : Hw) (s : State) :
    ((I2C_IRQ L hw s).2.filter isErrorCallback =
      if hw.SR2 &&& 0x0F = 0 then [] else [Event.Error_Callback (hw.SR2 &&& 0x0F)]) ∧
    (L.errorNibble → flag L.AF hw.SR2 = true →
      (I2C_IRQ L hw s).2.filter isErrorCallback = [Event.Error_Callback (hw.SR2 &&& 0x0F)]) := by
  have h : (I2C_IRQ L hw s).2.filter isErrorCallback =
      if hw.SR2 &&& 0x0F = 0 then [] else [Event.Error_Callback (hw.SR2 &&& 0x0F)] := by
    simp only [I2C_IRQ, List.filter_append, roleBranch_no_error_callback,
      epilogue_error_callback, List.nil_append]
  refine ⟨h, ?_⟩
  intro hL hAF
  rw [h, if_neg (error_status_ne_zero L hL hw.SR2 (Or.inl hAF))]

/-- C8, instance: with only the acknowledge-failure flag set the error
callback is called once, with the mask `0x04`. -/
theorem error_callback_report_witness :
    stm8l15x.errorNibble ∧ flag stm8l15x.AF exAckFailure.SR2 = true ∧
    (I2C_IRQ stm8l15x exAckFailure exampleSlave3).2.filter isErrorCallback =
      [Event.Error_Callback 0x04] :=
  ⟨by decide, by decide,
    (error_callback_report stm8l15x exAckFailure exampleSlave3).2 (by decide) (by decide)⟩

theorem clearIfSet_snd (pos : Nat) (f : Field) (p : Nat × List Event) :
    (clearIfSet pos f p).2 = p.2 ++ if flag pos p.1 = true then [Event.setf f 0] else [] := by
  unfold clearIfSet
  split_ifs <;> simp

theorem clearIfSet_flag (pos q : Nat) (f : Field) (p : Nat × List Event) (h : q ≠ pos) :
    flag q (clearIfSet pos f p).1 = flag q p.1 := by
  unfold clearIfSet
  split_ifs
  · exact flag_clearBit_of_ne p.1 pos q h
  · rfl

theorem errorHandling_trace (L : Layout) (hL : L.errorNibble) (hw : Hw) (s : State) :
    (errorHandling L hw s).2 =
      [Event.rd Reg.SR2] ++
      (if flag L.AF hw.SR2 = true ∨ flag L.OVR hw.SR2 = true ∨ flag L.ARLO hw.SR2 = true ∨
          flag L.BERR hw.SR2 = true then
        (if flag L.AF hw.SR2 = true then [Event.setf Field.AF 0] else []) ++
        (if flag L.OVR hw.SR2 = true then [Event.setf Field.OVR 0] else []) ++
        (if flag L.ARLO hw.SR2 = true then [Event.setf Field.ARLO 0] else []) ++
        (if flag L.BERR hw.SR2 = true then [Event.setf Field.BERR 0] else []) ++
        (if flag L.MSL hw.SR3 = true then [Event.setf Field.STOP 1] else []) ++
        [Event.Error_Callback (hw.SR2 &&& 0x0F)]
      else []) := by
  have hd := hL
  unfold Layout.errorNibble at hd
  obtain ⟨-, -, -, -, d1, d2, d3, d4, d5, d6⟩ := hd
  by_cases hany : flag L.AF hw.SR2 = true ∨ flag L.OVR hw.SR2 = true ∨
      flag L.ARLO hw.SR2 = true ∨ flag L.BERR hw.SR2 = true
  · have h0 := error_status_ne_zero L hL hw.SR2 hany
    unfold errorHandling
    dsimp only
    rw [if_pos h0, if_pos hany]
    simp only [clearIfSet_snd, clearIfSet_flag L.ARLO L.BERR _ _ d1,
      clearIfSet_flag L.OVR L.BERR _ _ d3, clearIfSet_flag L.AF L.BERR _ _ d2,
      clearIfSet_flag L.OVR L.ARLO _ _ d5, clearIfSet_flag L.AF L.ARLO _ _ d4,
      clearIfSet_flag L.AF L.OVR _ _ (Ne.symm d6)]
    split_ifs <;> simp
  · have hq : hw.SR2 &&& 0x0F = 0 := by
      simp only [not_or, Bool.not_eq_true] at hany
      exact error_status_eq_zero L hL hw.SR2 hany.1 hany.2.1 hany.2.2.1 hany.2.2.2
    unfold errorHandling
    dsimp only
    rw [if_neg (by simpa using hq), if_neg hany]
    rfl

/-- C9: error recovery in the epilogue, for a layout whose four error flags
are the low nibble of `SR2`.  After the role branch, one invocation of
`I2C_IRQ` reads `SR2` and, when at least one of `AF`, `OVR`, `ARLO`, `BERR` is
set, writes 0 to each flag that is set and to no other, then requests Stop
exactly when `MSL` is set, and only then calls the error callback with the
mask; when none is set it clears nothing and requests no Stop.  The stop
handling (`SR1` read and `CR2 = 0` when `STOPF` is set) comes last. -/
theorem error_recovery (L : Layout) (hL : L.errorNibble) (hw : Hw) (s : State) :
    (I2C_IRQ L hw s).2 =
      (roleBranch L hw s).2 ++ [Event.rd Reg.SR2] ++
      (if flag L.AF hw.SR2 = true ∨ flag L.OVR hw.SR2 = true ∨ flag L.ARLO hw.SR2 = true ∨
          flag L.BERR hw.SR2 = true then
        (if flag L.AF hw.SR2 = true then [Event.setf Field.AF 0] else []) ++
        (if flag L.OVR hw.SR2 = true then [Event.setf Field.OVR 0] else []) ++
        (if flag L.ARLO hw.SR2 = true then [Event.setf Field.ARLO 0] else []) ++
        (if flag L.BERR hw.SR2 = true then [Event.setf Field.BERR 0] else []) ++
        (if flag L.MSL hw.SR3 = true then [Event.setf Field.STOP 1] else []) ++
        [Event.Error_Callback (hw.SR2 &&& 0x0F)]
      else []) ++
      (if flag L.STOPF hw.SR1 = true then [Event.rd Reg.SR1, Event.wr Reg.CR2 0x00] else []) ∧
    (Event.setf Field.STOP 1 ∈ (epilogue L hw (roleBranch L hw s).1).2 ↔
      ((flag L.AF hw.SR2 = true ∨ flag L.OVR hw.SR2 = true ∨ flag L.ARLO hw.SR2 = true ∨
          flag L.BERR hw.SR2 = true) ∧ flag L.MSL hw.SR3 = true)) := by
  have hst : ∀ t : State, (stopHandling L hw t).2 =
      if flag L.STOPF hw.SR1 = true then [Event.rd Reg.SR1, Event.wr Reg.CR2 0x00] else [] := by
    intro t
    unfold stopHandling
    split_ifs <;> rfl
  have hep : ∀ t : State, (epilogue L hw t).2 =
      (errorHandling L hw t).2 ++ (stopHandling L hw (errorHandling L hw t).1).2 := by
    intro t; rfl
  constructor
  · simp only [I2C_IRQ, hep, hst, errorHandling_trace L hL, List.append_assoc]
  · rw [hep, hst, errorHandling_trace L hL]
    by_cases hany : flag L.AF hw.SR2 = true ∨ flag L.OVR hw.SR2 = true ∨
        flag L.ARLO hw.SR2 = true ∨ flag L.BERR hw.SR2 = true
    · rw [if_pos hany]
      by_cases hm : flag L.MSL hw.SR3 = true
      · rw [if_pos hm]
        simp [hany, hm]
      · rw [if_neg hm]
        have hno : Event.setf Field.STOP 1 ∉
            (if flag L.STOPF hw.SR1 = true then [Event.rd Reg.SR1, Event.wr Reg.CR2 0x00]
              else []) := by
          split_ifs <;> simp
        have hcl : ∀ (c : Prop) [Decidable c] (f : Field), f ≠ Field.STOP →
            Event.setf Field.STOP 1 ∉ (if c then [Event.setf f 0] else []) := by
          intro c _ f hf
          split_ifs <;> simp
        simp only [List.mem_append, List.mem_singleton, List.append_nil, hno,
          hcl _ Field.AF (by decide), hcl _ Field.OVR (by decide),
          hcl _ Field.ARLO (by decide), hcl _ Field.BERR (by decide), hm, and_false,
          or_false, false_or, iff_false, List.not_mem_nil]
        simp
    · rw [if_neg hany]
      have hno : Event.setf Field.STOP 1 ∉
          (if flag L.STOPF hw.SR1 = true then [Event.rd Reg.SR1, Event.wr Reg.CR2 0x00]
            else []) := by
        split_ifs <;> simp
      simp [hno, hany]

/-- C9, instance: arbitration lost while still master: `ARLO` is cleared, Stop
is requested, then the callback gets the mask with the `ARLO` bit. -/
theorem error_recovery_witness :
    stm8l15x.errorNibble ∧
    (I2C_IRQ stm8l15x exArbitrationLost exampleArmedRead).2 =
      [Event.Printf "Not TRA, no RXNE and not StopF !\n\r", Event.rd Reg.SR2,
       Event.setf Field.ARLO 0, Event.setf Field.STOP 1, Event.Error_Callback 0x02] :=
  ⟨by decide, (error_recovery stm8l15x (by decide) exArbitrationLost exampleArmedRead).1⟩

/-! ## Role after completion -/

/-- C10, counterexample: after `I2C_Read(0x50, b, 2)`, a Start-Sent event, an
Address-Sent event and the two Receiving events, the second of which stores the
final byte, requests Stop and calls the completion callback, `masterMode` is
still 1 (Master), not 0. -/
theorem role_reset_counterexample :
    (I2C_Read stm8l15x 0x50 100 2 [0x00] exampleState).map
      (fun r => ((I2C_IRQ_seq stm8l15x r.1 [exStart, exAddrRx, exRx 7, exRx 9]).1.i2c.masterMode,
        (I2C_IRQ_seq stm8l15x r.1 [exStart, exAddrRx, exRx 7, exRx 9]).2.getLast?)) =
    some (1, some [Event.rd Reg.DR, Event.store 101 9, Event.setf Field.ACK 0,
      Event.setf Field.STOP 1, Event.Rx_Callback 100 2, Event.rd Reg.SR2]) := by
  decide

/-- The master-write path at the same point: after `I2C_Write(0x50, b, 3)` and
the invocation that sends the third byte, requests Stop and calls the
completion callback, `masterMode` is still 1. -/
theorem master_write_role_after_completion :
    (I2C_Write stm8l15x 0x50 100 3 [0x00] exampleState).map
      (fun r => (I2C_IRQ_seq stm8l15x r.1
        [exStart, exAddrTx, exTx, exTx, exTx]).1.i2c.masterMode) = some 1 := by
  decide

/-- C10, amended: in a master read of `n` bytes (`1 ≤ n ≤ 255`) the role is
still Master (`masterMode = 1`) after the invocation that receives the byte at
index `n - 1`, requests Stop and calls the completion callback; the next
Receiving invocation, which finds `buffer_index ≥ masterTransactionLength`,
reads the data register, writes `ACK = 1`, requests no Stop, calls no callback
and sets the role to Slave (`masterMode = 0`). -/
theorem master_read_role_exit (L : Layout) (hL : L.errorNibble) (s0 : State)
    (sr3 : List Nat) (a b n : Nat) (hn : n ≤ 255)
    (hfree : ∃ r ∈ sr3, flag L.BUSY r = false)
    (sb ad last extra : Hw) (init : List Hw) (hlen : init.length + 1 = n)
    (hsb : StartSent L sb) (had : AddressSent L ad)
    (hinit : ∀ h ∈ init, Receiving L h) (hlast : Receiving L last)
    (hextra : Receiving L extra) :
    ∃ s1 ev, I2C_Read L a b n sr3 s0 = some (s1, ev) ∧
      (I2C_IRQ_seq L s1 (sb :: ad :: (init ++ [last]))).1.i2c.masterMode = 1 ∧
      (I2C_IRQ_seq L s1 (sb :: ad :: (init ++ [last]))).2.getLast? =
        some [Event.rd Reg.DR, Event.store (b + (n - 1)) last.DR, Event.setf Field.ACK 0,
          Event.setf Field.STOP 1, Event.Rx_Callback b n, Event.rd Reg.SR2] ∧
      (I2C_IRQ L extra (I2C_IRQ_seq L s1 (sb :: ad :: (init ++ [last]))).1).1.i2c.masterMode
        = 0 ∧
      (I2C_IRQ L extra (I2C_IRQ_seq L s1 (sb :: ad :: (init ++ [last]))).1).2 =
        [Event.rd Reg.DR, Event.setf Field.ACK 1, Event.rd Reg.SR2] := by
  subst hlen
  refine ⟨_, _, I2C_Transaction_eq L 1 a b (init.length + 1) sr3 s0 hfree, ?_⟩
  have hseq := master_read_seq L hL
    ({ s0 with
        i2c := { s0.i2c with
          readwrite := 1, SlaveAddress := a, buffer_index := 0,
          masterBuffer := b, masterTransactionLength := init.length + 1, masterMode := 1 }
        CR2 := setBit (setBit s0.CR2 L.ACK) L.START })
    (by simp) hn sb ad last init rfl hsb had hinit hlast
  dsimp only at hseq
  rw [hseq]
  have hex := irq_receiving_exit L hL extra
    ({ s0 with
        mem := writeBytes s0.mem b ((init ++ [last]).map Hw.DR)
        i2c := { s0.i2c with
          readwrite := 1, SlaveAddress := a, buffer_index := init.length + 1,
          masterBuffer := b, masterTransactionLength := init.length + 1, masterMode := 1,
          reg := ad.SR3 }
        CR2 := setBit (clearBit (setBit (setBit s0.CR2 L.ACK) L.START) L.ACK) L.STOP })
    (by simp) hextra (Nat.le_refl _)
  dsimp only at hex
  refine ⟨rfl, ?_, ?_, ?_⟩
  · rw [← List.cons_append, ← List.cons_append, List.getLast?_append]
    simp
  · rw [hex]
  · rw [hex]

/-- C10 amended, instance: a 2-byte read keeps `masterMode = 1` through its
last byte and drops it to 0 on the following Receiving event. -/
theorem master_read_role_exit_witness :
    stm8l15x.errorNibble ∧ 2 ≤ 255 ∧ (∃ r ∈ [0x00], flag stm8l15x.BUSY r = false) ∧
    [exRx 7].length + 1 = 2 ∧
    StartSent stm8l15x exStart ∧ AddressSent stm8l15x exAddrRx ∧
    (∀ h ∈ [exRx 7], Receiving stm8l15x h) ∧ Receiving stm8l15x (exRx 9) ∧
    Receiving stm8l15x (exRx 11) ∧
    ∃ s1 ev, I2C_Read stm8l15x 0x50 100 2 [0x00] exampleState = some (s1, ev) ∧
      (I2C_IRQ_seq stm8l15x s1 [exStart, exAddrRx, exRx 7, exRx 9]).1.i2c.masterMode = 1 ∧
      (I2C_IRQ stm8l15x (exRx 11)
        (I2C_IRQ_seq stm8l15x s1 [exStart, exAddrRx, exRx 7, exRx 9]).1).1.i2c.masterMode = 0 :=
  ⟨by decide, by decide, by decide, by decide, by decide, by decide, by decide, by decide,
    by decide,
    (master_read_role_exit stm8l15x (by decide) exampleState [0x00] 0x50 100 2
      (by decide) (by decide) exStart exAddrRx (exRx 9) (exRx 11) [exRx 7] (by decide)
      (by decide) (by decide) (by decide) (by decide) (by decide)).imp
      (fun _ h => h.imp (fun _ h => ⟨h.1, h.2.1, h.2.2.2.1⟩))⟩

/-! ## Master branch, case by case -/

theorem masterBranch_sb (L : Layout) (hw : Hw) (s : State) (hS : flag L.SB hw.SR1 = true) :
    masterBranch L hw s =
      ({ s with i2c := { s.i2c with reg := hw.SR1 } },
       [Event.rd Reg.SR1, Event.wr Reg.DR (addressByte s.i2c.SlaveAddress s.i2c.readwrite)]) := by
  simp [masterBranch, hS]

theorem masterBranch_addr (L : Layout) (hw : Hw) (s : State)
    (hS : flag L.SB hw.SR1 = false) (hA : flag L.ADDR hw.SR1 = true) :
    masterBranch L hw s =
      ({ s with i2c := { s.i2c with reg := hw.SR3, buffer_index := 0 } },
       [Event.rd Reg.SR1, Event.rd Reg.SR3]) := by
  simp [masterBranch, hS, hA]

theorem masterBranch_tx (L : Layout) (hw : Hw) (s : State)
    (hS : flag L.SB hw.SR1 = false) (hA : flag L.ADDR hw.SR1 = false)
    (hT : flag L.TRA hw.SR3 = true) (hX : flag L.TXE hw.SR1 = true) :
    masterBranch L hw s =
      ({ s with i2c := { s.i2c with buffer_index := (s.i2c.buffer_index + 1) % 256 }
                CR2 := if (s.i2c.buffer_index + 1) % 256 = s.i2c.masterTransactionLength
                       then setBit s.CR2 L.STOP else s.CR2 },
       [Event.load (s.i2c.masterBuffer + s.i2c.buffer_index),
        Event.wr Reg.DR (s.mem (s.i2c.masterBuffer + s.i2c.buffer_index))] ++
       (if (s.i2c.buffer_index + 1) % 256 = s.i2c.masterTransactionLength then
          [Event.setf Field.STOP 1,
           Event.Tx_Callback s.i2c.masterBuffer s.i2c.masterTransactionLength]
        else [])) := by
  simp only [masterBranch, masterTransmit, hS, hA, hT, hX, if_true, Bool.false_eq_true,
    if_false]
  split_ifs <;> rfl

theorem masterBranch_tx_log (L : Layout) (hw : Hw) (s : State)
    (hS : flag L.SB hw.SR1 = false) (hA : flag L.ADDR hw.SR1 = false)
    (hT : flag L.TRA hw.SR3 = true) (hX : flag L.TXE hw.SR1 = false)
    (hF : flag L.STOPF hw.SR1 = false) :
    masterBranch L hw s = (s, [Event.Printf "TRA, no TXE and not Stop !\n\r"]) := by
  simp [masterBranch, masterTransmit, hS, hA, hT, hX, hF]

theorem masterBranch_tx_none (L : Layout) (hw : Hw) (s : State)
    (hS : flag L.SB hw.SR1 = false) (hA : flag L.ADDR hw.SR1 = false)
    (hT : flag L.TRA hw.SR3 = true) (hX : flag L.TXE hw.SR1 = false)
    (hF : flag L.STOPF hw.SR1 = true) :
    masterBranch L hw s = (s, []) := by
  simp [masterBranch, masterTransmit, hS, hA, hT, hX, hF]

theorem masterBranch_rx_data (L : Layout) (hw : Hw) (s : State)
    (hS : flag L.SB hw.SR1 = false) (hA : flag L.ADDR hw.SR1 = false)
    (hT : flag L.TRA hw.SR3 = false) (hR : flag L.RXNE hw.SR1 = true)
    (hidx : s.i2c.buffer_index + 1 < s.i2c.masterTransactionLength) :
    masterBranch L hw s =
      ({ s with mem := Function.update s.mem (s.i2c.masterBuffer + s.i2c.buffer_index) hw.DR
                i2c := { s.i2c with buffer_index := (s.i2c.buffer_index + 1) % 256 } },
       [Event.rd Reg.DR, Event.store (s.i2c.masterBuffer + s.i2c.buffer_index) hw.DR]) := by
  have c1 : s.i2c.buffer_index < s.i2c.masterTransactionLength := by omega
  have c2 : ¬ ((s.i2c.buffer_index : Int) = (s.i2c.masterTransactionLength : Int) - 1) := by
    omega
  simp [masterBranch, masterReceive, hS, hA, hT, hR, c1, c2, Nat.not_le.mpr c1]

theorem masterBranch_rx_last (L : Layout) (hw : Hw) (s : State)
    (hS : flag L.SB hw.SR1 = false) (hA : flag L.ADDR hw.SR1 = false)
    (hT : flag L.TRA hw.SR3 = false) (hR : flag L.RXNE hw.SR1 = true)
    (hidx : s.i2c.buffer_index + 1 = s.i2c.masterTransactionLength) :
    masterBranch L hw s =
      ({ s with mem := Function.update s.mem (s.i2c.masterBuffer + s.i2c.buffer_index) hw.DR
                i2c := { s.i2c with buffer_index := (s.i2c.buffer_index + 1) % 256 }
                CR2 := setBit (clearBit s.CR2 L.ACK) L.STOP },
       [Event.rd Reg.DR, Event.store (s.i2c.masterBuffer + s.i2c.buffer_index) hw.DR,
        Event.setf Field.ACK 0, Event.setf Field.STOP 1,
        Event.Rx_Callback s.i2c.masterBuffer s.i2c.masterTransactionLength]) := by
  have c1 : s.i2c.buffer_index < s.i2c.masterTransactionLength := by omega
  have c2 : (s.i2c.buffer_index : Int) = (s.i2c.masterTransactionLength : Int) - 1 := by
    omega
  simp [masterBranch, masterReceive, hS, hA, hT, hR, c1, c2]

theorem masterBranch_rx_exit (L : Layout) (hw : Hw) (s : State)
    (hS : flag L.SB hw.SR1 = false) (hA : flag L.ADDR hw.SR1 = false)
    (hT : flag L.TRA hw.SR3 = false) (hR : flag L.RXNE hw.SR1 = true)
    (hidx : s.i2c.masterTransactionLength ≤ s.i2c.buffer_index) :
    masterBranch L hw s =
      ({ s with i2c := { s.i2c with masterMode := 0,
                                    buffer_index := (s.i2c.buffer_index + 1) % 256 }
                CR2 := setBit s.CR2 L.ACK },
       [Event.rd Reg.DR, Event.setf Field.ACK 1]) := by
  have c1 : ¬ (s.i2c.buffer_index < s.i2c.masterTransactionLength) := by omega
  have c2 : ¬ ((s.i2c.buffer_index : Int) = (s.i2c.masterTransactionLength : Int) - 1) := by
    omega
  simp [masterBranch, masterReceive, hS, hA, hT, hR, c1, c2, hidx]

theorem masterBranch_rx_log (L : Layout) (hw : Hw) (s : State)
    (hS : flag L.SB hw.SR1 = false) (hA : flag L.ADDR hw.SR1 = false)
    (hT : flag L.TRA hw.SR3 = false) (hR : flag L.RXNE hw.SR1 = false)
    (hF : flag L.STOPF hw.SR1 = false) :
    masterBranch L hw s = (s, [Event.Printf "Not TRA, no RXNE and not StopF !\n\r"]) := by
  simp [masterBranch, masterReceive, hS, hA, hT, hR, hF]

theorem masterBranch_rx_none (L : Layout) (hw : Hw) (s : State)
    (hS : flag L.SB hw.SR1 = false) (hA : flag L.ADDR hw.SR1 = false)
    (hT : flag L.TRA hw.SR3 = false) (hR : flag L.RXNE hw.SR1 = false)
    (hF : flag L.STOPF hw.SR1 = true) :
    masterBranch L hw s = (s, []) := by
  simp [masterBranch, masterReceive, hS, hA, hT, hR, hF]

/-! ## What one invocation does to the transaction context -/

theorem irq_state (L : Layout) (hw : Hw) (s : State) :
    ∃ r c, (I2C_IRQ L hw s).1 =
      { (roleBranch L hw s).1 with
          i2c := { (roleBranch L hw s).1.i2c with reg := r }, CR2 := c } := by
  obtain ⟨r, c, h⟩ := epilogue_state L hw (roleBranch L hw s).1
  exact ⟨r, c, by simp only [I2C_IRQ, h]⟩

theorem slaveBranch_frame (L : Layout) (hw : Hw) (s : State) :
    (slaveBranch L hw s).1.i2c =
      { s.i2c with reg := (slaveBranch L hw s).1.i2c.reg,
                   buffer_index := (slaveBranch L hw s).1.i2c.buffer_index } := by
  cases hA : flag L.ADDR hw.SR1
  · cases hR : flag L.RXNE hw.SR1
    · cases hT : flag L.TXE hw.SR1
      · rw [slaveBranch_idle L hw s hA hR hT]
      · by_cases hidx : s.i2c.buffer_index < s.i2c.slaveTransactionLength
        · rw [slaveBranch_tx_data L hw s hA hR hT hidx]
        · rw [slaveBranch_tx_fill L hw s hA hR hT (Nat.not_lt.mp hidx)]
    · by_cases hidx : s.i2c.buffer_index < s.i2c.slaveTransactionLength
      · rw [slaveBranch_rx_store L hw s hA hR hidx]
      · rw [slaveBranch_overflow L hw s hA hR (Nat.not_lt.mp hidx)]
  · rw [slaveBranch_addr L hw s hA]

theorem slaveBranch_index (L : Layout) (hw : Hw) (s : State) :
    (flag L.ADDR hw.SR1 = true → (slaveBranch L hw s).1.i2c.buffer_index = 0) ∧
    (flag L.ADDR hw.SR1 = false →
      (slaveBranch L hw s).1.i2c.buffer_index = s.i2c.buffer_index ∨
      (s.i2c.buffer_index < s.i2c.slaveTransactionLength ∧
        (slaveBranch L hw s).1.i2c.buffer_index = (s.i2c.buffer_index + 1) % 256)) := by
  constructor
  · intro hA
    rw [slaveBranch_addr L hw s hA]
  · intro hA
    cases hR : flag L.RXNE hw.SR1
    · cases hT : flag L.TXE hw.SR1
      · rw [slaveBranch_idle L hw s hA hR hT]; exact Or.inl rfl
      · by_cases hidx : s.i2c.buffer_index < s.i2c.slaveTransactionLength
        · rw [slaveBranch_tx_data L hw s hA hR hT hidx]; exact Or.inr ⟨hidx, rfl⟩
        · rw [slaveBranch_tx_fill L hw s hA hR hT (Nat.not_lt.mp hidx)]; exact Or.inl rfl
    · by_cases hidx : s.i2c.buffer_index < s.i2c.slaveTransactionLength
      · rw [slaveBranch_rx_store L hw s hA hR hidx]; exact Or.inr ⟨hidx, rfl⟩
      · rw [slaveBranch_overflow L hw s hA hR (Nat.not_lt.mp hidx)]; exact Or.inl rfl

theorem masterBranch_frame (L : Layout) (hw : Hw) (s : State) :
    (masterBranch L hw s).1.i2c =
      { s.i2c with reg := (masterBranch L hw s).1.i2c.reg,
                   buffer_index := (masterBranch L hw s).1.i2c.buffer_index,
                   masterMode := (masterBranch L hw s).1.i2c.masterMode } := by
  cases hS : flag L.SB hw.SR1
  · cases hA : flag L.ADDR hw.SR1
    · cases hT : flag L.TRA hw.SR3
      · cases hR : flag L.RXNE hw.SR1
        · cases hF : flag L.STOPF hw.SR1
          · rw [masterBranch_rx_log L hw s hS hA hT hR hF]
          · rw [masterBranch_rx_none L hw s hS hA hT hR hF]
        · rcases Nat.lt_trichotomy (s.i2c.buffer_index + 1) s.i2c.masterTransactionLength
            with h | h | h
          · rw [masterBranch_rx_data L hw s hS hA hT hR h]
          · rw [masterBranch_rx_last L hw s hS hA hT hR h]
          · rw [masterBranch_rx_exit L hw s hS hA hT hR (by omega)]
      · cases hX : flag L.TXE hw.SR1
        · cases hF : flag L.STOPF hw.SR1
          · rw [masterBranch_tx_log L hw s hS hA hT hX hF]
          · rw [masterBranch_tx_none L hw s hS hA hT hX hF]
        · rw [masterBranch_tx L hw s hS hA hT hX]
    · rw [masterBranch_addr L hw s hS hA]
  · rw [masterBranch_sb L hw s hS]

theorem masterBranch_index (L : Layout) (hw : Hw) (s : State) :
    (flag L.SB hw.SR1 = true → (masterBranch L hw s).1.i2c.buffer_index = s.i2c.buffer_index) ∧
    (flag L.SB hw.SR1 = false → flag L.ADDR hw.SR1 = true →
      (masterBranch L hw s).1.i2c.buffer_index = 0) ∧
    (flag L.SB hw.SR1 = false → flag L.ADDR hw.SR1 = false →
      ((masterBranch L hw s).1.i2c.buffer_index = s.i2c.buffer_index ∧
        (flag L.TRA hw.SR3 = true → flag L.TXE hw.SR1 = false) ∧
        (flag L.TRA hw.SR3 = false → flag L.RXNE hw.SR1 = false)) ∨
      ((masterBranch L hw s).1.i2c.buffer_index = (s.i2c.buffer_index + 1) % 256 ∧
        ((flag L.TRA hw.SR3 = true ∧ flag L.TXE hw.SR1 = true) ∨
         (flag L.TRA hw.SR3 = false ∧ flag L.RXNE hw.SR1 = true)))) := by
  refine ⟨?_, ?_, ?_⟩
  · intro hS; rw [masterBranch_sb L hw s hS]
  · intro hS hA; rw [masterBranch_addr L hw s hS hA]
  · intro hS hA
    cases hT : flag L.TRA hw.SR3
    · cases hR : flag L.RXNE hw.SR1
      · left
        cases hF : flag L.STOPF hw.SR1
        · rw [masterBranch_rx_log L hw s hS hA hT hR hF]; simp
        · rw [masterBranch_rx_none L hw s hS hA hT hR hF]; simp
      · right
        rcases Nat.lt_trichotomy (s.i2c.buffer_index + 1) s.i2c.masterTransactionLength
          with h | h | h
        · rw [masterBranch_rx_data L hw s hS hA hT hR h]; simp
        · rw [masterBranch_rx_last L hw s hS hA hT hR h]; simp
        · rw [masterBranch_rx_exit L hw s hS hA hT hR (by omega)]; simp
    · cases hX : flag L.TXE hw.SR1
      · left
        cases hF : flag L.STOPF hw.SR1
        · rw [masterBranch_tx_log L hw s hS hA hT hX hF]; simp
        · rw [masterBranch_tx_none L hw s hS hA hT hX hF]; simp
      · right
        rw [masterBranch_tx L hw s hS hA hT hX]; simp

/-! ## Cursor bound -/

theorem irq_slave_step (L : Layout) (hw : Hw) (s : State) (hs : s.i2c.masterMode = 0) :
    (I2C_IRQ L hw s).1.i2c.masterMode = 0 ∧
    (I2C_IRQ L hw s).1.i2c.slaveTransactionLength = s.i2c.slaveTransactionLength ∧
    (s.i2c.buffer_index ≤ s.i2c.slaveTransactionLength →
      (I2C_IRQ L hw s).1.i2c.buffer_index ≤ s.i2c.slaveTransactionLength) ∧
    (flag L.ADDR hw.SR1 = true → (I2C_IRQ L hw s).1.i2c.buffer_index = 0) := by
  obtain ⟨r, c, h⟩ := irq_state L hw s
  have hrole : roleBranch L hw s = slaveBranch L hw s := by simp [roleBranch, hs]
  rw [h, hrole]
  have hf := slaveBranch_frame L hw s
  obtain ⟨i1, i2⟩ := slaveBranch_index L hw s
  refine ⟨?_, ?_, ?_, ?_⟩
  · show (slaveBranch L hw s).1.i2c.masterMode = 0
    rw [hf]; exact hs
  · show (slaveBranch L hw s).1.i2c.slaveTransactionLength = _
    rw [hf]
  · intro hle
    show (slaveBranch L hw s).1.i2c.buffer_index ≤ _
    cases hA : flag L.ADDR hw.SR1
    · rcases i2 hA with e | ⟨hlt, e⟩
      · rw [e]; exact hle
      · rw [e]; exact Nat.le_trans (Nat.mod_le _ _) hlt
    · rw [i1 hA]; exact Nat.zero_le _
  · intro hA
    exact i1 hA

theorem irq_master_step (L : Layout) (hw : Hw) (s : State)
    (hnt : ¬ (flag L.SB hw.SR1 = false ∧ flag L.ADDR hw.SR1 = false ∧
      flag L.TRA hw.SR3 = true ∧ flag L.TXE hw.SR1 = true))
    (hinv : s.i2c.masterMode ≠ 0 → s.i2c.buffer_index ≤ s.i2c.masterTransactionLength) :
    (I2C_IRQ L hw s).1.i2c.masterTransactionLength = s.i2c.masterTransactionLength ∧
    ((I2C_IRQ L hw s).1.i2c.masterMode ≠ 0 →
      (I2C_IRQ L hw s).1.i2c.buffer_index ≤ s.i2c.masterTransactionLength) := by
  obtain ⟨r, c, h⟩ := irq_state L hw s
  rw [h]
  by_cases hs : s.i2c.masterMode = 0
  · have hrole : roleBranch L hw s = slaveBranch L hw s := by simp [roleBranch, hs]
    rw [hrole]
    have hf := slaveBranch_frame L hw s
    constructor
    · show (slaveBranch L hw s).1.i2c.masterTransactionLength = _
      rw [hf]
    · intro hne
      exfalso; apply hne
      show (slaveBranch L hw s).1.i2c.masterMode = 0
      rw [hf]; exact hs
  · have hrole : roleBranch L hw s = masterBranch L hw s := by simp [roleBranch, hs]
    rw [hrole]
    have hf := masterBranch_frame L hw s
    have hle := hinv hs
    constructor
    · show (masterBranch L hw s).1.i2c.masterTransactionLength = _
      rw [hf]
    · show (masterBranch L hw s).1.i2c.masterMode ≠ 0 →
        (masterBranch L hw s).1.i2c.buffer_index ≤ _
      cases hS : flag L.SB hw.SR1
      · cases hA : flag L.ADDR hw.SR1
        · cases hT : flag L.TRA hw.SR3
          · cases hR : flag L.RXNE hw.SR1
            · cases hF : flag L.STOPF hw.SR1
              · rw [masterBranch_rx_log L hw s hS hA hT hR hF]; exact fun _ => hle
              · rw [masterBranch_rx_none L hw s hS hA hT hR hF]; exact fun _ => hle
            · rcases Nat.lt_trichotomy (s.i2c.buffer_index + 1) s.i2c.masterTransactionLength
                with h1 | h1 | h1
              · rw [masterBranch_rx_data L hw s hS hA hT hR h1]
                intro _
                exact Nat.le_trans (Nat.mod_le _ _) (Nat.le_of_lt h1)
              · rw [masterBranch_rx_last L hw s hS hA hT hR h1]
                intro _
                exact Nat.le_trans (Nat.mod_le _ _) (Nat.le_of_eq h1)
              · rw [masterBranch_rx_exit L hw s hS hA hT hR (by omega)]
                intro hne
                exact absurd rfl hne
          · cases hX : flag L.TXE hw.SR1
            · cases hF : flag L.STOPF hw.SR1
              · rw [masterBranch_tx_log L hw s hS hA hT hX hF]; exact fun _ => hle
              · rw [masterBranch_tx_none L hw s hS hA hT hX hF]; exact fun _ => hle
            · exact absurd ⟨hS, hA, hT, hX⟩ hnt
        · rw [masterBranch_addr L hw s hS hA]
          intro _
          exact Nat.zero_le _
      · rw [masterBranch_sb L hw s hS]; exact fun _ => hle

theorem seq_slave_bound (L : Layout) :
    ∀ (hws : List Hw) (s : State), s.i2c.masterMode = 0 →
      s.i2c.buffer_index ≤ s.i2c.slaveTransactionLength →
      (I2C_IRQ_seq L s hws).1.i2c.masterMode = 0 ∧
      (I2C_IRQ_seq L s hws).1.i2c.slaveTransactionLength = s.i2c.slaveTransactionLength ∧
      (I2C_IRQ_seq L s hws).1.i2c.buffer_index ≤ s.i2c.slaveTransactionLength := by
  intro hws
  induction hws with
  | nil => intro s hs hle; exact ⟨hs, rfl, hle⟩
  | cons hw rest ih =>
    intro s hs hle
    obtain ⟨a1, a2, a3, _⟩ := irq_slave_step L hw s hs
    obtain ⟨b1, b2, b3⟩ := ih (I2C_IRQ L hw s).1 a1 (by rw [a2]; exact a3 hle)
    simp only [I2C_IRQ_seq]
    exact ⟨b1, by rw [b2, a2], by rw [← a2]; exact b3⟩

theorem seq_master_bound (L : Layout) :
    ∀ (hws : List Hw) (s : State),
      (∀ hw ∈ hws, ¬ (flag L.SB hw.SR1 = false ∧ flag L.ADDR hw.SR1 = false ∧
        flag L.TRA hw.SR3 = true ∧ flag L.TXE hw.SR1 = true)) →
      (s.i2c.masterMode ≠ 0 → s.i2c.buffer_index ≤ s.i2c.masterTransactionLength) →
      (I2C_IRQ_seq L s hws).1.i2c.masterTransactionLength = s.i2c.masterTransactionLength ∧
      ((I2C_IRQ_seq L s hws).1.i2c.masterMode ≠ 0 →
        (I2C_IRQ_seq L s hws).1.i2c.buffer_index ≤ s.i2c.masterTransactionLength) := by
  intro hws
  induction hws with
  | nil => intro s _ hinv; exact ⟨rfl, hinv⟩
  | cons hw rest ih =>
    intro s hnt hinv
    obtain ⟨a1, a2⟩ := irq_master_step L hw s (hnt hw (List.mem_cons_self _ _)) hinv
    obtain ⟨b1, b2⟩ := ih (I2C_IRQ L hw s).1 (fun h hh => hnt h (List.mem_cons_of_mem _ hh))
      (by rw [a1]; exact a2)
    simp only [I2C_IRQ_seq]
    exact ⟨by rw [b1, a1], by rw [← a1]; exact b2⟩

theorem irq_bound_step (L : Layout) (hw : Hw) (s : State)
    (hnt : ¬ TransmitsAtLength L hw s)
    (hM : s.i2c.masterMode ≠ 0 → s.i2c.buffer_index ≤ s.i2c.masterTransactionLength)
    (hS : s.i2c.masterMode = 0 →
      s.i2c.buffer_index ≤ s.i2c.slaveTransactionLength ∨
      s.i2c.buffer_index = (s.i2c.masterTransactionLength + 1) % 256) :
    (I2C_IRQ L hw s).1.i2c.masterTransactionLength = s.i2c.masterTransactionLength ∧
    (I2C_IRQ L hw s).1.i2c.slaveTransactionLength = s.i2c.slaveTransactionLength ∧
    ((I2C_IRQ L hw s).1.i2c.masterMode ≠ 0 →
      (I2C_IRQ L hw s).1.i2c.buffer_index ≤ s.i2c.masterTransactionLength) ∧
    ((I2C_IRQ L hw s).1.i2c.masterMode = 0 →
      (I2C_IRQ L hw s).1.i2c.buffer_index ≤ s.i2c.slaveTransactionLength ∨
      (I2C_IRQ L hw s).1.i2c.buffer_index = (s.i2c.masterTransactionLength + 1) % 256) := by
  obtain ⟨r, c, h⟩ := irq_state L hw s
  rw [h]
  by_cases hs : s.i2c.masterMode = 0
  · have hrole : roleBranch L hw s = slaveBranch L hw s := by simp [roleBranch, hs]
    rw [hrole]
    have hf := slaveBranch_frame L hw s
    obtain ⟨i1, i2⟩ := slaveBranch_index L hw s
    have hmm : (slaveBranch L hw s).1.i2c.masterMode = 0 := by rw [hf]; exact hs
    refine ⟨?_, ?_, ?_, ?_⟩
    · show (slaveBranch L hw s).1.i2c.masterTransactionLength = _
      rw [hf]
    · show (slaveBranch L hw s).1.i2c.slaveTransactionLength = _
      rw [hf]
    · intro hne
      exact absurd hmm hne
    · intro _
      show (slaveBranch L hw s).1.i2c.buffer_index ≤ _ ∨ (slaveBranch L hw s).1.i2c.buffer_index = _
      cases hA : flag L.ADDR hw.SR1
      · rcases i2 hA with e | ⟨hlt, e⟩
        · rw [e]; exact hS hs
        · left; rw [e]; exact Nat.le_trans (Nat.mod_le _ _) hlt
      · left; rw [i1 hA]; exact Nat.zero_le _
  · have hrole : roleBranch L hw s = masterBranch L hw s := by simp [roleBranch, hs]
    rw [hrole]
    have hf := masterBranch_frame L hw s
    have hle := hM hs
    refine ⟨?_, ?_, ?_⟩
    · show (masterBranch L hw s).1.i2c.masterTransactionLength = _
      rw [hf]
    · show (masterBranch L hw s).1.i2c.slaveTransactionLength = _
      rw [hf]
    · show ((masterBranch L hw s).1.i2c.masterMode ≠ 0 →
          (masterBranch L hw s).1.i2c.buffer_index ≤ _) ∧
        ((masterBranch L hw s).1.i2c.masterMode = 0 →
          (masterBranch L hw s).1.i2c.buffer_index ≤ _ ∨
          (masterBranch L hw s).1.i2c.buffer_index = _)
      cases hSB : flag L.SB hw.SR1
      · cases hA : flag L.ADDR hw.SR1
        · cases hT : flag L.TRA hw.SR3
          · cases hR : flag L.RXNE hw.SR1
            · cases hF : flag L.STOPF hw.SR1
              · rw [masterBranch_rx_log L hw s hSB hA hT hR hF]
                exact ⟨fun _ => hle, fun h0 => absurd h0 hs⟩
              · rw [masterBranch_rx_none L hw s hSB hA hT hR hF]
                exact ⟨fun _ => hle, fun h0 => absurd h0 hs⟩
            · rcases Nat.lt_trichotomy (s.i2c.buffer_index + 1) s.i2c.masterTransactionLength
                with h1 | h1 | h1
              · rw [masterBranch_rx_data L hw s hSB hA hT hR h1]
                exact ⟨fun _ => Nat.le_trans (Nat.mod_le _ _) (Nat.le_of_lt h1),
                  fun h0 => absurd h0 hs⟩
              · rw [masterBranch_rx_last L hw s hSB hA hT hR h1]
                exact ⟨fun _ => Nat.le_trans (Nat.mod_le _ _) (Nat.le_of_eq h1),
                  fun h0 => absurd h0 hs⟩
              · rw [masterBranch_rx_exit L hw s hSB hA hT hR (by omega)]
                have e : s.i2c.buffer_index = s.i2c.masterTransactionLength := by omega
                exact ⟨fun hne => absurd rfl hne, fun _ => Or.inr (by simp only; rw [e])⟩
          · cases hX : flag L.TXE hw.SR1
            · cases hF : flag L.STOPF hw.SR1
              · rw [masterBranch_tx_log L hw s hSB hA hT hX hF]
                exact ⟨fun _ => hle, fun h0 => absurd h0 hs⟩
              · rw [masterBranch_tx_none L hw s hSB hA hT hX hF]
                exact ⟨fun _ => hle, fun h0 => absurd h0 hs⟩
            · rw [masterBranch_tx L hw s hSB hA hT hX]
              have hne : s.i2c.buffer_index ≠ s.i2c.masterTransactionLength :=
                fun e => hnt ⟨hs, hSB, hA, hT, hX, e⟩
              have hlt : s.i2c.buffer_index + 1 ≤ s.i2c.masterTransactionLength := by omega
              exact ⟨fun _ => Nat.le_trans (Nat.mod_le _ _) hlt, fun h0 => absurd h0 hs⟩
        · rw [masterBranch_addr L hw s hSB hA]
          exact ⟨fun _ => Nat.zero_le _, fun h0 => absurd h0 hs⟩
      · rw [masterBranch_sb L hw s hSB]
        exact ⟨fun _ => hle, fun h0 => absurd h0 hs⟩

theorem seq_bound (L : Layout) :
    ∀ (hws : List Hw) (s : State), NoTransmitAtLength L s hws →
      (s.i2c.masterMode ≠ 0 → s.i2c.buffer_index ≤ s.i2c.masterTransactionLength) →
      (s.i2c.masterMode = 0 →
        s.i2c.buffer_index ≤ s.i2c.slaveTransactionLength ∨
        s.i2c.buffer_index = (s.i2c.masterTransactionLength + 1) % 256) →
      (I2C_IRQ_seq L s hws).1.i2c.masterTransactionLength = s.i2c.masterTransactionLength ∧
      (I2C_IRQ_seq L s hws).1.i2c.slaveTransactionLength = s.i2c.slaveTransactionLength ∧
      ((I2C_IRQ_seq L s hws).1.i2c.masterMode ≠ 0 →
        (I2C_IRQ_seq L s hws).1.i2c.buffer_index ≤ s.i2c.masterTransactionLength) ∧
      ((I2C_IRQ_seq L s hws).1.i2c.masterMode = 0 →
        (I2C_IRQ_seq L s hws).1.i2c.buffer_index ≤ s.i2c.slaveTransactionLength ∨
        (I2C_IRQ_seq L s hws).1.i2c.buffer_index =
          (s.i2c.masterTransactionLength + 1) % 256) := by
  intro hws
  induction hws with
  | nil => intro s _ hM hS; exact ⟨rfl, rfl, hM, hS⟩
  | cons hw rest ih =>
    intro s hnt hM hS
    obtain ⟨a1, a2, a3, a4⟩ := irq_bound_step L hw s hnt.1 hM hS
    obtain ⟨b1, b2, b3, b4⟩ := ih (I2C_IRQ L hw s).1 hnt.2
      (by rw [a1]; exact a3) (by rw [a1, a2]; exact a4)
    simp only [I2C_IRQ_seq]
    rw [a1] at b1 b3 b4
    rw [a2] at b2 b4
    exact ⟨b1, b2, b3, b4⟩

/-- C11, counterexample: `I2C_Read(0x50, b, 2)`, then a Start-Sent, an
Address-Sent and three Receiving events.  The third Receiving event takes the
exit branch: the role is back to Slave (`masterMode = 0`) and `buffer_index`
is 3, above both `masterTransactionLength = 2` and
`slaveTransactionLength = 0`. -/
theorem cursor_bound_counterexample :
    (I2C_Read stm8l15x 0x50 100 2 [0x00] exampleState).map
      (fun r =>
        ((I2C_IRQ_seq stm8l15x r.1
            [exStart, exAddrRx, exRx 7, exRx 9, exRx 11]).1.i2c.masterMode,
         (I2C_IRQ_seq stm8l15x r.1
            [exStart, exAddrRx, exRx 7, exRx 9, exRx 11]).1.i2c.buffer_index,
         (I2C_IRQ_seq stm8l15x r.1
            [exStart, exAddrRx, exRx 7, exRx 9, exRx 11]).1.i2c.slaveTransactionLength)) =
    some (0, 3, 0) := by
  decide

/-- C11, amended: the cursor bound on the paths that guard the cursor.
From a configured slave (`I2C_Slave_Configure` followed by an invocation with
`ADDR` set), after any sequence of invocations on any readings, the role is
still Slave and `buffer_index ≤ slaveTransactionLength`.  From an armed master
transaction, after any sequence of invocations in which no master data
transmission (`TRA` and `TXE` set with `SB` and `ADDR` clear) is taken with
`buffer_index = masterTransactionLength`: while the role is Master,
`buffer_index ≤ masterTransactionLength`; and once the master-read exit branch
has returned the role to Slave, `buffer_index ≤ slaveTransactionLength` or
`buffer_index` is the value `(masterTransactionLength + 1) % 256` left by that
branch. -/
theorem cursor_bound (L : Layout) :
    (∀ (own buf c : Nat) (s0 : State) (am : Hw) (hws : List Hw),
      flag L.ADDR am.SR1 = true →
      (I2C_IRQ_seq L (I2C_Slave_Configure L own buf c s0).1 (am :: hws)).1.i2c.masterMode
        = 0 ∧
      (I2C_IRQ_seq L (I2C_Slave_Configure L own buf c s0).1
        (am :: hws)).1.i2c.slaveTransactionLength = c ∧
      (I2C_IRQ_seq L (I2C_Slave_Configure L own buf c s0).1
        (am :: hws)).1.i2c.buffer_index ≤ c) ∧
    (∀ (r a p n : Nat) (sr3 : List Nat) (s0 s1 : State) (ev : List Event) (hws : List Hw),
      I2C_Transaction L r a p n sr3 s0 = some (s1, ev) →
      NoTransmitAtLength L s1 hws →
      (I2C_IRQ_seq L s1 hws).1.i2c.masterTransactionLength = n ∧
      ((I2C_IRQ_seq L s1 hws).1.i2c.masterMode ≠ 0 →
        (I2C_IRQ_seq L s1 hws).1.i2c.buffer_index ≤ n) ∧
      ((I2C_IRQ_seq L s1 hws).1.i2c.masterMode = 0 →
        (I2C_IRQ_seq L s1 hws).1.i2c.buffer_index ≤
          (I2C_IRQ_seq L s1 hws).1.i2c.slaveTransactionLength ∨
        (I2C_IRQ_seq L s1 hws).1.i2c.buffer_index = (n + 1) % 256)) := by
  constructor
  · intro own buf c s0 am hws hA
    obtain ⟨a1, a2, _, a4⟩ :=
      irq_slave_step L am (I2C_Slave_Configure L own buf c s0).1 rfl
    have hlen : (I2C_IRQ L am (I2C_Slave_Configure L own buf c s0).1).1.i2c.slaveTransactionLength
        = c := by rw [a2]; rfl
    obtain ⟨b1, b2, b3⟩ := seq_slave_bound L hws
      (I2C_IRQ L am (I2C_Slave_Configure L own buf c s0).1).1 a1
      (by rw [a4 hA]; exact Nat.zero_le _)
    simp only [I2C_IRQ_seq]
    exact ⟨b1, by rw [b2, hlen], Nat.le_trans b3 (Nat.le_of_eq hlen)⟩
  · intro r a p n sr3 s0 s1 ev hws harm hnt
    obtain ⟨_, _, _, f4, f5, f6⟩ := I2C_Transaction_fields L r a p n sr3 s0 s1 ev harm
    obtain ⟨b1, b2, b3, b4⟩ := seq_bound L hws s1 hnt
      (fun _ => by rw [f5]; exact Nat.zero_le _)
      (fun h0 => by rw [f6] at h0; exact absurd h0 (by decide))
    refine ⟨by rw [b1, f4], fun h => Nat.le_trans (b3 h) (Nat.le_of_eq f4), ?_⟩
    intro h0
    rcases b4 h0 with h | h
    · left; rw [b2]; exact h
    · right; rw [h, f4]

/-- C11 amended, instance: a slave with a 4-byte buffer that receives 5 bytes
ends with `buffer_index ≤ 4`; a 3-byte master write, whose three data
transmissions are taken below the length, ends in master role with
`buffer_index ≤ 3`; and a 2-byte master read followed by the exit branch ends in
slave role with `buffer_index` within the slave length or equal to 3. -/
theorem cursor_bound_witness :
    (flag stm8l15x.ADDR exSlaveAddr.SR1 = true ∧
      (I2C_IRQ_seq stm8l15x (I2C_Slave_Configure stm8l15x 0x20 100 4 exampleState).1
        [exSlaveAddr, exSlaveRx 1, exSlaveRx 2, exSlaveRx 3, exSlaveRx 4,
          exSlaveRx 5]).1.i2c.buffer_index ≤ 4) ∧
    (I2C_Transaction stm8l15x 0 0x50 100 3 [0x00] exampleState =
        some (exampleArmedWrite, [Event.setf Field.ACK 1, Event.setf Field.START 1]) ∧
      NoTransmitAtLength stm8l15x exampleArmedWrite [exStart, exAddrTx, exTx, exTx, exTx] ∧
      (I2C_IRQ_seq stm8l15x exampleArmedWrite
        [exStart, exAddrTx, exTx, exTx, exTx]).1.i2c.masterMode ≠ 0 ∧
      (I2C_IRQ_seq stm8l15x exampleArmedWrite
        [exStart, exAddrTx, exTx, exTx, exTx]).1.i2c.buffer_index ≤ 3) ∧
    (I2C_Transaction stm8l15x 1 0x50 100 2 [0x00] exampleState =
        some (exampleArmedRead, [Event.setf Field.ACK 1, Event.setf Field.START 1]) ∧
      NoTransmitAtLength stm8l15x exampleArmedRead
        [exStart, exAddrRx, exRx 7, exRx 9, exRx 11] ∧
      (I2C_IRQ_seq stm8l15x exampleArmedRead
        [exStart, exAddrRx, exRx 7, exRx 9, exRx 11]).1.i2c.masterMode = 0 ∧
      ((I2C_IRQ_seq stm8l15x exampleArmedRead
          [exStart, exAddrRx, exRx 7, exRx 9, exRx 11]).1.i2c.buffer_index ≤
        (I2C_IRQ_seq stm8l15x exampleArmedRead
          [exStart, exAddrRx, exRx 7, exRx 9, exRx 11]).1.i2c.slaveTransactionLength ∨
       (I2C_IRQ_seq stm8l15x exampleArmedRead
          [exStart, exAddrRx, exRx 7, exRx 9, exRx 11]).1.i2c.buffer_index = (2 + 1) % 256)) :=
  ⟨⟨by decide,
    ((cursor_bound stm8l15x).1 0x20 100 4 exampleState exSlaveAddr
      [exSlaveRx 1, exSlaveRx 2, exSlaveRx 3, exSlaveRx 4, exSlaveRx 5] (by decide)).2.2⟩,
   ⟨rfl, by decide, by decide,
    ((cursor_bound stm8l15x).2 0 0x50 100 3 [0x00] exampleState exampleArmedWrite
      [Event.setf Field.ACK 1, Event.setf Field.START 1]
      [exStart, exAddrTx, exTx, exTx, exTx] rfl (by decide)).2.1 (by decide)⟩,
   ⟨rfl, by decide, by decide,
    ((cursor_bound stm8l15x).2 1 0x50 100 2 [0x00] exampleState exampleArmedRead
      [Event.setf Field.ACK 1, Event.setf Field.START 1]
      [exStart, exAddrRx, exRx 7, exRx 9, exRx 11] rfl (by decide)).2.2 (by decide)⟩⟩

/-- The transmission left out of the bound, evaluated: after the completed
3-byte write (`buffer_index = masterTransactionLength = 3`) a further
Transmitting invocation is a transmission at the length, and it moves
`buffer_index` to 4 in master role. -/
theorem transmit_at_length_breaks_bound :
    TransmitsAtLength stm8l15x exTx
      (I2C_IRQ_seq stm8l15x exampleArmedWrite [exStart, exAddrTx, exTx, exTx, exTx]).1 ∧
    (I2C_IRQ stm8l15x exTx
      (I2C_IRQ_seq stm8l15x exampleArmedWrite
        [exStart, exAddrTx, exTx, exTx, exTx]).1).1.i2c.buffer_index = 4 := by
  decide

/-! ## Cursor monotonicity -/

/-- C12, counterexample: in master role with
`buffer_index = masterTransactionLength = 255` (a 255-byte read whose bytes
have all arrived), a Receiving invocation (`RXNE` set, `SB`, `ADDR`, `TRA`
clear: no address branch) takes the exit branch and its `buffer_index++`
wraps the 8-bit cursor from 255 to 0. -/
theorem cursor_monotone_counterexample :
    exampleRead255Done.i2c.masterMode = 1 ∧ exampleRead255Done.i2c.buffer_index = 255 ∧
    flag stm8l15x.ADDR (exRx 11).SR1 = false ∧
    (I2C_IRQ stm8l15x (exRx 11) exampleRead255Done).1.i2c.buffer_index = 0 ∧
    ¬ (exampleRead255Done.i2c.buffer_index ≤
        (I2C_IRQ stm8l15x (exRx 11) exampleRead255Done).1.i2c.buffer_index) := by
  decide

theorem roleBranch_index (L : Layout) (hw : Hw) (s : State)
    (hna : ¬ ((s.i2c.masterMode ≠ 0 ∧ flag L.SB hw.SR1 = false ∧ flag L.ADDR hw.SR1 = true) ∨
      (s.i2c.masterMode = 0 ∧ flag L.ADDR hw.SR1 = true))) :
    (roleBranch L hw s).1.i2c.buffer_index = s.i2c.buffer_index ∨
    ((roleBranch L hw s).1.i2c.buffer_index = (s.i2c.buffer_index + 1) % 256 ∧
      (s.i2c.masterMode = 0 → s.i2c.buffer_index < s.i2c.slaveTransactionLength)) := by
  by_cases hs : s.i2c.masterMode = 0
  · have hrole : roleBranch L hw s = slaveBranch L hw s := by simp [roleBranch, hs]
    rw [hrole]
    cases hA : flag L.ADDR hw.SR1
    · rcases (slaveBranch_index L hw s).2 hA with e | ⟨hlt, e⟩
      · exact Or.inl e
      · exact Or.inr ⟨e, fun _ => hlt⟩
    · exact absurd (Or.inr ⟨hs, hA⟩) hna
  · have hrole : roleBranch L hw s = masterBranch L hw s := by simp [roleBranch, hs]
    rw [hrole]
    obtain ⟨i1, _, i3⟩ := masterBranch_index L hw s
    cases hS : flag L.SB hw.SR1
    · cases hA : flag L.ADDR hw.SR1
      · rcases i3 hS hA with ⟨e, _⟩ | ⟨e, _⟩
        · exact Or.inl e
        · exact Or.inr ⟨e, fun h => absurd h hs⟩
      · exact absurd (Or.inl ⟨hs, hS, hA⟩) hna
    · exact Or.inl (i1 hS)

/-- C12, amended: `I2C_Transaction` sets `buffer_index` to 0, so does every
invocation of `I2C_IRQ` that takes an address branch (master: `ADDR` set with
`SB` clear; slave: `ADDR` set), and `I2C_Slave_Configure` leaves it unchanged.
An invocation that takes no address branch leaves `buffer_index` unchanged or
replaces it by `(buffer_index + 1) % 256`; so the value after is at least the
value before whenever the value before is below 255, and always in slave role
with `slaveTransactionLength ≤ 255`.  From 255 a master Receiving invocation
wraps it to 0. -/
theorem cursor_monotone (L : Layout) (hw : Hw) (s : State) :
    (∀ r a p n sr3 s1 ev, I2C_Transaction L r a p n sr3 s = some (s1, ev) →
      s1.i2c.buffer_index = 0) ∧
    (((s.i2c.masterMode ≠ 0 ∧ flag L.SB hw.SR1 = false ∧ flag L.ADDR hw.SR1 = true) ∨
        (s.i2c.masterMode = 0 ∧ flag L.ADDR hw.SR1 = true)) →
      (I2C_IRQ L hw s).1.i2c.buffer_index = 0) ∧
    (∀ own buf size,
      (I2C_Slave_Configure L own buf size s).1.i2c.buffer_index = s.i2c.buffer_index) ∧
    (¬ ((s.i2c.masterMode ≠ 0 ∧ flag L.SB hw.SR1 = false ∧ flag L.ADDR hw.SR1 = true) ∨
        (s.i2c.masterMode = 0 ∧ flag L.ADDR hw.SR1 = true)) →
      ((I2C_IRQ L hw s).1.i2c.buffer_index = s.i2c.buffer_index ∨
        (I2C_IRQ L hw s).1.i2c.buffer_index = (s.i2c.buffer_index + 1) % 256) ∧
      (s.i2c.buffer_index < 255 →
        s.i2c.buffer_index ≤ (I2C_IRQ L hw s).1.i2c.buffer_index) ∧
      (s.i2c.masterMode = 0 → s.i2c.slaveTransactionLength ≤ 255 →
        s.i2c.buffer_index ≤ (I2C_IRQ L hw s).1.i2c.buffer_index)) ∧
    (s.i2c.masterMode ≠ 0 → flag L.SB hw.SR1 = false → flag L.ADDR hw.SR1 = false →
      flag L.TRA hw.SR3 = false → flag L.RXNE hw.SR1 = true → s.i2c.buffer_index = 255 →
      (I2C_IRQ L hw s).1.i2c.buffer_index = 0) := by
  refine ⟨?_, ?_, ?_, ?_, ?_⟩
  · intro r a p n sr3 s1 ev h
    exact (I2C_Transaction_fields L r a p n sr3 s s1 ev h).2.2.2.2.1
  · intro h
    rw [irq_buffer_index]
    rcases h with ⟨hs, hS, hA⟩ | ⟨hs, hA⟩
    · have hrole : roleBranch L hw s = masterBranch L hw s := by simp [roleBranch, hs]
      rw [hrole]
      exact (masterBranch_index L hw s).2.1 hS hA
    · have hrole : roleBranch L hw s = slaveBranch L hw s := by simp [roleBranch, hs]
      rw [hrole]
      exact (slaveBranch_index L hw s).1 hA
  · intro own buf size
    rfl
  · intro hna
    rw [irq_buffer_index]
    rcases roleBranch_index L hw s hna with e | ⟨e, hsl⟩
    · exact ⟨Or.inl e, fun _ => Nat.le_of_eq e.symm, fun _ _ => Nat.le_of_eq e.symm⟩
    · refine ⟨Or.inr e, ?_, ?_⟩
      · intro hlt
        rw [e, Nat.mod_eq_of_lt (by omega)]
        exact Nat.le_succ _
      · intro hs hlen
        have := hsl hs
        rw [e, Nat.mod_eq_of_lt (by omega)]
        exact Nat.le_succ _
  · intro hs hS hA hT hR hidx
    rw [irq_buffer_index]
    have hrole : roleBranch L hw s = masterBranch L hw s := by simp [roleBranch, hs]
    rw [hrole]
    rcases (masterBranch_index L hw s).2.2 hS hA with ⟨_, _, h2⟩ | ⟨e, _⟩
    · rw [h2 hT] at hR; exact Bool.noConfusion hR
    · rw [e, hidx]

/-- C12 amended, instance: a Receiving invocation in the middle of a 2-byte
read takes no address branch and moves `buffer_index` from 0 to 1. -/
theorem cursor_monotone_witness :
    ¬ ((exampleArmedRead.i2c.masterMode ≠ 0 ∧ flag stm8l15x.SB (exRx 7).SR1 = false ∧
          flag stm8l15x.ADDR (exRx 7).SR1 = true) ∨
        (exampleArmedRead.i2c.masterMode = 0 ∧ flag stm8l15x.ADDR (exRx 7).SR1 = true)) ∧
    exampleArmedRead.i2c.buffer_index < 255 ∧
    exampleArmedRead.i2c.buffer_index ≤
      (I2C_IRQ stm8l15x (exRx 7) exampleArmedRead).1.i2c.buffer_index :=
  ⟨by decide, by decide,
    ((cursor_monotone stm8l15x (exRx 7) exampleArmedRead).2.2.2.1 (by decide)).2.1
      (by decide)⟩

/-! ## Arming and configuration -/

theorem flag_setBit_of_flag (reg pos q : Nat) (h : flag q reg = true) :
    flag q (setBit reg pos) = true := by
  unfold flag at h
  simp [flag, setBit, Nat.testBit_or, h]

theorem waitBusFree_none (L : Layout) (sr3 : List Nat)
    (h : ∀ x ∈ sr3, flag L.BUSY x = true) : waitBusFree L sr3 = none := by
  induction sr3 with
  | nil => rfl
  | cons x rest ih =>
    unfold waitBusFree
    rw [if_pos (h x (List.mem_cons_self _ _))]
    exact ih (fun y hy => h y (List.mem_cons_of_mem _ hy))

theorem waitBusFree_some (L : Layout) (sr3 rest : List Nat)
    (h : waitBusFree L sr3 = some rest) : ∃ x ∈ sr3, flag L.BUSY x = false := by
  induction sr3 with
  | nil => simp [waitBusFree] at h
  | cons x xs ih =>
    unfold waitBusFree at h
    cases hb : flag L.BUSY x
    · exact ⟨x, List.mem_cons_self _ _, hb⟩
    · rw [if_pos hb] at h
      obtain ⟨y, hy, hy2⟩ := ih h
      exact ⟨y, List.mem_cons_of_mem _ hy, hy2⟩

/-- C13: arming.  When some reading of `BUSY` is 0, `I2C_Transaction(r, a, p, n)`
returns; it has then written `ACK = 1` and after it `START = 1` and nothing
else, and the context holds `readwrite = r`, `SlaveAddress = a`,
`masterBuffer = p`, `masterTransactionLength = n`, `buffer_index = 0`,
`masterMode = 1`, with `slaveBuffer`, `slaveTransactionLength` and the memory
unchanged.  While every reading is busy it has not returned and has written
nothing; whenever it returns, a reading with `BUSY` clear has been seen.
`I2C_Read` is `I2C_Transaction` with direction 1 and `I2C_Write` with
direction 0. -/
theorem arming_postcondition (L : Layout) (r a p n : Nat) (sr3 : List Nat) (s : State) :
    ((∃ x ∈ sr3, flag L.BUSY x = false) →
      ∃ s1, I2C_Transaction L r a p n sr3 s =
          some (s1, [Event.setf Field.ACK 1, Event.setf Field.START 1]) ∧
        s1.i2c.readwrite = r ∧ s1.i2c.SlaveAddress = a ∧ s1.i2c.masterBuffer = p ∧
        s1.i2c.masterTransactionLength = n ∧ s1.i2c.buffer_index = 0 ∧
        s1.i2c.masterMode = 1 ∧ s1.i2c.slaveBuffer = s.i2c.slaveBuffer ∧
        s1.i2c.slaveTransactionLength = s.i2c.slaveTransactionLength ∧
        s1.mem = s.mem ∧ flag L.ACK s1.CR2 = true ∧ flag L.START s1.CR2 = true) ∧
    ((∀ x ∈ sr3, flag L.BUSY x = true) → I2C_Transaction L r a p n sr3 s = none) ∧
    (∀ s1 ev, I2C_Transaction L r a p n sr3 s = some (s1, ev) →
      ∃ x ∈ sr3, flag L.BUSY x = false) ∧
    I2C_Read L a p n sr3 s = I2C_Transaction L 1 a p n sr3 s ∧
    I2C_Write L a p n sr3 s = I2C_Transaction L 0 a p n sr3 s := by
  refine ⟨?_, ?_, ?_, rfl, rfl⟩
  · intro hfree
    refine ⟨_, I2C_Transaction_eq L r a p n sr3 s hfree, rfl, rfl, rfl, rfl, rfl, rfl, rfl,
      rfl, rfl, ?_, ?_⟩
    · exact flag_setBit_of_flag _ _ _ (flag_setBit_self _ _)
    · exact flag_setBit_self _ _
  · intro hbusy
    simp [I2C_Transaction, waitBusFree_none L sr3 hbusy]
  · intro s1 ev h
    unfold I2C_Transaction at h
    cases hw : waitBusFree L sr3 with
    | none => simp [hw] at h
    | some rest => exact waitBusFree_some L sr3 rest hw

/-- C13, instance: with the readings busy, busy, idle the call returns with
the context armed for a 3-byte write to `0x50`. -/
theorem arming_postcondition_witness :
    (∃ x ∈ [0x02, 0x02, 0x00], flag stm8l15x.BUSY x = false) ∧
    (∀ x ∈ [0x02, 0x02], flag stm8l15x.BUSY x = true) ∧
    (∃ s1, I2C_Transaction stm8l15x 0 0x50 100 3 [0x02, 0x02, 0x00] exampleState =
        some (s1, [Event.setf Field.ACK 1, Event.setf Field.START 1]) ∧
      s1.i2c.masterTransactionLength = 3 ∧ s1.i2c.buffer_index = 0 ∧
      s1.i2c.masterMode = 1) ∧
    I2C_Transaction stm8l15x 0 0x50 100 3 [0x02, 0x02] exampleState = none :=
  ⟨by decide, by decide,
    ((arming_postcondition stm8l15x 0 0x50 100 3 [0x02, 0x02, 0x00] exampleState).1
      (by decide)).imp (fun _ h => ⟨h.1, h.2.2.2.2.1, h.2.2.2.2.2.1, h.2.2.2.2.2.2.1⟩),
    (arming_postcondition stm8l15x 0 0x50 100 3 [0x02, 0x02] exampleState).2.1 (by decide)⟩

/-- C14, counterexample: with the 7-bit own-address field of the STM8L,
`I2C_Slave_Configure(0x80, buf, 4)` leaves 0 in the field, not `0x80`. -/
theorem slave_configure_counterexample :
    (I2C_Slave_Configure stm8l15x 0x80 100 4 exampleState).1.OARL_ADD = 0 ∧
    (I2C_Slave_Configure stm8l15x 0x80 100 4 exampleState).1.OARL_ADD ≠ 0x80 := by
  decide

/-- C14, amended: `I2C_Slave_Configure(address, buffer, size)` writes the
address into the own-address bit-field, which keeps `address` modulo 2 to the
width of the field, hence the address itself when it fits the field (a 7-bit
address on the STM8L); it stores `slaveBuffer = buffer` and
`slaveTransactionLength = size` as they are, whatever the size, sets
`masterMode = 0` and writes `ACK = 1`; it leaves `SlaveAddress`,
`masterBuffer`, `masterTransactionLength`, `readwrite`, `buffer_index` and the
memory unchanged; a second call replaces the buffer and the capacity. -/
theorem slave_configure_postcondition (L : Layout) (address buffer size : Nat) (s : State) :
    (I2C_Slave_Configure L address buffer size s).1.OARL_ADD = address % 2 ^ L.ADD_width ∧
    (address < 2 ^ L.ADD_width →
      (I2C_Slave_Configure L address buffer size s).1.OARL_ADD = address) ∧
    (I2C_Slave_Configure L address buffer size s).1.i2c.slaveBuffer = buffer ∧
    (I2C_Slave_Configure L address buffer size s).1.i2c.slaveTransactionLength = size ∧
    (I2C_Slave_Configure L address buffer size s).1.i2c.masterMode = 0 ∧
    flag L.ACK (I2C_Slave_Configure L address buffer size s).1.CR2 = true ∧
    (I2C_Slave_Configure L address buffer size s).2 =
      [Event.setf Field.OARL_ADD (address % 2 ^ L.ADD_width), Event.setf Field.ACK 1] ∧
    (I2C_Slave_Configure L address buffer size s).1.i2c.SlaveAddress = s.i2c.SlaveAddress ∧
    (I2C_Slave_Configure L address buffer size s).1.i2c.masterBuffer = s.i2c.masterBuffer ∧
    (I2C_Slave_Configure L address buffer size s).1.i2c.masterTransactionLength =
      s.i2c.masterTransactionLength ∧
    (I2C_Slave_Configure L address buffer size s).1.i2c.readwrite = s.i2c.readwrite ∧
    (I2C_Slave_Configure L address buffer size s).1.i2c.buffer_index = s.i2c.buffer_index ∧
    (I2C_Slave_Configure L address buffer size s).1.mem = s.mem ∧
    (∀ address2 buffer2 size2,
      (I2C_Slave_Configure L address2 buffer2 size2
        (I2C_Slave_Configure L address buffer size s).1).1.i2c.slaveBuffer = buffer2 ∧
      (I2C_Slave_Configure L address2 buffer2 size2
        (I2C_Slave_Configure L address buffer size s).1).1.i2c.slaveTransactionLength =
          size2) := by
  refine ⟨rfl, ?_, rfl, rfl, rfl, flag_setBit_self _ _, rfl, rfl, rfl, rfl, rfl, rfl, rfl,
    fun _ _ _ => ⟨rfl, rfl⟩⟩
  intro h
  exact Nat.mod_eq_of_lt h

/-- C14 amended, instance: the 7-bit address `0x20` is stored as it is, with a
buffer of size 255. -/
theorem slave_configure_postcondition_witness :
    0x20 < 2 ^ stm8l15x.ADD_width ∧
    (I2C_Slave_Configure stm8l15x 0x20 100 255 exampleState).1.OARL_ADD = 0x20 ∧
    (I2C_Slave_Configure stm8l15x 0x20 100 255 exampleState).1.i2c.slaveTransactionLength
      = 255 :=
  ⟨by decide,
    (slave_configure_postcondition stm8l15x 0x20 100 255 exampleState).2.1 (by decide),
    (slave_configure_postcondition stm8l15x 0x20 100 255 exampleState).2.2.2.1⟩

/-! ## Unexpected flag combinations -/

theorem epilogue_no_stop_flag (L : Layout) (hw : Hw) (t : State)
    (hF : flag L.STOPF hw.SR1 = false) :
    ∃ c, (epilogue L hw t).1 = { t with CR2 := c } := by
  obtain ⟨c, hc⟩ := errorHandling_state L hw t
  refine ⟨c, ?_⟩
  simp [epilogue, stopHandling, hF, hc]

/-- C15, counterexample: a master write meets an acknowledge failure: `TRA`
set, `TXE`, `SB`, `ADDR` and `STOPF` clear, `AF` set in `SR2`.  The handler
emits the diagnostic message, and its epilogue clears `AF`, requests Stop and
calls `i2c_user_Error_Callback(0x04)`. -/
theorem unexpected_flags_counterexample :
    exampleArmedWrite.i2c.masterMode ≠ 0 ∧ flag stm8l15x.SB exNackTx.SR1 = false ∧
    flag stm8l15x.ADDR exNackTx.SR1 = false ∧ flag stm8l15x.TRA exNackTx.SR3 = true ∧
    flag stm8l15x.TXE exNackTx.SR1 = false ∧ flag stm8l15x.STOPF exNackTx.SR1 = false ∧
    (I2C_IRQ stm8l15x exNackTx exampleArmedWrite).2 =
      [Event.Printf "TRA, no TXE and not Stop !\n\r", Event.rd Reg.SR2,
       Event.setf Field.AF 0, Event.setf Field.STOP 1, Event.Error_Callback 0x04] := by
  decide

/-- C15, amended: in master role with `SB`, `ADDR` and `STOPF` clear and the
expected data flag missing (`TRA` set with `TXE` clear, or `TRA` clear with
`RXNE` clear), the role branch only emits the diagnostic message; the whole
invocation leaves the transaction context and the memory unchanged, accesses
neither the data register nor a buffer, calls no completion callback and
writes neither the Start nor the acknowledge bit.  When in addition no error
bit is read (`SR2 & 0x0F = 0`) the invocation is exactly the diagnostic
message followed by the read of `SR2`: no Stop request and no error callback,
state unchanged. -/
theorem unexpected_flags_log_only (L : Layout) (hw : Hw) (s : State)
    (hm : s.i2c.masterMode ≠ 0) (hS : flag L.SB hw.SR1 = false)
    (hA : flag L.ADDR hw.SR1 = false) (hF : flag L.STOPF hw.SR1 = false)
    (hcomb : (flag L.TRA hw.SR3 = true ∧ flag L.TXE hw.SR1 = false) ∨
      (flag L.TRA hw.SR3 = false ∧ flag L.RXNE hw.SR1 = false)) :
    roleBranch L hw s =
      (s, [Event.Printf (if flag L.TRA hw.SR3 = true then "TRA, no TXE and not Stop !\n\r"
                         else "Not TRA, no RXNE and not StopF !\n\r")]) ∧
    (I2C_IRQ L hw s).1.i2c = s.i2c ∧ (I2C_IRQ L hw s).1.mem = s.mem ∧
    (∀ e ∈ (I2C_IRQ L hw s).2,
      isDataRegisterAccess e = false ∧ isBufferAccess e = false ∧
      isCompletionCallback e = false ∧
      (∀ v, e ≠ Event.setf Field.START v) ∧ (∀ v, e ≠ Event.setf Field.ACK v)) ∧
    (hw.SR2 &&& 0x0F = 0 →
      I2C_IRQ L hw s =
        (s, [Event.Printf (if flag L.TRA hw.SR3 = true then "TRA, no TXE and not Stop !\n\r"
                           else "Not TRA, no RXNE and not StopF !\n\r"), Event.rd Reg.SR2])) := by
  have hrole : roleBranch L hw s =
      (s, [Event.Printf (if flag L.TRA hw.SR3 = true then "TRA, no TXE and not Stop !\n\r"
                         else "Not TRA, no RXNE and not StopF !\n\r")]) := by
    have h0 : roleBranch L hw s = masterBranch L hw s := by simp [roleBranch, hm]
    rw [h0]
    rcases hcomb with ⟨hT, hX⟩ | ⟨hT, hR⟩
    · rw [masterBranch_tx_log L hw s hS hA hT hX hF, if_pos hT]
    · rw [masterBranch_rx_log L hw s hS hA hT hR hF, if_neg (by simp [hT])]
  obtain ⟨c, hc⟩ := epilogue_no_stop_flag L hw s hF
  have hst : (I2C_IRQ L hw s).1 = { s with CR2 := c } := by
    simp only [I2C_IRQ, hrole, hc]
  have htr : (I2C_IRQ L hw s).2 =
      Event.Printf (if flag L.TRA hw.SR3 = true then "TRA, no TXE and not Stop !\n\r"
                    else "Not TRA, no RXNE and not StopF !\n\r") :: (epilogue L hw s).2 := by
    simp only [I2C_IRQ, hrole, List.singleton_append]
  refine ⟨hrole, by rw [hst], by rw [hst], ?_, ?_⟩
  · intro e he
    rw [htr, List.mem_cons] at he
    rcases he with rfl | he
    · simp [isDataRegisterAccess, isBufferAccess, isCompletionCallback]
    · rcases epilogue_events L hw _ _ he with h | h | h | h | h | h | h | h | h <;>
        simp [h, isDataRegisterAccess, isBufferAccess, isCompletionCallback]
  · intro h0
    have hep : epilogue L hw s = (s, [Event.rd Reg.SR2]) := by
      simp [epilogue, errorHandling, stopHandling, h0, hF]
    simp only [I2C_IRQ, hrole, hep, List.singleton_append]

/-- C15 amended, instance: `TRA` set and nothing else: only the message and
the read of `SR2`. -/
theorem unexpected_flags_log_only_witness :
    exampleArmedWrite.i2c.masterMode ≠ 0 ∧ flag stm8l15x.SB exTraOnly.SR1 = false ∧
    flag stm8l15x.ADDR exTraOnly.SR1 = false ∧ flag stm8l15x.STOPF exTraOnly.SR1 = false ∧
    ((flag stm8l15x.TRA exTraOnly.SR3 = true ∧ flag stm8l15x.TXE exTraOnly.SR1 = false) ∨
      (flag stm8l15x.TRA exTraOnly.SR3 = false ∧ flag stm8l15x.RXNE exTraOnly.SR1 = false)) ∧
    exTraOnly.SR2 &&& 0x0F = 0 ∧
    (I2C_IRQ stm8l15x exTraOnly exampleArmedWrite).2 =
      [Event.Printf "TRA, no TXE and not Stop !\n\r", Event.rd Reg.SR2] :=
  ⟨by decide, by decide, by decide, by decide, by decide, by decide,
    congrArg Prod.snd
      ((unexpected_flags_log_only stm8l15x exTraOnly exampleArmedWrite (by decide) (by decide)
        (by decide) (by decide) (by decide)).2.2.2.2 (by decide))⟩

/-! ## Master-read exit branch -/

/-- C16: in master role, on an invocation with `RXNE` set and `SB`, `ADDR`,
`TRA` clear while `buffer_index ≥ masterTransactionLength` (which includes
every such invocation with `masterTransactionLength = 0`, the comparison with
`length - 1` being made on integers), the role branch is exactly: read the
data register, set `masterMode = 0`, write `ACK = 1`, increment `buffer_index`
modulo 256.  The invocation stores nothing into memory, does not write
`ACK = 0`, does not call `i2c_user_Rx_Callback`, and the role branch requests no
Stop. -/
theorem master_read_exit_branch (L : Layout) (hw : Hw) (s : State)
    (hm : s.i2c.masterMode ≠ 0) (hS : flag L.SB hw.SR1 = false)
    (hA : flag L.ADDR hw.SR1 = false) (hT : flag L.TRA hw.SR3 = false)
    (hR : flag L.RXNE hw.SR1 = true)
    (hidx : s.i2c.masterTransactionLength ≤ s.i2c.buffer_index) :
    roleBranch L hw s =
      ({ s with i2c := { s.i2c with masterMode := 0,
                                    buffer_index := (s.i2c.buffer_index + 1) % 256 }
                CR2 := setBit s.CR2 L.ACK },
       [Event.rd Reg.DR, Event.setf Field.ACK 1]) ∧
    flag L.ACK (roleBranch L hw s).1.CR2 = true ∧
    (I2C_IRQ L hw s).1.i2c.masterMode = 0 ∧
    (I2C_IRQ L hw s).1.i2c.buffer_index = (s.i2c.buffer_index + 1) % 256 ∧
    (I2C_IRQ L hw s).1.mem = s.mem ∧
    (∀ e ∈ (I2C_IRQ L hw s).2,
      isBufferAccess e = false ∧ e ≠ Event.setf Field.ACK 0 ∧
      (∀ p n, e ≠ Event.Rx_Callback p n)) ∧
    (s.i2c.masterTransactionLength = 0 →
      ¬ ((s.i2c.buffer_index : Int) = (s.i2c.masterTransactionLength : Int) - 1)) := by
  have hb := masterBranch_rx_exit L hw s hS hA hT hR hidx
  have hrole : roleBranch L hw s = masterBranch L hw s := by simp [roleBranch, hm]
  obtain ⟨r, c, hst⟩ := irq_state L hw s
  rw [hrole, hb] at hst
  refine ⟨by rw [hrole, hb], by rw [hrole, hb]; exact flag_setBit_self _ _, by rw [hst],
    by rw [hst], by rw [hst], ?_, ?_⟩
  · intro e he
    simp only [I2C_IRQ, hrole, hb, List.mem_append] at he
    rcases he with he | he
    · simp only [List.mem_cons, List.mem_singleton, List.not_mem_nil, or_false] at he
      rcases he with rfl | rfl <;> simp [isBufferAccess]
    · rcases epilogue_events L hw _ _ he with h | h | h | h | h | h | h | h | h <;>
        simp [h, isBufferAccess]
  · intro h0
    omega

/-- C16, instance: with `masterTransactionLength = 0` and `buffer_index = 255`
the exit branch is taken (no completion callback, no Stop) and the cursor
wraps to 0. -/
theorem master_read_exit_branch_witness :
    exampleReadZero255.i2c.masterMode ≠ 0 ∧ flag stm8l15x.SB (exRx 7).SR1 = false ∧
    flag stm8l15x.ADDR (exRx 7).SR1 = false ∧ flag stm8l15x.TRA (exRx 7).SR3 = false ∧
    flag stm8l15x.RXNE (exRx 7).SR1 = true ∧
    exampleReadZero255.i2c.masterTransactionLength ≤ exampleReadZero255.i2c.buffer_index ∧
    (I2C_IRQ stm8l15x (exRx 7) exampleReadZero255).1.i2c.masterMode = 0 ∧
    (I2C_IRQ stm8l15x (exRx 7) exampleReadZero255).1.i2c.buffer_index = 0 :=
  ⟨by decide, by decide, by decide, by decide, by decide, by decide,
    (master_read_exit_branch stm8l15x (exRx 7) exampleReadZero255 (by decide) (by decide)
      (by decide) (by decide) (by decide) (by decide)).2.2.1,
    (master_read_exit_branch stm8l15x (exRx 7) exampleReadZero255 (by decide) (by decide)
      (by decide) (by decide) (by decide) (by decide)).2.2.2.1⟩

/-! ## The role selects the half of the handler -/

theorem epilogue_setMasterFields (L : Layout) (hw : Hw) (a r p n : Nat) (t : State) :
    epilogue L hw (setMasterFields a r p n t) =
      (setMasterFields a r p n (epilogue L hw t).1, (epilogue L hw t).2) := by
  unfold epilogue errorHandling stopHandling setMasterFields
  dsimp only
  split_ifs <;> rfl

theorem epilogue_setSlaveFields (L : Layout) (hw : Hw) (b c : Nat) (t : State) :
    epilogue L hw (setSlaveFields b c t) =
      (setSlaveFields b c (epilogue L hw t).1, (epilogue L hw t).2) := by
  unfold epilogue errorHandling stopHandling setSlaveFields
  dsimp only
  split_ifs <;> rfl

theorem slaveBranch_setMasterFields (L : Layout) (hw : Hw) (a r p n : Nat) (s : State) :
    slaveBranch L hw (setMasterFields a r p n s) =
      (setMasterFields a r p n (slaveBranch L hw s).1, (slaveBranch L hw s).2) := by
  unfold slaveBranch setMasterFields
  dsimp only
  split_ifs <;> rfl

theorem masterBranch_setSlaveFields (L : Layout) (hw : Hw) (b c : Nat) (s : State) :
    masterBranch L hw (setSlaveFields b c s) =
      (setSlaveFields b c (masterBranch L hw s).1, (masterBranch L hw s).2) := by
  unfold masterBranch masterTransmit masterReceive setSlaveFields
  dsimp only
  split_ifs <;> rfl

theorem slaveBranch_events (L : Layout) (hw : Hw) (s : State) :
    ∀ e ∈ (slaveBranch L hw s).2,
      (∀ x, e = Event.load x → x = s.i2c.slaveBuffer + s.i2c.buffer_index) ∧
      (∀ x v, e = Event.store x v → x = s.i2c.slaveBuffer + s.i2c.buffer_index) ∧
      (∀ p n, e ≠ Event.Tx_Callback p n) ∧ (∀ p n, e ≠ Event.Rx_Callback p n) := by
  unfold slaveBranch
  dsimp only
  split_ifs <;> simp

theorem masterBranch_events (L : Layout) (hw : Hw) (s : State) :
    ∀ e ∈ (masterBranch L hw s).2,
      (∀ x, e = Event.load x → x = s.i2c.masterBuffer + s.i2c.buffer_index) ∧
      (∀ x v, e = Event.store x v → x = s.i2c.masterBuffer + s.i2c.buffer_index) ∧
      (∀ p n, e ≠ Event.Slave_Tx_Callback p n) ∧ (∀ p n, e ≠ Event.Slave_Rx_Callback p n) := by
  unfold masterBranch masterTransmit masterReceive
  dsimp only
  split_ifs <;> simp

theorem epilogue_events_plain (L : Layout) (hw : Hw) (t : State) :
    ∀ e ∈ (epilogue L hw t).2,
      isBufferAccess e = false ∧ isCompletionCallback e = false ∧
      isDataRegisterAccess e = false := by
  intro e he
  rcases epilogue_events L hw _ _ he with h | h | h | h | h | h | h | h | h <;>
    simp [h, isBufferAccess, isCompletionCallback, isDataRegisterAccess]

/-- C17: the role selects the half of the handler that runs.  In slave role
one invocation of `I2C_IRQ` produces the same events, and the same resulting
state up to the four master-side fields, whatever the values of `SlaveAddress`,
`readwrite`, `masterBuffer` and `masterTransactionLength`; its buffer accesses
all go through `slaveBuffer` at `buffer_index`, and it calls neither master
completion callback.  In master role the same holds with the roles exchanged:
independence of `slaveBuffer` and `slaveTransactionLength`, buffer accesses
only through `masterBuffer`, no slave completion callback. -/
theorem role_determines_half (L : Layout) (hw : Hw) (s : State) :
    (s.i2c.masterMode = 0 →
      (∀ a r p n, I2C_IRQ L hw (setMasterFields a r p n s) =
        (setMasterFields a r p n (I2C_IRQ L hw s).1, (I2C_IRQ L hw s).2)) ∧
      (∀ e ∈ (I2C_IRQ L hw s).2,
        (∀ x, e = Event.load x → x = s.i2c.slaveBuffer + s.i2c.buffer_index) ∧
        (∀ x v, e = Event.store x v → x = s.i2c.slaveBuffer + s.i2c.buffer_index) ∧
        (∀ p n, e ≠ Event.Tx_Callback p n) ∧ (∀ p n, e ≠ Event.Rx_Callback p n))) ∧
    (s.i2c.masterMode ≠ 0 →
      (∀ b c, I2C_IRQ L hw (setSlaveFields b c s) =
        (setSlaveFields b c (I2C_IRQ L hw s).1, (I2C_IRQ L hw s).2)) ∧
      (∀ e ∈ (I2C_IRQ L hw s).2,
        (∀ x, e = Event.load x → x = s.i2c.masterBuffer + s.i2c.buffer_index) ∧
        (∀ x v, e = Event.store x v → x = s.i2c.masterBuffer + s.i2c.buffer_index) ∧
        (∀ p n, e ≠ Event.Slave_Tx_Callback p n) ∧
        (∀ p n, e ≠ Event.Slave_Rx_Callback p n))) := by
  constructor
  · intro hs
    have hrole : roleBranch L hw s = slaveBranch L hw s := by simp [roleBranch, hs]
    constructor
    · intro a r p n
      have hrole2 : roleBranch L hw (setMasterFields a r p n s) =
          slaveBranch L hw (setMasterFields a r p n s) := by
        simp [roleBranch, setMasterFields, hs]
      simp only [I2C_IRQ, hrole, hrole2, slaveBranch_setMasterFields,
        epilogue_setMasterFields]
    · intro e he
      simp only [I2C_IRQ, hrole, List.mem_append] at he
      rcases he with he | he
      · exact slaveBranch_events L hw s e he
      · obtain ⟨h1, h2, _⟩ := epilogue_events_plain L hw _ e he
        refine ⟨?_, ?_, ?_, ?_⟩
        · intro x hx; subst hx; simp [isBufferAccess] at h1
        · intro x v hx; subst hx; simp [isBufferAccess] at h1
        · intro p n hx; subst hx; simp [isCompletionCallback] at h2
        · intro p n hx; subst hx; simp [isCompletionCallback] at h2
  · intro hm
    have hrole : roleBranch L hw s = masterBranch L hw s := by simp [roleBranch, hm]
    constructor
    · intro b c
      have hrole2 : roleBranch L hw (setSlaveFields b c s) =
          masterBranch L hw (setSlaveFields b c s) := by
        simp [roleBranch, setSlaveFields, hm]
      simp only [I2C_IRQ, hrole, hrole2, masterBranch_setSlaveFields,
        epilogue_setSlaveFields]
    · intro e he
      simp only [I2C_IRQ, hrole, List.mem_append] at he
      rcases he with he | he
      · exact masterBranch_events L hw s e he
      · obtain ⟨h1, h2, _⟩ := epilogue_events_plain L hw _ e he
        refine ⟨?_, ?_, ?_, ?_⟩
        · intro x hx; subst hx; simp [isBufferAccess] at h1
        · intro x v hx; subst hx; simp [isBufferAccess] at h1
        · intro p n hx; subst hx; simp [isCompletionCallback] at h2
        · intro p n hx; subst hx; simp [isCompletionCallback] at h2

/-- C17, instance: a slave receive event gives the same events whether the
master-side fields are zero or those of an armed read. -/
theorem role_determines_half_witness :
    exampleSlave3.i2c.masterMode = 0 ∧
    (I2C_IRQ stm8l15x (exSlaveRx 7) (setMasterFields 0x50 1 200 9 exampleSlave3)).2 =
      (I2C_IRQ stm8l15x (exSlaveRx 7) exampleSlave3).2 :=
  ⟨by decide,
    (congrArg Prod.snd
      (((role_determines_half stm8l15x (exSlaveRx 7) exampleSlave3).1 (by decide)).1
        0x50 1 200 9)).trans rfl⟩

/-! ## Bounds of the master buffer accesses -/

/-- C18, the code at the failing input: after `I2C_Write(0x50, b, 3)` and the
Start-Sent, Address-Sent and three Transmitting invocations that complete the
transfer, `buffer_index = masterTransactionLength = 3`; one more Transmitting
invocation reads `masterBuffer[3]`, beyond the 3-byte buffer, and writes that
byte (`0xAA`) to the data register. -/
theorem master_transmit_reads_past_length :
    (I2C_Write stm8l15x 0x50 100 3 [0x00] exampleState).map
      (fun r =>
        ((I2C_IRQ_seq stm8l15x r.1 [exStart, exAddrTx, exTx, exTx, exTx]).1.i2c.buffer_index,
         (I2C_IRQ stm8l15x exTx
            (I2C_IRQ_seq stm8l15x r.1 [exStart, exAddrTx, exTx, exTx, exTx]).1).2)) =
    some (3, [Event.load 103, Event.wr Reg.DR 0xAA, Event.rd Reg.SR2]) := by
  decide

/-- The receiving half of the bound: in master role every store of an
invocation is at `masterBuffer + buffer_index` with
`buffer_index < masterTransactionLength`. -/
theorem master_receive_store_bounded (L : Layout) (hw : Hw) (s : State)
    (hm : s.i2c.masterMode ≠ 0) (addr v : Nat)
    (h : Event.store addr v ∈ (I2C_IRQ L hw s).2) :
    s.i2c.buffer_index < s.i2c.masterTransactionLength ∧
    addr = s.i2c.masterBuffer + s.i2c.buffer_index := by
  have hrole : roleBranch L hw s = masterBranch L hw s := by simp [roleBranch, hm]
  simp only [I2C_IRQ, hrole, List.mem_append] at h
  rcases h with h | h
  · revert h
    unfold masterBranch masterTransmit masterReceive
    dsimp only
    split_ifs <;> simp_all
  · have := (epilogue_events_plain L hw _ _ h).1
    simp [isBufferAccess] at this

/-! ## Stop handling -/

/-- C19: when `STOPF` is set, an invocation of `I2C_IRQ` ends with a read of
`SR1` followed by the write `CR2 = 0x00`, in either role and whatever came
before in the invocation, so that on return `CR2` is 0 and its acknowledge,
Start and Stop bits are clear.  When `STOPF` is clear the stop handling does
nothing.  In both cases the stop handling changes no field of the transaction
context other than the scratch field `reg`, and leaves the memory alone. -/
theorem stop_clears_control_register (L : Layout) (hw : Hw) (s : State) :
    (flag L.STOPF hw.SR1 = true →
      (∃ pre, (I2C_IRQ L hw s).2 = pre ++ [Event.rd Reg.SR1, Event.wr Reg.CR2 0x00]) ∧
      (I2C_IRQ L hw s).1.CR2 = 0 ∧
      flag L.ACK (I2C_IRQ L hw s).1.CR2 = false ∧
      flag L.START (I2C_IRQ L hw s).1.CR2 = false ∧
      flag L.STOP (I2C_IRQ L hw s).1.CR2 = false) ∧
    (flag L.STOPF hw.SR1 = false → ∀ t, stopHandling L hw t = (t, [])) ∧
    (∀ t, (stopHandling L hw t).1.i2c =
        { t.i2c with reg := (stopHandling L hw t).1.i2c.reg } ∧
      (stopHandling L hw t).1.mem = t.mem ∧
      (stopHandling L hw t).1.OARL_ADD = t.OARL_ADD) := by
  refine ⟨?_, ?_, ?_⟩
  · intro hF
    have hsh : ∀ t, stopHandling L hw t =
        ({ t with i2c := { t.i2c with reg := hw.SR1 }, CR2 := 0x00 },
         [Event.rd Reg.SR1, Event.wr Reg.CR2 0x00]) := by
      intro t; simp [stopHandling, hF]
    have hcr : (I2C_IRQ L hw s).1.CR2 = 0 := by
      simp only [I2C_IRQ, epilogue, hsh]
    refine ⟨⟨(roleBranch L hw s).2 ++ (errorHandling L hw (roleBranch L hw s).1).2, ?_⟩,
      hcr, ?_, ?_, ?_⟩
    · simp only [I2C_IRQ, epilogue, hsh, List.append_assoc]
    · rw [hcr]; simp [flag]
    · rw [hcr]; simp [flag]
    · rw [hcr]; simp [flag]
  · intro hF t
    simp [stopHandling, hF]
  · intro t
    unfold stopHandling
    split_ifs <;> exact ⟨rfl, rfl, rfl⟩

/-- C19, instance: a slave receive reading with `STOPF` also set: the role
branch writes `ACK = 1`, and the invocation returns with `CR2 = 0`. -/
theorem stop_clears_control_register_witness :
    flag stm8l15x.STOPF exSlaveRxStop.SR1 = true ∧
    (I2C_IRQ stm8l15x exSlaveRxStop exampleSlave3).2 =
      [Event.rd Reg.DR, Event.store 100 7, Event.setf Field.ACK 1, Event.rd Reg.SR2,
       Event.rd Reg.SR1, Event.wr Reg.CR2 0x00] ∧
    (I2C_IRQ stm8l15x exSlaveRxStop exampleSlave3).1.CR2 = 0 :=
  ⟨by decide, by decide,
    ((stop_clears_control_register stm8l15x exSlaveRxStop exampleSlave3).1 (by decide)).2.1⟩

end STM8
